import Mathlib

/-!
# A shallow embedding of the ray tracer `brandonmpark/raytracer`

The Go program computes with `float64`.  Here a scalar is an element of an
arbitrary linear ordered field `F` (so the definitions run on `ℚ` and the
theorems hold on `ℝ`), and the functions of Go's `math` package that are not
field operations (`math.Sqrt`, `math.Pow`, `math.Tan`, `math.Atan`, `math.Cos`,
`math.Sin` and the constant `math.Pi`) are explicit parameters of the
definitions that call them.  Rounding, infinities and NaN are outside this
model: a quotient by zero is `0` as in every Lean field.  Where the code
divides by zero (the normalization of a zero vector: a degenerate triangle, a
light of direction zero) its result is NaN and nothing is stated about it here.
The tolerance `FloatEqual(det, 0)` by which `Mat4.Inv` takes a matrix for
singular is part of the model.

The vector and matrix operations of `mgl64` (an external library) are written
out from their definitions: `Vec3` is a triple, `Mat4` a 4 × 4 matrix acting on
column vectors.
-/

namespace Raytracer

/-! ## `mgl64` vectors and matrices -/

/-- The type `mgl.Vec3`: three scalars. -/
@[ext]
structure Vec3 (F : Type) where
  x : F
  y : F
  z : F
deriving DecidableEq, Repr

/-- The type `mgl.Vec4`, indexed by `Fin 4`. -/
abbrev Vec4 (F : Type) := Fin 4 → F

/-- The type `mgl.Mat4`; the entry `m i j` is row `i`, column `j`. -/
abbrev Mat4 (F : Type) := Matrix (Fin 4) (Fin 4) F

section Defs

variable {F : Type} [LinearOrderedField F]

namespace Vec3

/-- The method `v1.Add(v2)`. -/
def Add (a b : Vec3 F) : Vec3 F := ⟨a.x + b.x, a.y + b.y, a.z + b.z⟩

/-- The method `v1.Sub(v2)`. -/
def Sub (a b : Vec3 F) : Vec3 F := ⟨a.x - b.x, a.y - b.y, a.z - b.z⟩

/-- The method `v.Mul(c)`: scaling by a scalar. -/
def Mul (a : Vec3 F) (c : F) : Vec3 F := ⟨a.x * c, a.y * c, a.z * c⟩

/-- The method `v1.Dot(v2)`. -/
def Dot (a b : Vec3 F) : F := a.x * b.x + a.y * b.y + a.z * b.z

/-- The method `v1.Cross(v2)`. -/
def Cross (a b : Vec3 F) : Vec3 F :=
  ⟨a.y * b.z - a.z * b.y, a.z * b.x - a.x * b.z, a.x * b.y - a.y * b.x⟩

/-- The method `v.Len()`: `math.Sqrt` of the sum of the squares. -/
def Len (sqrt : F → F) (v : Vec3 F) : F := sqrt (v.x * v.x + v.y * v.y + v.z * v.z)

/-- The method `v.Normalize()`: every component times `1 / v.Len()`. For the
zero vector `mgl64` computes `0 · (1 / 0)`, which is NaN; here `1 / 0 = 0` and
the result is the zero vector, so the value at the zero vector says nothing
about the code: the theorems that confirm or amend a claim assume or prove that
the vector is not zero wherever the value of a normalization matters. -/
def Normalize (sqrt : F → F) (v : Vec3 F) : Vec3 F :=
  let l := 1 / v.Len sqrt
  ⟨v.x * l, v.y * l, v.z * l⟩

/-- The method `v.Vec4(w)`: the vector extended by a fourth component. -/
def Vec4 (v : Vec3 F) (w : F) : Raytracer.Vec4 F := ![v.x, v.y, v.z, w]

end Vec3

/-- The method `v.Vec3()` of a `Vec4`: its first three components. -/
def Vec4.Vec3 (v : Vec4 F) : Vec3 F := ⟨v 0, v 1, v 2⟩

/-- The variable `mgl.Epsilon`. -/
def Epsilon : F := 1e-10

/-- The constant `mgl.MinNormal`. -/
def MinNormal : F := 2.2250738585072014e-308

/-- The function `mgl.FloatEqualThreshold`. -/
def FloatEqualThreshold (a b epsilon : F) : Bool :=
  if a = b then true
  else
    let diff := |a - b|
    if a * b = 0 ∨ diff < MinNormal then decide (diff < epsilon * epsilon)
    else decide (diff / (|a| + |b|) < epsilon)

/-- The function `mgl.FloatEqual`. -/
def FloatEqual (a b : F) : Bool := FloatEqualThreshold a b Epsilon

namespace Mat4

/-- The method `m.Transpose()`. -/
def Transpose (m : Mat4 F) : Mat4 F := Matrix.transpose m

/-- The method `m.Inv()`: the zero matrix when `FloatEqual(det, 0)`, else the
adjugate times `1 / det`. -/
def Inv (m : Mat4 F) : Mat4 F :=
  if FloatEqual (Matrix.det m) 0 then 0 else (1 / Matrix.det m) • Matrix.adjugate m

/-- The method `m.Mul4x1(v)`: the matrix applied to a column vector. -/
def Mul4x1 (m : Mat4 F) (v : Vec4 F) : Vec4 F := Matrix.mulVec m v

end Mat4

/-- The function `transforms.MulElems`: the component-wise product. -/
def MulElems (a b : Vec3 F) : Vec3 F := ⟨a.x * b.x, a.y * b.y, a.z * b.z⟩

/-! ## `objects`: lights, triangles, spheres -/

/-- The struct `objects.Light`. -/
structure Light (F : Type) where
  Pos : Vec3 F
  Color : Vec3 F
  IsDirectional : Bool

/-- The struct `objects.Triangle`. -/
structure Triangle (F : Type) where
  v1 : Vec3 F
  v2 : Vec3 F
  v3 : Vec3 F
  ambient : Vec3 F
  diffuse : Vec3 F
  specular : Vec3 F
  emission : Vec3 F
  shininess : F
  transform : Mat4 F
  norm : Vec3 F

/-- The constructor `objects.NewTriangle`: the stored normal is `(V3 - V1) × (V2 - V1)`,
normalized. -/
def NewTriangle (sqrt : F → F) (V1 V2 V3 Ambient Diffuse Specular Emission : Vec3 F)
    (Shininess : F) (Transform : Mat4 F) : Triangle F :=
  { v1 := V1, v2 := V2, v3 := V3, ambient := Ambient, diffuse := Diffuse,
    specular := Specular, emission := Emission, shininess := Shininess,
    transform := Transform,
    norm := ((V3.Sub V1).Cross (V2.Sub V1)).Normalize sqrt }

namespace Triangle

/-- The method `Triangle.Normal`: the stored normal under the inverse transpose. -/
def Normal (sqrt : F → F) (object : Triangle F) (_point : Vec3 F) : Vec3 F :=
  let transform_invT := object.transform.Transpose.Inv
  (Vec4.Vec3 (transform_invT.Mul4x1 (object.norm.Vec4 0))).Normalize sqrt

/-- The method `Triangle.Intersect`. -/
def Intersect (object : Triangle F) (origin ray : Vec3 F) : F :=
  let ray := Vec4.Vec3 (object.transform.Inv.Mul4x1 (ray.Vec4 0))
  let eye := Vec4.Vec3 (object.transform.Inv.Mul4x1 (origin.Vec4 1))
  if ray.Dot object.norm = 0 then -1
  else
    let t := (object.v1.Dot object.norm - eye.Dot object.norm) / ray.Dot object.norm
    if t < 0 then -1
    else
      let p := eye.Add (ray.Mul t)
      let alpha := object.norm.Dot ((object.v2.Sub p).Cross (object.v3.Sub p)) /
        object.norm.Dot ((object.v2.Sub object.v1).Cross (object.v3.Sub object.v1))
      let beta := object.norm.Dot ((object.v3.Sub p).Cross (object.v1.Sub p)) /
        object.norm.Dot ((object.v2.Sub object.v1).Cross (object.v3.Sub object.v1))
      if alpha ≥ 0 ∧ alpha ≤ 1 ∧ beta ≥ 0 ∧ beta ≤ 1 ∧ alpha + beta ≤ 1 then t else -1

end Triangle

/-- The struct `objects.Sphere`. -/
structure Sphere (F : Type) where
  pos : Vec3 F
  radius : F
  ambient : Vec3 F
  diffuse : Vec3 F
  specular : Vec3 F
  emission : Vec3 F
  shininess : F
  transform : Mat4 F

/-- The constructor `objects.NewSphere`. -/
def NewSphere (pos : Vec3 F) (radius : F) (ambient diffuse specular emission : Vec3 F)
    (shininess : F) (transform : Mat4 F) : Sphere F :=
  { pos := pos, radius := radius, ambient := ambient, diffuse := diffuse,
    specular := specular, emission := emission, shininess := shininess,
    transform := transform }

namespace Sphere

/-- The method `Sphere.Normal`. -/
def Normal (sqrt : F → F) (object : Sphere F) (point : Vec3 F) : Vec3 F :=
  let p_transform := Vec4.Vec3 (object.transform.Inv.Mul4x1 (point.Vec4 1))
  let norm_transform := (p_transform.Sub object.pos).Normalize sqrt
  let transform_invT := object.transform.Transpose.Inv
  (Vec4.Vec3 (transform_invT.Mul4x1 (norm_transform.Vec4 0))).Normalize sqrt

/-- The method `Sphere.Intersect`. -/
def Intersect (sqrt : F → F) (object : Sphere F) (origin ray : Vec3 F) : F :=
  let ray := Vec4.Vec3 (object.transform.Inv.Mul4x1 (ray.Vec4 0))
  let eye := Vec4.Vec3 (object.transform.Inv.Mul4x1 (origin.Vec4 1))
  let a := ray.Dot ray
  let b := ray.Dot (eye.Sub object.pos) * 2
  let c := (eye.Sub object.pos).Dot (eye.Sub object.pos) - object.radius * object.radius
  let discriminant := b * b - 4 * a * c
  if discriminant < 0 then -1
  else
    let t1 := (-b + sqrt discriminant) / (2 * a)
    let t2 := (-b - sqrt discriminant) / (2 * a)
    if t1 > 0 ∧ t2 > 0 then min t1 t2
    else if t1 > 0 then t1
    else if t2 > 0 then t2
    else -1

end Sphere

/-- The interface `objects.Shape`, with its two implementations. -/
inductive Shape (F : Type) where
  | sphere (object : Sphere F)
  | triangle (object : Triangle F)

namespace Shape

/-- Interface method `Normal`. -/
def Normal (sqrt : F → F) : Shape F → Vec3 F → Vec3 F
  | sphere o, point => o.Normal sqrt point
  | triangle o, point => o.Normal sqrt point

/-- Interface method `Intersect`. -/
def Intersect (sqrt : F → F) : Shape F → Vec3 F → Vec3 F → F
  | sphere o, origin, ray => o.Intersect sqrt origin ray
  | triangle o, origin, ray => o.Intersect origin ray

/-- Interface method `Ambient`. -/
def Ambient : Shape F → Vec3 F
  | sphere o => o.ambient
  | triangle o => o.ambient

/-- Interface method `Diffuse`. -/
def Diffuse : Shape F → Vec3 F
  | sphere o => o.diffuse
  | triangle o => o.diffuse

/-- Interface method `Specular`. -/
def Specular : Shape F → Vec3 F
  | sphere o => o.specular
  | triangle o => o.specular

/-- Interface method `Emission`. -/
def Emission : Shape F → Vec3 F
  | sphere o => o.emission
  | triangle o => o.emission

/-- Interface method `Shininess`. -/
def Shininess : Shape F → F
  | sphere o => o.shininess
  | triangle o => o.shininess

end Shape

/-! ## `reader.Scene` and `display` -/

/-- The struct `reader.Scene`. -/
structure Scene (F : Type) where
  Width : Int
  Height : Int
  MaxDepth : Int
  OutputFile : String
  Attenuation : Vec3 F
  Eye : Vec3 F
  Up : Vec3 F
  Center : Vec3 F
  FovY : F
  Shapes : List (Shape F)
  Lights : List (Light F)

/-- The loop of `display.trace` (lines 29-35): the shapes still to visit, the
index `i` of the first of them, and the state `(closest_i, min_t)`. -/
def traceLoop (sqrt : F → F) (origin dir : Vec3 F) : List (Shape F) → Nat → Int × F → Int × F
  | [], _, st => st
  | shape :: rest, i, st =>
    let t := shape.Intersect sqrt origin dir
    if t > 0 ∧ (st.1 = -1 ∨ t < st.2) then traceLoop sqrt origin dir rest (i + 1) ((i : Int), t)
    else traceLoop sqrt origin dir rest (i + 1) st

/-- The function `display.trace`: the nearest shape (`none` for Go's `nil`) and its
distance, `(none, -1)` when nothing is hit. -/
def trace (sqrt : F → F) (origin dir : Vec3 F) (scene : Scene F) : Option (Shape F) × F :=
  let st := traceLoop sqrt origin dir scene.Shapes 0 (-1, -1)
  if st.1 = -1 then (none, -1) else (scene.Shapes[st.1.toNat]?, st.2)

/-- The function `display.isLit`. -/
def isLit (sqrt : F → F) (point : Vec3 F) (light : Light F) (scene : Scene F) : Bool :=
  if light.IsDirectional then
    let t_shape := (trace sqrt (point.Add (light.Pos.Mul 0.01)) light.Pos scene).2
    decide (t_shape = -1)
  else
    let r := light.Pos.Sub point
    let t_light := r.Len sqrt
    let r := r.Normalize sqrt
    let t_shape := (trace sqrt (point.Add (r.Mul 0.01)) r scene).2
    decide (t_shape = -1 ∨ t_shape ≥ t_light)

/-- The body of the loop over the lights in `display.calcColor` (lines 59-78),
as a map from the colour before a light to the colour after it; `n` and `e`
are the normal and the eye direction computed before the loop. -/
def lightStep (sqrt : F → F) (pow : F → F → F) (point : Vec3 F) (shape : Shape F)
    (scene : Scene F) (n e : Vec3 F) (color : Vec3 F) (light : Light F) : Vec3 F :=
  if !isLit sqrt point light scene then color
  else
    let l := if !light.IsDirectional then (light.Pos.Sub point).Normalize sqrt
      else light.Pos.Normalize sqrt
    let h := (l.Add e).Normalize sqrt
    let lambert := (MulElems shape.Diffuse light.Color).Mul (max (n.Dot l) 0)
    let phong := (MulElems shape.Specular light.Color).Mul
      (pow (max (n.Dot h) 0) shape.Shininess)
    if !light.IsDirectional then
      let d := (light.Pos.Sub point).Len sqrt
      let atten := scene.Attenuation.x + scene.Attenuation.y * d + scene.Attenuation.z * d * d
      (color.Add (lambert.Mul (1 / atten))).Add (phong.Mul (1 / atten))
    else (color.Add lambert).Add phong

/-- The function `display.calcColor`.  A dereference of the `nil` shape cannot
happen where `t ≠ -1`; the model leaves the colour unchanged there. -/
def calcColor (sqrt : F → F) (pow : F → F → F) (eye point : Vec3 F) (shape : Shape F)
    (depth : Int) (scene : Scene F) : Vec3 F :=
  let color := shape.Ambient.Add shape.Emission
  let n := shape.Normal sqrt point
  let e := (eye.Sub point).Normalize sqrt
  let color := scene.Lights.foldl (lightStep sqrt pow point shape scene n e) color
  let r := ((n.Mul (2 * n.Dot e)).Sub e).Normalize sqrt
  let hit := trace sqrt (point.Add (r.Mul 0.001)) r scene
  let color :=
    if _h : hit.2 ≠ -1 ∧ depth > 0 then
      match hit.1 with
      | some closest =>
        color.Add (MulElems shape.Specular
          (calcColor sqrt pow point (point.Add (r.Mul hit.2)) closest (depth - 1) scene))
      | none => color
    else color
  ⟨min color.x 1, min color.y 1, min color.z 1⟩
termination_by depth.toNat
decreasing_by omega

/-- The camera axis `w` of `display.ray` (line 16). -/
def cameraW (sqrt : F → F) (scene : Scene F) : Vec3 F :=
  (scene.Center.Sub scene.Eye).Normalize sqrt

/-- The camera axis `u` of `display.ray` (line 17). -/
def cameraU (sqrt : F → F) (scene : Scene F) : Vec3 F :=
  (scene.Up.Cross (cameraW sqrt scene)).Normalize sqrt

/-- The camera axis `v` of `display.ray` (line 18). -/
def cameraV (sqrt : F → F) (scene : Scene F) : Vec3 F :=
  (cameraW sqrt scene).Cross (cameraU sqrt scene)

/-- The function `display.ray`; `tan` and `atan` stand for `math.Tan` and
`math.Atan`. -/
def ray (sqrt tan atan : F → F) (i j : F) (scene : Scene F) : Vec3 F :=
  let fovx := 2 * atan (scene.FovY / 2) * (scene.Width : F) / (scene.Height : F)
  let w := cameraW sqrt scene
  let u := cameraU sqrt scene
  let v := cameraV sqrt scene
  let alpha := (tan (fovx / 2) * (i - (scene.Width : F) / 2)) / ((scene.Width : F) / 2)
  let beta := (tan (scene.FovY / 2) * (-(j - (scene.Height : F) / 2))) / ((scene.Height : F) / 2)
  (((u.Mul alpha).Add (v.Mul beta)).Add w).Normalize sqrt

/-- The value that `display.Draw` leaves in `screen[x][j]` (lines 107-113): the
colour of the nearest hit of the primary ray, or the zero colour that `make`
put there when `trace` reports `-1`. -/
def pixel (sqrt : F → F) (pow : F → F → F) (tan atan : F → F) (scene : Scene F)
    (x j : Nat) : Vec3 F :=
  let r := ray sqrt tan atan ((x : F) + 0.5) ((j : F) + 0.5) scene
  let hit := trace sqrt scene.Eye r scene
  if hit.2 ≠ -1 then
    match hit.1 with
    | some closest =>
      calcColor sqrt pow scene.Eye (scene.Eye.Add (r.Mul hit.2)) closest scene.MaxDepth scene
    | none => ⟨0, 0, 0⟩
  else ⟨0, 0, 0⟩

/-- The function `display.Draw`.  Every goroutine writes the slots of its own
column only, so the buffer after `wg.Wait()` is the table of the `pixel`
values; `make` with a negative length panics, which is `none` here. -/
def Draw (sqrt : F → F) (pow : F → F → F) (tan atan : F → F) (scene : Scene F) :
    Option (List (List (Vec3 F))) :=
  if scene.Width < 0 ∨ (0 < scene.Width ∧ scene.Height < 0) then none
  else
    some ((List.range scene.Width.toNat).map (fun x =>
      (List.range scene.Height.toNat).map (fun j => pixel sqrt pow tan atan scene x j)))

/-- The function `display.calcColor` run with a bound on the number of nested
calls: every call, the first included, takes one unit of `fuel`, and `none`
is the answer of a call that has none left. -/
def calcColorFuel (sqrt : F → F) (pow : F → F → F) :
    Nat → Vec3 F → Vec3 F → Shape F → Int → Scene F → Option (Vec3 F)
  | 0, _, _, _, _, _ => none
  | fuel + 1, eye, point, shape, depth, scene =>
    let color := shape.Ambient.Add shape.Emission
    let n := shape.Normal sqrt point
    let e := (eye.Sub point).Normalize sqrt
    let color := scene.Lights.foldl (lightStep sqrt pow point shape scene n e) color
    let r := ((n.Mul (2 * n.Dot e)).Sub e).Normalize sqrt
    let hit := trace sqrt (point.Add (r.Mul 0.001)) r scene
    if hit.2 ≠ -1 ∧ depth > 0 then
      match hit.1 with
      | some closest =>
        match calcColorFuel sqrt pow fuel point (point.Add (r.Mul hit.2)) closest
            (depth - 1) scene with
        | some reflected =>
          let color := color.Add (MulElems shape.Specular reflected)
          some ⟨min color.x 1, min color.y 1, min color.z 1⟩
        | none => none
      | none => some ⟨min color.x 1, min color.y 1, min color.z 1⟩
    else some ⟨min color.x 1, min color.y 1, min color.z 1⟩

/-! ## `transforms` and the camera command of `reader` -/

/-- The type `mgl.Mat3`; the entry `m i j` is row `i`, column `j`. -/
abbrev Mat3 (F : Type) := Matrix (Fin 3) (Fin 3) F

namespace Mat3

/-- A literal `mgl.Mat3{...}`: nine scalars in column-major order. -/
def ofColMajor (a0 a1 a2 a3 a4 a5 a6 a7 a8 : F) : Mat3 F :=
  !![a0, a3, a6; a1, a4, a7; a2, a5, a8]

/-- The function `mgl.Ident3()`. -/
def Ident3 : Mat3 F := 1

/-- The method `m.Mul(c)`: every entry times a scalar. -/
def Mul (m : Mat3 F) (c : F) : Mat3 F := fun i j => m i j * c

/-- The method `m1.Add(m2)`. -/
def Add (m1 m2 : Mat3 F) : Mat3 F := fun i j => m1 i j + m2 i j

/-- The method `m.Transpose()`. -/
def Transpose (m : Mat3 F) : Mat3 F := fun i j => m j i

/-- The method `m.Mul3x1(v)`: the matrix applied to a column vector. -/
def Mul3x1 (m : Mat3 F) (v : Vec3 F) : Vec3 F :=
  ⟨m 0 0 * v.x + m 0 1 * v.y + m 0 2 * v.z,
   m 1 0 * v.x + m 1 1 * v.y + m 1 2 * v.z,
   m 2 0 * v.x + m 2 1 * v.y + m 2 2 * v.z⟩

end Mat3

/-- The method `v1.OuterProd3(v2)`: the matrix of entries `v1[i] * v2[j]`. -/
def Vec3.OuterProd3 (v1 v2 : Vec3 F) : Mat3 F :=
  Mat3.ofColMajor (v1.x * v2.x) (v1.y * v2.x) (v1.z * v2.x)
    (v1.x * v2.y) (v1.y * v2.y) (v1.z * v2.y)
    (v1.x * v2.z) (v1.y * v2.z) (v1.z * v2.z)

/-- The function `transforms.Rotate`; `cos`, `sin` and `pi` stand for
`math.Cos`, `math.Sin` and `math.Pi`. -/
def Rotate (sqrt cos sin : F → F) (pi : F) (degrees : F) (axis : Vec3 F) : Mat3 F :=
  let a := axis.Normalize sqrt
  let theta := degrees * pi / 180
  let term1 := Mat3.Ident3.Mul (cos theta)
  let term2 := (a.OuterProd3 a).Mul (1 - cos theta)
  let term3 := (Mat3.ofColMajor
    0 (-a.z) a.y
    a.z 0 (-a.x)
    (-a.y) a.x 0).Transpose.Mul (sin theta)
  (term1.Add term2).Add term3

/-- The function `transforms.Scale`; the literal is symmetric, so its
column-major reading is the matrix as written. -/
def Scale (sx sy sz : F) : Mat4 F :=
  !![sx, 0, 0, 0;
     0, sy, 0, 0;
     0, 0, sz, 0;
     0, 0, 0, 1]

/-- The function `transforms.UpVec`. -/
def UpVec (sqrt : F → F) (up dir : Vec3 F) : Vec3 F :=
  let x := up.Cross dir
  let y := x.Cross dir
  y.Normalize sqrt

/-- The `camera` case of `reader.ReadFile` (lines 92-96) on the parsed
arguments; fewer than ten arguments make the indexing panic, `none` here. -/
def cameraCommand (sqrt : F → F) (pi : F) (args : List F) (scene : Scene F) :
    Option (Scene F) :=
  match args with
  | a0 :: a1 :: a2 :: a3 :: a4 :: a5 :: a6 :: a7 :: a8 :: a9 :: _ =>
    some { scene with
      Eye := ⟨a0, a1, a2⟩
      Center := ⟨a3, a4, a5⟩
      Up := UpVec sqrt ⟨a6, a7, a8⟩ ((⟨a3, a4, a5⟩ : Vec3 F).Sub ⟨a0, a1, a2⟩)
      FovY := a9 * pi / 180 }
  | _ => none

/-! ## `main`: from the frame buffer to the image -/

/-- The coordinate that `main` passes to `img.Set` for the slot `(i, j)` of the
frame buffer (line 28). -/
def imageCoord (scene : Scene F) (i j : Int) : Int × Int := (i, scene.Height - j)

/-- Membership of a point in `image.Rect(0, 0, scene.Width, scene.Height)`, the
bounds of the image of `main` (line 22). -/
def inImageRect (scene : Scene F) (p : Int × Int) : Prop :=
  0 ≤ p.1 ∧ p.1 < scene.Width ∧ 0 ≤ p.2 ∧ p.2 < scene.Height

instance (scene : Scene F) (p : Int × Int) : Decidable (inImageRect scene p) := by
  unfold inImageRect
  infer_instance

/-! ## Notions used to state the properties -/

/-- What the callers assume of `math.Sqrt`: on a non-negative argument it is
the non-negative square root. -/
def IsSqrt (sqrt : F → F) : Prop := ∀ x, 0 ≤ x → 0 ≤ sqrt x ∧ sqrt x * sqrt x = x

/-- The ray direction in the object space of a transform. -/
def objDir (transform : Mat4 F) (ray : Vec3 F) : Vec3 F :=
  Vec4.Vec3 (transform.Inv.Mul4x1 (ray.Vec4 0))

/-- The ray origin in the object space of a transform. -/
def objOrigin (transform : Mat4 F) (origin : Vec3 F) : Vec3 F :=
  Vec4.Vec3 (transform.Inv.Mul4x1 (origin.Vec4 1))

/-- The quadratic `a·t² + b·t + c` of a sphere and an object-space ray `(o, d)`,
with `a = d·d`, `b = 2·d·(o - c)` and `c = (o - c)·(o - c) - r²`. -/
def sphereQuadratic (object : Sphere F) (o d : Vec3 F) (t : F) : F :=
  d.Dot d * t * t + 2 * d.Dot (o.Sub object.pos) * t +
    ((o.Sub object.pos).Dot (o.Sub object.pos) - object.radius * object.radius)

/-- The discriminant `b² - 4·a·c` of that quadratic. -/
def sphereDiscriminant (object : Sphere F) (o d : Vec3 F) : F :=
  (2 * d.Dot (o.Sub object.pos)) * (2 * d.Dot (o.Sub object.pos)) -
    4 * d.Dot d * ((o.Sub object.pos).Dot (o.Sub object.pos) - object.radius * object.radius)

/-- The computation of `Triangle.Intersect` on an object-space ray `(o, d)`
(lines 47-61), as a function of the stored normal and the three vertices. -/
def triangleHit (norm v1 v2 v3 o d : Vec3 F) : F :=
  if d.Dot norm = 0 then -1
  else
    let t := (v1.Dot norm - o.Dot norm) / d.Dot norm
    if t < 0 then -1
    else
      let p := o.Add (d.Mul t)
      let alpha := norm.Dot ((v2.Sub p).Cross (v3.Sub p)) /
        norm.Dot ((v2.Sub v1).Cross (v3.Sub v1))
      let beta := norm.Dot ((v3.Sub p).Cross (v1.Sub p)) /
        norm.Dot ((v2.Sub v1).Cross (v3.Sub v1))
      if alpha ≥ 0 ∧ alpha ≤ 1 ∧ beta ≥ 0 ∧ beta ≤ 1 ∧ alpha + beta ≤ 1 then t else -1

/-- The closed triangle of three vertices: the points
`alpha·v1 + beta·v2 + gamma·v3` with `alpha`, `beta`, `gamma` in `[0, 1]` of
sum `1`. -/
def InClosedTriangle (v1 v2 v3 p : Vec3 F) : Prop :=
  ∃ alpha beta gamma : F, 0 ≤ alpha ∧ alpha ≤ 1 ∧ 0 ≤ beta ∧ beta ≤ 1 ∧
    0 ≤ gamma ∧ gamma ≤ 1 ∧ alpha + beta + gamma = 1 ∧
    p = ((v1.Mul alpha).Add (v2.Mul beta)).Add (v3.Mul gamma)

/-- A degenerate (zero-area) triangle: the cross product of two of its edges,
whose length is twice the area, is zero; the three vertices are then collinear
or coincident. -/
def Degenerate (V1 V2 V3 : Vec3 F) : Prop :=
  (V3.Sub V1).Cross (V2.Sub V1) = ⟨0, 0, 0⟩

/-- The zero vector. -/
def Vec3.zero : Vec3 F := ⟨0, 0, 0⟩

/-- The sphere of centre `(0, 0, 0)` and radius `1` under the identity
transform, with a black material. -/
def unitSphere : Sphere F :=
  NewSphere Vec3.zero 1 Vec3.zero Vec3.zero Vec3.zero Vec3.zero 0 1

/-- The Lambert and Phong terms of one light at a surface point, as section 4.3
of the specification words them: `diffuse * lightColor * max(n·l, 0)` plus
`specular * lightColor * max(n·h, 0)^shininess`, both divided, for a point
light, by `const + linear·d + quadratic·d²`. -/
def lightTerms (sqrt : F → F) (pow : F → F → F) (eye point : Vec3 F) (shape : Shape F)
    (scene : Scene F) (light : Light F) : Vec3 F :=
  let n := shape.Normal sqrt point
  let e := (eye.Sub point).Normalize sqrt
  let l := if light.IsDirectional then light.Pos.Normalize sqrt
    else (light.Pos.Sub point).Normalize sqrt
  let h := (l.Add e).Normalize sqrt
  let lambert := (MulElems shape.Diffuse light.Color).Mul (max (n.Dot l) 0)
  let phong := (MulElems shape.Specular light.Color).Mul
    (pow (max (n.Dot h) 0) shape.Shininess)
  if light.IsDirectional then lambert.Add phong
  else
    let d := (light.Pos.Sub point).Len sqrt
    let atten := scene.Attenuation.x + scene.Attenuation.y * d + scene.Attenuation.z * d * d
    ⟨lambert.x / atten + phong.x / atten, lambert.y / atten + phong.y / atten,
      lambert.z / atten + phong.z / atten⟩

/-- The sum of a list of vectors. -/
def Vec3.sum : List (Vec3 F) → Vec3 F
  | [] => ⟨0, 0, 0⟩
  | v :: vs => v.Add (Vec3.sum vs)

/-- The channel-wise minimum with `1`. -/
def clampOne (c : Vec3 F) : Vec3 F := ⟨min c.x 1, min c.y 1, min c.z 1⟩

/-- The colour without reflection, as the specification words it: ambient plus
emission plus the terms of the lights that are lit, clamped. -/
def localColor (sqrt : F → F) (pow : F → F → F) (eye point : Vec3 F) (shape : Shape F)
    (scene : Scene F) : Vec3 F :=
  clampOne ((shape.Ambient.Add shape.Emission).Add
    (Vec3.sum ((scene.Lights.filter (fun light => isLit sqrt point light scene)).map
      (lightTerms sqrt pow eye point shape scene))))

/-- A vector whose three components are non-negative. -/
def Vec3.Nonneg (v : Vec3 F) : Prop := 0 ≤ v.x ∧ 0 ≤ v.y ∧ 0 ≤ v.z

/-- A shape whose material colours (ambient, diffuse, specular, emission) have
non-negative components. -/
def Shape.NonnegMaterial (s : Shape F) : Prop :=
  s.Ambient.Nonneg ∧ s.Diffuse.Nonneg ∧ s.Specular.Nonneg ∧ s.Emission.Nonneg

/-- A scene in which all material colours and all light colours have
non-negative components and the attenuation coefficients satisfy `const > 0`,
`linear ≥ 0`, `quadratic ≥ 0`. -/
def Scene.NonnegColors (scene : Scene F) : Prop :=
  (∀ s ∈ scene.Shapes, s.NonnegMaterial) ∧ (∀ l ∈ scene.Lights, l.Color.Nonneg) ∧
    0 < scene.Attenuation.x ∧ 0 ≤ scene.Attenuation.y ∧ 0 ≤ scene.Attenuation.z

/-- A scene with the given shapes and lights and, for the rest, what
`reader.ReadFile` starts from: attenuation `(1, 0, 0)`, depth `5`, the other
fields zero. -/
def sceneOf (shapes : List (Shape F)) (lights : List (Light F)) : Scene F :=
  { Width := 0, Height := 0, MaxDepth := 5, OutputFile := "output.png",
    Attenuation := ⟨1, 0, 0⟩, Eye := Vec3.zero, Up := Vec3.zero, Center := Vec3.zero,
    FovY := 0, Shapes := shapes, Lights := lights }

/-- The triangle `(-1, -1, h)`, `(1, -1, h)`, `(0, 1, h)` of the plane `z = h`,
under the identity transform, with a black material; it contains `(0, 0, h)`. -/
def flatTriangle (sqrt : F → F) (h : F) : Triangle F :=
  NewTriangle sqrt ⟨-1, -1, h⟩ ⟨1, -1, h⟩ ⟨0, 1, h⟩ Vec3.zero Vec3.zero Vec3.zero Vec3.zero 0 1

/-- The point light at `(0, 0, 1)`, white. -/
def lightAbove : Light F := { Pos := ⟨0, 0, 1⟩, Color := ⟨1, 1, 1⟩, IsDirectional := false }

/-- The ray of a pixel as section 4.4 of the specification words it:
`fovX = 2·atan(tan(fovY/2) · width/height)`,
`alpha = tan(fovX/2) · (i - width/2) / (width/2)`,
`beta = tan(fovY/2) · -(j - height/2) / (height/2)`,
`direction = normalize(u·alpha + v·beta + w)`. -/
def raySpec (sqrt tan atan : F → F) (i j : F) (scene : Scene F) : Vec3 F :=
  let fovX := 2 * atan (tan (scene.FovY / 2) * (scene.Width : F) / (scene.Height : F))
  let alpha := tan (fovX / 2) * (i - (scene.Width : F) / 2) / ((scene.Width : F) / 2)
  let beta := tan (scene.FovY / 2) * (-(j - (scene.Height : F) / 2)) / ((scene.Height : F) / 2)
  ((((cameraU sqrt scene).Mul alpha).Add ((cameraV sqrt scene).Mul beta)).Add
    (cameraW sqrt scene)).Normalize sqrt

/-- The component of `up` perpendicular to `dir`:
`up - ((up·dir)/(dir·dir))·dir`. -/
def perpComponent (up dir : Vec3 F) : Vec3 F :=
  up.Sub (dir.Mul (up.Dot dir / dir.Dot dir))

/-- The rotation formula of Rodrigues for a unit axis `a`:
`cos(theta)·x + (1 - cos(theta))·(a·x)·a + sin(theta)·(a × x)`. -/
def rodrigues (cosTheta sinTheta : F) (a x : Vec3 F) : Vec3 F :=
  ((x.Mul cosTheta).Add (a.Mul ((1 - cosTheta) * a.Dot x))).Add ((a.Cross x).Mul sinTheta)

/-- An affine transform: a matrix whose last row is `(0, 0, 0, 1)`. -/
def IsAffine (m : Mat4 F) : Prop := m 3 0 = 0 ∧ m 3 1 = 0 ∧ m 3 2 = 0 ∧ m 3 3 = 1

/-- The world-space position of an object-space point under a transform. -/
def worldPoint (m : Mat4 F) (v : Vec3 F) : Vec3 F := Vec4.Vec3 (m.Mul4x1 (v.Vec4 1))

/-- The light of the scenario: white, directional, of direction `(0, 0, 1)`. -/
def scenarioLight : Light F := { Pos := ⟨0, 0, 1⟩, Color := ⟨1, 1, 1⟩, IsDirectional := true }

/-- A scene of the given size with the given shapes and lights, the other
fields as in `sceneOf`. -/
def sizedScene (width height : Int) (shapes : List (Shape F)) (lights : List (Light F)) :
    Scene F :=
  { sceneOf shapes lights with Width := width, Height := height }

/-- The sphere of the scenario of section 8 of the specification: centre
`(0, 0, 0)`, radius `1`, identity transform, ambient `(0.1, 0.1, 0.1)`, diffuse
`(0.5, 0.5, 0.5)`, no specular colour, no emission. -/
def scenarioSphere (shininess : F) : Sphere F :=
  NewSphere Vec3.zero 1 ⟨1 / 10, 1 / 10, 1 / 10⟩ ⟨1 / 2, 1 / 2, 1 / 2⟩ Vec3.zero Vec3.zero
    shininess 1

/-- The scene of that scenario: eye `(0, 0, 5)`, centre `(0, 0, 0)`, up
`(0, 1, 0)`, `maxDepth = 0`, the sphere `scenarioSphere` and one white
directional light of direction `(0, 0, 1)`; the size, the vertical field of
view, the attenuation and the shininess are left open. -/
def scenarioScene (width height : Int) (fovY : F) (attenuation : Vec3 F) (shininess : F) :
    Scene F :=
  { Width := width, Height := height, MaxDepth := 0, OutputFile := "output.png",
    Attenuation := attenuation, Eye := ⟨0, 0, 5⟩, Up := ⟨0, 1, 0⟩, Center := ⟨0, 0, 0⟩,
    FovY := fovY, Shapes := [Shape.sphere (scenarioSphere shininess)],
    Lights := [scenarioLight] }

/-- A white directional light of direction `(0, 0, 0)`: the line
`directional 0 0 0 1 1 1` of a scene file. -/
def zeroLight : Light F := { Pos := ⟨0, 0, 0⟩, Color := ⟨1, 1, 1⟩, IsDirectional := true }

/-- The scene of the scenario, of size `1 × 1` with attenuation `(1, 0, 0)` and
shininess `20`, its light replaced by `zeroLight`. -/
def zeroLightScene (fovY : F) : Scene F :=
  { scenarioScene 1 1 fovY ⟨1, 0, 0⟩ 20 with Lights := [zeroLight] }

end Defs

/-! ## Nearest hit: `trace` -/

section Trace

variable {F : Type} [LinearOrderedField F]

/-- The scan either leaves the state as it was, and then every positive
distance in the list is at least the running minimum of a state that has one,
or it ends on the first element of the list that attains the least positive
distance, which is below the running minimum. -/
theorem traceLoop_cases (sqrt : F → F) (origin dir : Vec3 F) (l : List (Shape F)) :
    ∀ (i : Nat) (st : Int × F),
      (traceLoop sqrt origin dir l i st = st ∧
        ∀ x ∈ l, 0 < x.Intersect sqrt origin dir →
          st.1 ≠ -1 ∧ st.2 ≤ x.Intersect sqrt origin dir) ∨
      (∃ pre s post, l = pre ++ s :: post ∧
        traceLoop sqrt origin dir l i st =
          (((i + pre.length : Nat) : Int), s.Intersect sqrt origin dir) ∧
        0 < s.Intersect sqrt origin dir ∧
        (st.1 ≠ -1 → s.Intersect sqrt origin dir < st.2) ∧
        (∀ x ∈ l, 0 < x.Intersect sqrt origin dir →
          s.Intersect sqrt origin dir ≤ x.Intersect sqrt origin dir) ∧
        (∀ x ∈ pre, x.Intersect sqrt origin dir ≠ s.Intersect sqrt origin dir)) := by
  induction l with
  | nil => intro i st; left; simp [traceLoop]
  | cons s0 rest ih =>
    intro i st
    simp only [traceLoop]
    split_ifs with h
    · obtain ⟨hpos0, hupd⟩ := h
      rcases ih (i + 1) ((i : Int), s0.Intersect sqrt origin dir) with
        ⟨heq, hall⟩ | ⟨pre, s, post, hl, heq, hpos, hlt, hmin, hpre⟩
      · right
        refine ⟨[], s0, rest, rfl, by simpa using heq, hpos0, ?_, ?_, by simp⟩
        · intro hne
          rcases hupd with h1 | h1
          · exact absurd h1 hne
          · exact h1
        · intro x hx hxpos
          rcases List.mem_cons.1 hx with rfl | hx
          · exact le_rfl
          · exact (hall x hx hxpos).2
      · have hs0 : s.Intersect sqrt origin dir < s0.Intersect sqrt origin dir :=
          hlt (by simp)
        right
        refine ⟨s0 :: pre, s, post, by simp [hl], ?_, hpos, ?_, ?_, ?_⟩
        · rw [heq]; simp; omega
        · intro hne
          rcases hupd with h1 | h1
          · exact absurd h1 hne
          · exact lt_trans hs0 h1
        · intro x hx hxpos
          rcases List.mem_cons.1 hx with rfl | hx
          · exact le_of_lt hs0
          · exact hmin x hx hxpos
        · intro x hx
          rcases List.mem_cons.1 hx with rfl | hx
          · exact ne_of_gt hs0
          · exact hpre x hx
    · rcases ih (i + 1) st with
        ⟨heq, hall⟩ | ⟨pre, s, post, hl, heq, hpos, hlt, hmin, hpre⟩
      · left
        refine ⟨heq, ?_⟩
        intro x hx hxpos
        rcases List.mem_cons.1 hx with rfl | hx
        · by_contra hcon
          apply h
          refine ⟨hxpos, ?_⟩
          by_cases h1 : st.1 = -1
          · exact Or.inl h1
          · right
            by_contra h2
            exact hcon ⟨h1, not_lt.1 h2⟩
        · exact hall x hx hxpos
      · have hs0 : 0 < s0.Intersect sqrt origin dir →
            s.Intersect sqrt origin dir < s0.Intersect sqrt origin dir := by
          intro hp
          by_cases h1 : st.1 = -1
          · exact absurd ⟨hp, Or.inl h1⟩ h
          · have h2 : ¬ s0.Intersect sqrt origin dir < st.2 := fun h2 => h ⟨hp, Or.inr h2⟩
            exact lt_of_lt_of_le (hlt h1) (not_lt.1 h2)
        right
        refine ⟨s0 :: pre, s, post, by simp [hl], ?_, hpos, hlt, ?_, ?_⟩
        · rw [heq]; simp; omega
        · intro x hx hxpos
          rcases List.mem_cons.1 hx with rfl | hx
          · exact le_of_lt (hs0 hxpos)
          · exact hmin x hx hxpos
        · intro x hx
          rcases List.mem_cons.1 hx with rfl | hx
          · by_cases hp : 0 < x.Intersect sqrt origin dir
            · exact ne_of_gt (hs0 hp)
            · exact ne_of_lt (lt_of_le_of_lt (not_lt.1 hp) hpos)
          · exact hpre x hx

/-- The element after a prefix sits at the index that is the prefix's length. -/
theorem getElem?_append_cons_length {α : Type} (pre : List α) (s : α) (post : List α) :
    (pre ++ s :: post)[pre.length]? = some s := by
  induction pre with
  | nil => simp
  | cons a pre ih => simpa using ih

/-- The two outcomes of `trace`: a miss, when no shape has a positive
distance, or the first shape of the scene that attains the least positive
distance. -/
theorem trace_cases (sqrt : F → F) (origin dir : Vec3 F) (scene : Scene F) :
    (trace sqrt origin dir scene = (none, -1) ∧
      ∀ x ∈ scene.Shapes, ¬ 0 < x.Intersect sqrt origin dir) ∨
    (∃ pre s post, scene.Shapes = pre ++ s :: post ∧
      trace sqrt origin dir scene = (some s, s.Intersect sqrt origin dir) ∧
      0 < s.Intersect sqrt origin dir ∧
      (∀ x ∈ scene.Shapes, 0 < x.Intersect sqrt origin dir →
        s.Intersect sqrt origin dir ≤ x.Intersect sqrt origin dir) ∧
      (∀ x ∈ pre, x.Intersect sqrt origin dir ≠ s.Intersect sqrt origin dir)) := by
  rcases traceLoop_cases sqrt origin dir scene.Shapes 0 (-1, -1) with
    ⟨heq, hall⟩ | ⟨pre, s, post, hl, heq, hpos, _, hmin, hpre⟩
  · left
    refine ⟨?_, fun x hx hxpos => (hall x hx hxpos).1 rfl⟩
    simp [trace, heq]
  · right
    refine ⟨pre, s, post, hl, ?_, hpos, hmin, hpre⟩
    have hne : ¬ ((pre.length : Int) = -1) := by omega
    simp only [Nat.zero_add] at heq
    simp only [trace, heq, hne, if_false, Int.toNat_ofNat]
    rw [hl, getElem?_append_cons_length]

/-- C1. For every scene, origin and direction, `trace` returns `(nil, -1)`
exactly when no shape has a strictly positive `Intersect`; otherwise it returns
the least strictly positive `Intersect` value of the scene together with the
shape at the smallest index attaining it: the scene splits as
`pre ++ s :: post` with `s` the returned shape and no shape of `pre` at that
distance. -/
theorem trace_nearest_first (sqrt : F → F) (origin dir : Vec3 F) (scene : Scene F) :
    (trace sqrt origin dir scene = (none, -1) ↔
      ∀ x ∈ scene.Shapes, ¬ 0 < x.Intersect sqrt origin dir) ∧
    ((∃ x ∈ scene.Shapes, 0 < x.Intersect sqrt origin dir) →
      ∃ pre s post, scene.Shapes = pre ++ s :: post ∧
        trace sqrt origin dir scene = (some s, s.Intersect sqrt origin dir) ∧
        0 < s.Intersect sqrt origin dir ∧
        (∀ x ∈ scene.Shapes, 0 < x.Intersect sqrt origin dir →
          s.Intersect sqrt origin dir ≤ x.Intersect sqrt origin dir) ∧
        (∀ x ∈ pre, x.Intersect sqrt origin dir ≠ s.Intersect sqrt origin dir)) := by
  rcases trace_cases sqrt origin dir scene with
    ⟨heq, hall⟩ | ⟨pre, s, post, hl, heq, hpos, hmin, hpre⟩
  · refine ⟨⟨fun _ => hall, fun _ => heq⟩, ?_⟩
    rintro ⟨x, hx, hxpos⟩
    exact absurd hxpos (hall x hx)
  · have hs : s ∈ scene.Shapes := by rw [hl]; simp
    refine ⟨⟨fun h => ?_, fun h => absurd hpos (h s hs)⟩,
      fun _ => ⟨pre, s, post, hl, heq, hpos, hmin, hpre⟩⟩
    rw [heq] at h
    simp at h

end Trace

/-! ## Spheres -/

section SphereThms

variable {F : Type} [LinearOrderedField F]

/-- The square root of the reals meets `IsSqrt`. -/
theorem isSqrt_real : IsSqrt Real.sqrt :=
  fun x hx => ⟨Real.sqrt_nonneg x, Real.mul_self_sqrt hx⟩

/-- Against zero, `FloatEqual` tests whether the absolute value is below
`Epsilon * Epsilon`, that is `1e-20`. -/
theorem FloatEqual_zero (a : F) : FloatEqual a 0 = decide (|a| < Epsilon * Epsilon) := by
  by_cases h0 : a = 0
  · have hpos : |a| < (Epsilon : F) * Epsilon := by
      rw [h0, abs_zero]
      simp only [Epsilon]
      norm_num
    simp [FloatEqual, FloatEqualThreshold, h0, hpos]
    simpa [h0] using hpos
  · simp [FloatEqual, FloatEqualThreshold, h0]

/-- The inverse of the identity matrix is the identity. -/
theorem Mat4.Inv_one : Mat4.Inv (1 : Mat4 F) = 1 := by
  have h1 : FloatEqual (1 : F) 0 = false := by
    rw [FloatEqual_zero]
    simp only [decide_eq_false_iff_not, not_lt, Epsilon, abs_one]
    norm_num
  simp [Mat4.Inv, h1]

/-- Under the identity transform the object-space direction is the direction. -/
theorem objDir_one (ray : Vec3 F) : objDir 1 ray = ray := by
  simp [objDir, Mat4.Inv_one, Mat4.Mul4x1, Vec4.Vec3, Vec3.Vec4]

/-- Under the identity transform the object-space origin is the origin. -/
theorem objOrigin_one (origin : Vec3 F) : objOrigin 1 origin = origin := by
  simp [objOrigin, Mat4.Inv_one, Mat4.Mul4x1, Vec4.Vec3, Vec3.Vec4]

/-- A non-zero vector has a positive square norm. -/
theorem Vec3.dot_self_pos (d : Vec3 F) (hd : d ≠ Vec3.zero) : 0 < d.Dot d := by
  rcases d with ⟨x, y, z⟩
  have hne : x ≠ 0 ∨ y ≠ 0 ∨ z ≠ 0 := by
    by_contra hcon
    push_neg at hcon
    apply hd
    simp [Vec3.zero, hcon.1, hcon.2.1, hcon.2.2]
  simp only [Vec3.Dot]
  rcases hne with h | h | h
  · have := mul_self_pos.2 h
    nlinarith [mul_self_nonneg y, mul_self_nonneg z]
  · have := mul_self_pos.2 h
    nlinarith [mul_self_nonneg x, mul_self_nonneg z]
  · have := mul_self_pos.2 h
    nlinarith [mul_self_nonneg x, mul_self_nonneg y]

/-- The method `Sphere.Intersect` in terms of the object-space ray. -/
theorem sphere_Intersect_eq (sqrt : F → F) (object : Sphere F) (origin ray : Vec3 F) :
    object.Intersect sqrt origin ray =
      (let d := objDir object.transform ray
       let o := objOrigin object.transform origin
       let a := d.Dot d
       let b := d.Dot (o.Sub object.pos) * 2
       let D := sphereDiscriminant object o d
       if D < 0 then -1
       else if (-b + sqrt D) / (2 * a) > 0 ∧ (-b - sqrt D) / (2 * a) > 0 then
         min ((-b + sqrt D) / (2 * a)) ((-b - sqrt D) / (2 * a))
       else if (-b + sqrt D) / (2 * a) > 0 then (-b + sqrt D) / (2 * a)
       else if (-b - sqrt D) / (2 * a) > 0 then (-b - sqrt D) / (2 * a)
       else -1) := by
  have hD : sphereDiscriminant object (objOrigin object.transform origin)
      (objDir object.transform ray) =
      (objDir object.transform ray).Dot ((objOrigin object.transform origin).Sub object.pos) * 2 *
        ((objDir object.transform ray).Dot
          ((objOrigin object.transform origin).Sub object.pos) * 2) -
      4 * (objDir object.transform ray).Dot (objDir object.transform ray) *
        (((objOrigin object.transform origin).Sub object.pos).Dot
          ((objOrigin object.transform origin).Sub object.pos) -
          object.radius * object.radius) := by
    simp only [sphereDiscriminant]; ring
  simp only [Sphere.Intersect, hD]
  rfl

/-- The selection among the two roots made by `Sphere.Intersect`, for a
quadratic with positive leading coefficient and a square root `s` of its
discriminant: the result is `-1` exactly when there is no positive root, and
is the least positive root when there is one. -/
theorem root_selection (a b c s : F) (ha : 0 < a) (hs0 : 0 ≤ s)
    (hss : b * b - 4 * a * c = s * s) :
    ((if (-b + s) / (2 * a) > 0 ∧ (-b - s) / (2 * a) > 0 then
        min ((-b + s) / (2 * a)) ((-b - s) / (2 * a))
      else if (-b + s) / (2 * a) > 0 then (-b + s) / (2 * a)
      else if (-b - s) / (2 * a) > 0 then (-b - s) / (2 * a)
      else -1) = -1 ↔ ¬ ∃ t, 0 < t ∧ a * t * t + b * t + c = 0) ∧
    ((∃ t, 0 < t ∧ a * t * t + b * t + c = 0) →
      ∃ r, (if (-b + s) / (2 * a) > 0 ∧ (-b - s) / (2 * a) > 0 then
          min ((-b + s) / (2 * a)) ((-b - s) / (2 * a))
        else if (-b + s) / (2 * a) > 0 then (-b + s) / (2 * a)
        else if (-b - s) / (2 * a) > 0 then (-b - s) / (2 * a)
        else -1) = r ∧ 0 < r ∧ a * r * r + b * r + c = 0 ∧
        ∀ t, 0 < t → a * t * t + b * t + c = 0 → r ≤ t) := by
  have ha0 : a ≠ 0 := ne_of_gt ha
  have hdisc : discrim a b c = s * s := by rw [discrim, ← hss]; ring
  have hroots : ∀ t, a * t * t + b * t + c = 0 ↔
      t = (-b + s) / (2 * a) ∨ t = (-b - s) / (2 * a) :=
    fun t => by rw [mul_assoc]; exact quadratic_eq_zero_iff ha0 hdisc t
  have h21 : (-b - s) / (2 * a) ≤ (-b + s) / (2 * a) := by
    apply div_le_div_of_nonneg_right _ (by linarith)
    linarith
  generalize (-b + s) / (2 * a) = t1 at hroots h21 ⊢
  generalize (-b - s) / (2 * a) = t2 at hroots h21 ⊢
  have hr1 : a * t1 * t1 + b * t1 + c = 0 := (hroots t1).2 (Or.inl rfl)
  have hr2 : a * t2 * t2 + b * t2 + c = 0 := (hroots t2).2 (Or.inr rfl)
  by_cases h2 : t2 > 0
  · have h1 : t1 > 0 := lt_of_lt_of_le h2 h21
    rw [if_pos ⟨h1, h2⟩, min_eq_right h21]
    refine ⟨⟨fun h => ?_, fun h => absurd ⟨t2, h2, hr2⟩ h⟩, fun _ => ⟨t2, rfl, h2, hr2, ?_⟩⟩
    · linarith
    · intro t _ hq
      rcases (hroots t).1 hq with rfl | rfl
      · exact h21
      · exact le_rfl
  · by_cases h1 : t1 > 0
    · rw [if_neg (fun h => h2 h.2), if_pos h1]
      refine ⟨⟨fun h => ?_, fun h => absurd ⟨t1, h1, hr1⟩ h⟩, fun _ => ⟨t1, rfl, h1, hr1, ?_⟩⟩
      · linarith
      · intro t ht hq
        rcases (hroots t).1 hq with rfl | rfl
        · exact le_rfl
        · exact absurd ht h2
    · rw [if_neg (fun h => h2 h.2), if_neg h1, if_neg h2]
      have hnone : ¬ ∃ t, 0 < t ∧ a * t * t + b * t + c = 0 := by
        rintro ⟨t, ht, hq⟩
        rcases (hroots t).1 hq with rfl | rfl
        · exact h1 ht
        · exact h2 ht
      exact ⟨⟨fun _ => hnone, fun _ => rfl⟩, fun h => absurd h hnone⟩

/-- C2. For every sphere and every ray whose object-space direction `d` is not
zero, with `math.Sqrt` the square root: `Sphere.Intersect` returns `-1` exactly
when the quadratic `a·t² + b·t + c` has no strictly positive root, and
otherwise returns its smallest strictly positive root. -/
theorem Sphere.Intersect_smallest_positive_root (sqrt : F → F) (object : Sphere F)
    (origin ray : Vec3 F) (hsqrt : IsSqrt sqrt)
    (hd : objDir object.transform ray ≠ Vec3.zero) :
    (object.Intersect sqrt origin ray = -1 ↔
      ¬ ∃ t, 0 < t ∧ sphereQuadratic object (objOrigin object.transform origin)
        (objDir object.transform ray) t = 0) ∧
    ((∃ t, 0 < t ∧ sphereQuadratic object (objOrigin object.transform origin)
        (objDir object.transform ray) t = 0) →
      0 < object.Intersect sqrt origin ray ∧
      sphereQuadratic object (objOrigin object.transform origin)
        (objDir object.transform ray) (object.Intersect sqrt origin ray) = 0 ∧
      ∀ t, 0 < t → sphereQuadratic object (objOrigin object.transform origin)
        (objDir object.transform ray) t = 0 → object.Intersect sqrt origin ray ≤ t) := by
  have ha := Vec3.dot_self_pos _ hd
  rw [sphere_Intersect_eq]
  simp only [sphereQuadratic]
  generalize hD : sphereDiscriminant object (objOrigin object.transform origin)
    (objDir object.transform ray) = D
  simp only [sphereDiscriminant] at hD
  generalize objDir object.transform ray = d at ha hD ⊢
  generalize objOrigin object.transform origin = o at hD ⊢
  by_cases hneg : D < 0
  · rw [if_pos hneg]
    have hnone : ¬ ∃ t, 0 < t ∧ d.Dot d * t * t + 2 * d.Dot (o.Sub object.pos) * t +
        ((o.Sub object.pos).Dot (o.Sub object.pos) - object.radius * object.radius) = 0 := by
      rintro ⟨t, _, hq⟩
      have hsq : (2 * d.Dot d * t + 2 * d.Dot (o.Sub object.pos)) ^ 2 = D := by
        rw [← hD]
        linear_combination 4 * d.Dot d * hq
      have := sq_nonneg (2 * d.Dot d * t + 2 * d.Dot (o.Sub object.pos))
      linarith
    exact ⟨⟨fun _ => hnone, fun _ => rfl⟩, fun h => absurd h hnone⟩
  · rw [if_neg hneg]
    obtain ⟨hs0, hss⟩ := hsqrt D (not_lt.1 hneg)
    have hb : d.Dot (o.Sub object.pos) * 2 = 2 * d.Dot (o.Sub object.pos) := mul_comm _ _
    rw [hb]
    have key := root_selection (d.Dot d) (2 * d.Dot (o.Sub object.pos))
      ((o.Sub object.pos).Dot (o.Sub object.pos) - object.radius * object.radius)
      (sqrt D) ha hs0 (by rw [hss, ← hD])
    refine ⟨key.1, fun h => ?_⟩
    obtain ⟨r, hr, hrpos, hrq, hrmin⟩ := key.2 h
    rw [hr]
    exact ⟨hrpos, hrq, hrmin⟩

/-- The unit sphere has the identity transform. -/
theorem unitSphere_transform : (unitSphere : Sphere F).transform = 1 := rfl

/-- Witness of C2 on the reals: the ray from `(0, 0, 5)` along `(0, 0, -1)`
meets the unit sphere, so the distance returned is a positive root of the
quadratic and no positive root is smaller. -/
theorem Sphere.Intersect_smallest_positive_root_witness :
    IsSqrt Real.sqrt ∧
    objDir (unitSphere : Sphere ℝ).transform ⟨0, 0, -1⟩ ≠ Vec3.zero ∧
    0 < (unitSphere : Sphere ℝ).Intersect Real.sqrt ⟨0, 0, 5⟩ ⟨0, 0, -1⟩ ∧
    sphereQuadratic (unitSphere : Sphere ℝ) (objOrigin (unitSphere : Sphere ℝ).transform ⟨0, 0, 5⟩)
      (objDir (unitSphere : Sphere ℝ).transform ⟨0, 0, -1⟩)
      ((unitSphere : Sphere ℝ).Intersect Real.sqrt ⟨0, 0, 5⟩ ⟨0, 0, -1⟩) = 0 ∧
    ∀ t, 0 < t → sphereQuadratic (unitSphere : Sphere ℝ)
      (objOrigin (unitSphere : Sphere ℝ).transform ⟨0, 0, 5⟩)
      (objDir (unitSphere : Sphere ℝ).transform ⟨0, 0, -1⟩) t = 0 →
      (unitSphere : Sphere ℝ).Intersect Real.sqrt ⟨0, 0, 5⟩ ⟨0, 0, -1⟩ ≤ t := by
  have hd : objDir (unitSphere : Sphere ℝ).transform ⟨0, 0, -1⟩ ≠ Vec3.zero := by
    rw [unitSphere_transform, objDir_one]
    simp [Vec3.zero]
  refine ⟨isSqrt_real, hd, ?_⟩
  refine (Sphere.Intersect_smallest_positive_root Real.sqrt unitSphere ⟨0, 0, 5⟩ ⟨0, 0, -1⟩
    isSqrt_real hd).2 ⟨4, by norm_num, ?_⟩
  rw [unitSphere_transform, objDir_one, objOrigin_one]
  simp [sphereQuadratic, unitSphere, NewSphere, Vec3.zero, Vec3.Dot, Vec3.Sub]
  norm_num

/-- The result of `Sphere.Intersect` on a zero discriminant, when `math.Sqrt`
maps `0` to `0`: the double root `-b / (2·a)` when it is positive, else `-1`. -/
theorem Sphere.Intersect_of_discriminant_zero (sqrt : F → F) (object : Sphere F)
    (origin ray : Vec3 F) (hsqrt : sqrt 0 = 0)
    (hD : sphereDiscriminant object (objOrigin object.transform origin)
      (objDir object.transform ray) = 0) :
    object.Intersect sqrt origin ray =
      if 0 < -(2 * (objDir object.transform ray).Dot
            ((objOrigin object.transform origin).Sub object.pos)) /
          (2 * (objDir object.transform ray).Dot (objDir object.transform ray)) then
        -(2 * (objDir object.transform ray).Dot
            ((objOrigin object.transform origin).Sub object.pos)) /
          (2 * (objDir object.transform ray).Dot (objDir object.transform ray))
      else -1 := by
  rw [sphere_Intersect_eq]
  simp only [hD, hsqrt, lt_irrefl, if_false, add_zero, sub_zero, gt_iff_lt, and_self, min_self]
  rw [mul_comm ((objDir object.transform ray).Dot
    ((objOrigin object.transform origin).Sub object.pos)) 2]
  split_ifs <;> rfl

/-- The ray from `(1, 0, -2)` along `(0, 0, 1)` is tangent to the unit sphere. -/
theorem tangent_ray_discriminant :
    sphereDiscriminant (unitSphere : Sphere ℝ)
      (objOrigin (unitSphere : Sphere ℝ).transform ⟨1, 0, -2⟩)
      (objDir (unitSphere : Sphere ℝ).transform ⟨0, 0, 1⟩) = 0 := by
  rw [unitSphere_transform, objDir_one, objOrigin_one]
  simp [sphereDiscriminant, unitSphere, NewSphere, Vec3.zero, Vec3.Dot, Vec3.Sub]
  norm_num

/-- C6, counterexample. The ray from `(1, 0, -2)` along `(0, 0, 1)` is tangent to
the unit sphere (its quadratic has discriminant exactly `0`), and
`Sphere.Intersect` returns the distance `2` of the tangent point, not `-1`. -/
theorem Sphere.Intersect_tangent_ray_hits :
    sphereDiscriminant (unitSphere : Sphere ℝ)
      (objOrigin (unitSphere : Sphere ℝ).transform ⟨1, 0, -2⟩)
      (objDir (unitSphere : Sphere ℝ).transform ⟨0, 0, 1⟩) = 0 ∧
    (unitSphere : Sphere ℝ).Intersect Real.sqrt ⟨1, 0, -2⟩ ⟨0, 0, 1⟩ = 2 ∧
    (unitSphere : Sphere ℝ).Intersect Real.sqrt ⟨1, 0, -2⟩ ⟨0, 0, 1⟩ ≠ -1 := by
  have h2 : (unitSphere : Sphere ℝ).Intersect Real.sqrt ⟨1, 0, -2⟩ ⟨0, 0, 1⟩ = 2 := by
    rw [Sphere.Intersect_of_discriminant_zero Real.sqrt unitSphere _ _ Real.sqrt_zero
      tangent_ray_discriminant, unitSphere_transform, objDir_one, objOrigin_one]
    simp [unitSphere, NewSphere, Vec3.zero, Vec3.Dot, Vec3.Sub]
  refine ⟨tangent_ray_discriminant, h2, ?_⟩
  rw [h2]; norm_num

/-- C6, as amended. For every sphere and every ray whose quadratic has
discriminant exactly zero, with `math.Sqrt` mapping `0` to `0`,
`Sphere.Intersect` returns the double root `-b / (2·a)` when it is strictly
positive (the tangent point is in front of the origin) and `-1` otherwise. -/
theorem Sphere.Intersect_tangent (sqrt : F → F) (object : Sphere F)
    (origin ray : Vec3 F) (hsqrt : sqrt 0 = 0)
    (hD : sphereDiscriminant object (objOrigin object.transform origin)
      (objDir object.transform ray) = 0) :
    object.Intersect sqrt origin ray =
      if 0 < -(2 * (objDir object.transform ray).Dot
            ((objOrigin object.transform origin).Sub object.pos)) /
          (2 * (objDir object.transform ray).Dot (objDir object.transform ray)) then
        -(2 * (objDir object.transform ray).Dot
            ((objOrigin object.transform origin).Sub object.pos)) /
          (2 * (objDir object.transform ray).Dot (objDir object.transform ray))
      else -1 :=
  Sphere.Intersect_of_discriminant_zero sqrt object origin ray hsqrt hD

/-- Witness of C6 as amended, at the tangent ray from `(1, 0, -2)` along
`(0, 0, 1)` to the unit sphere. -/
theorem Sphere.Intersect_tangent_witness :
    Real.sqrt 0 = 0 ∧
    sphereDiscriminant (unitSphere : Sphere ℝ)
      (objOrigin (unitSphere : Sphere ℝ).transform ⟨1, 0, -2⟩)
      (objDir (unitSphere : Sphere ℝ).transform ⟨0, 0, 1⟩) = 0 ∧
    (unitSphere : Sphere ℝ).Intersect Real.sqrt ⟨1, 0, -2⟩ ⟨0, 0, 1⟩ =
      if 0 < -(2 * (objDir (unitSphere : Sphere ℝ).transform ⟨0, 0, 1⟩).Dot
            ((objOrigin (unitSphere : Sphere ℝ).transform ⟨1, 0, -2⟩).Sub
              (unitSphere : Sphere ℝ).pos)) /
          (2 * (objDir (unitSphere : Sphere ℝ).transform ⟨0, 0, 1⟩).Dot
            (objDir (unitSphere : Sphere ℝ).transform ⟨0, 0, 1⟩)) then
        -(2 * (objDir (unitSphere : Sphere ℝ).transform ⟨0, 0, 1⟩).Dot
            ((objOrigin (unitSphere : Sphere ℝ).transform ⟨1, 0, -2⟩).Sub
              (unitSphere : Sphere ℝ).pos)) /
          (2 * (objDir (unitSphere : Sphere ℝ).transform ⟨0, 0, 1⟩).Dot
            (objDir (unitSphere : Sphere ℝ).transform ⟨0, 0, 1⟩))
      else -1 :=
  ⟨Real.sqrt_zero, tangent_ray_discriminant,
    Sphere.Intersect_tangent Real.sqrt unitSphere ⟨1, 0, -2⟩ ⟨0, 0, 1⟩ Real.sqrt_zero
      tangent_ray_discriminant⟩

end SphereThms

/-! ## Triangles -/

section TriangleThms

variable {F : Type} [LinearOrderedField F]

/-- The method `Triangle.Intersect` is `triangleHit` on the object-space ray. -/
theorem triangle_Intersect_eq (object : Triangle F) (origin ray : Vec3 F) :
    object.Intersect origin ray =
      triangleHit object.norm object.v1 object.v2 object.v3
        (objOrigin object.transform origin) (objDir object.transform ray) := rfl

/-- Normalizing scales by the inverse of the length. -/
theorem Vec3.Normalize_eq_Mul (sqrt : F → F) (v : Vec3 F) :
    v.Normalize sqrt = v.Mul (1 / v.Len sqrt) := rfl

/-- The dot product with a scaled vector. -/
theorem Vec3.Dot_Mul_right (a b : Vec3 F) (k : F) : a.Dot (b.Mul k) = a.Dot b * k := by
  simp only [Vec3.Dot, Vec3.Mul]; ring

/-- The dot product of a scaled vector. -/
theorem Vec3.Dot_Mul_left (a b : Vec3 F) (k : F) : (a.Mul k).Dot b = a.Dot b * k := by
  simp only [Vec3.Dot, Vec3.Mul]; ring

/-- The result of `triangleHit` does not depend on the length of a non-zero
normal. -/
theorem triangleHit_scale (N v1 v2 v3 o d : Vec3 F) (k : F) (hk : k ≠ 0) :
    triangleHit (N.Mul k) v1 v2 v3 o d = triangleHit N v1 v2 v3 o d := by
  have hz : d.Dot N * k = 0 ↔ d.Dot N = 0 := by
    constructor
    · intro h
      rcases mul_eq_zero.1 h with h | h
      · exact h
      · exact absurd h hk
    · intro h; rw [h, zero_mul]
  simp only [triangleHit, Vec3.Dot_Mul_right, Vec3.Dot_Mul_left, ← sub_mul,
    mul_div_mul_right _ _ hk, hz]

/-- What a result other than `-1` of `triangleHit` says: the ray is not
parallel to the plane, the result is the plane parameter, which is not
negative, and the barycentric test holds at the plane point. -/
theorem triangleHit_inv (N v1 v2 v3 o d : Vec3 F) (h : triangleHit N v1 v2 v3 o d ≠ -1) :
    d.Dot N ≠ 0 ∧
    triangleHit N v1 v2 v3 o d = (v1.Dot N - o.Dot N) / d.Dot N ∧
    0 ≤ (v1.Dot N - o.Dot N) / d.Dot N ∧
    (N.Dot ((v2.Sub (o.Add (d.Mul ((v1.Dot N - o.Dot N) / d.Dot N)))).Cross
        (v3.Sub (o.Add (d.Mul ((v1.Dot N - o.Dot N) / d.Dot N))))) /
        N.Dot ((v2.Sub v1).Cross (v3.Sub v1)) ≥ 0 ∧
      N.Dot ((v2.Sub (o.Add (d.Mul ((v1.Dot N - o.Dot N) / d.Dot N)))).Cross
        (v3.Sub (o.Add (d.Mul ((v1.Dot N - o.Dot N) / d.Dot N))))) /
        N.Dot ((v2.Sub v1).Cross (v3.Sub v1)) ≤ 1 ∧
      N.Dot ((v3.Sub (o.Add (d.Mul ((v1.Dot N - o.Dot N) / d.Dot N)))).Cross
        (v1.Sub (o.Add (d.Mul ((v1.Dot N - o.Dot N) / d.Dot N))))) /
        N.Dot ((v2.Sub v1).Cross (v3.Sub v1)) ≥ 0 ∧
      N.Dot ((v3.Sub (o.Add (d.Mul ((v1.Dot N - o.Dot N) / d.Dot N)))).Cross
        (v1.Sub (o.Add (d.Mul ((v1.Dot N - o.Dot N) / d.Dot N))))) /
        N.Dot ((v2.Sub v1).Cross (v3.Sub v1)) ≤ 1 ∧
      N.Dot ((v2.Sub (o.Add (d.Mul ((v1.Dot N - o.Dot N) / d.Dot N)))).Cross
        (v3.Sub (o.Add (d.Mul ((v1.Dot N - o.Dot N) / d.Dot N))))) /
        N.Dot ((v2.Sub v1).Cross (v3.Sub v1)) +
      N.Dot ((v3.Sub (o.Add (d.Mul ((v1.Dot N - o.Dot N) / d.Dot N)))).Cross
        (v1.Sub (o.Add (d.Mul ((v1.Dot N - o.Dot N) / d.Dot N))))) /
        N.Dot ((v2.Sub v1).Cross (v3.Sub v1)) ≤ 1) := by
  simp only [triangleHit] at h ⊢
  split_ifs at h ⊢ with h1 h2 h3
  · exact absurd rfl h
  · exact absurd rfl h
  · exact ⟨h1, rfl, not_lt.1 h2, h3⟩
  · exact absurd rfl h

/-- The plane parameter is returned when it is not negative and the plane
point passes the barycentric test. -/
theorem triangleHit_of (N v1 v2 v3 o d : Vec3 F) (t : F) (h1 : d.Dot N ≠ 0)
    (ht : (v1.Dot N - o.Dot N) / d.Dot N = t) (h2 : 0 ≤ t)
    (h3 : N.Dot ((v2.Sub (o.Add (d.Mul t))).Cross (v3.Sub (o.Add (d.Mul t)))) /
        N.Dot ((v2.Sub v1).Cross (v3.Sub v1)) ≥ 0 ∧
      N.Dot ((v2.Sub (o.Add (d.Mul t))).Cross (v3.Sub (o.Add (d.Mul t)))) /
        N.Dot ((v2.Sub v1).Cross (v3.Sub v1)) ≤ 1 ∧
      N.Dot ((v3.Sub (o.Add (d.Mul t))).Cross (v1.Sub (o.Add (d.Mul t)))) /
        N.Dot ((v2.Sub v1).Cross (v3.Sub v1)) ≥ 0 ∧
      N.Dot ((v3.Sub (o.Add (d.Mul t))).Cross (v1.Sub (o.Add (d.Mul t)))) /
        N.Dot ((v2.Sub v1).Cross (v3.Sub v1)) ≤ 1 ∧
      N.Dot ((v2.Sub (o.Add (d.Mul t))).Cross (v3.Sub (o.Add (d.Mul t)))) /
        N.Dot ((v2.Sub v1).Cross (v3.Sub v1)) +
      N.Dot ((v3.Sub (o.Add (d.Mul t))).Cross (v1.Sub (o.Add (d.Mul t)))) /
        N.Dot ((v2.Sub v1).Cross (v3.Sub v1)) ≤ 1) :
    triangleHit N v1 v2 v3 o d = t := by
  simp only [triangleHit, ht]
  rw [if_neg h1, if_neg (not_lt.2 h2), if_pos h3]

/-- A point of the plane of a triangle is the combination of the vertices with
the area-ratio coordinates, here before the division by the denominator. -/
theorem bary_identity (v1 v2 v3 p : Vec3 F)
    (hpl : p.Dot ((v3.Sub v1).Cross (v2.Sub v1)) = v1.Dot ((v3.Sub v1).Cross (v2.Sub v1))) :
    p.Mul (((v3.Sub v1).Cross (v2.Sub v1)).Dot ((v2.Sub v1).Cross (v3.Sub v1))) =
      ((v1.Mul (((v3.Sub v1).Cross (v2.Sub v1)).Dot ((v2.Sub p).Cross (v3.Sub p)))).Add
        (v2.Mul (((v3.Sub v1).Cross (v2.Sub v1)).Dot ((v3.Sub p).Cross (v1.Sub p))))).Add
        (v3.Mul (((v3.Sub v1).Cross (v2.Sub v1)).Dot ((v2.Sub v1).Cross (v3.Sub v1)) -
          ((v3.Sub v1).Cross (v2.Sub v1)).Dot ((v2.Sub p).Cross (v3.Sub p)) -
          ((v3.Sub v1).Cross (v2.Sub v1)).Dot ((v3.Sub p).Cross (v1.Sub p)))) := by
  rcases v1 with ⟨a1, a2, a3⟩
  rcases v2 with ⟨b1, b2, b3⟩
  rcases v3 with ⟨c1, c2, c3⟩
  rcases p with ⟨p1, p2, p3⟩
  simp only [Vec3.Dot, Vec3.Cross, Vec3.Sub, Vec3.Add, Vec3.Mul] at hpl ⊢
  ext
  · simp only
    linear_combination (-((c2 - a2) * (b3 - a3) - (c3 - a3) * (b2 - a2))) * hpl
  · simp only
    linear_combination (-((c3 - a3) * (b1 - a1) - (c1 - a1) * (b3 - a3))) * hpl
  · simp only
    linear_combination (-((c1 - a1) * (b2 - a2) - (c2 - a2) * (b1 - a1))) * hpl

/-- The denominator of the barycentric coordinates is minus the square norm
of the unnormalized normal. -/
theorem bary_denominator (v1 v2 v3 : Vec3 F) :
    ((v3.Sub v1).Cross (v2.Sub v1)).Dot ((v2.Sub v1).Cross (v3.Sub v1)) =
      -(((v3.Sub v1).Cross (v2.Sub v1)).Dot ((v3.Sub v1).Cross (v2.Sub v1))) := by
  simp only [Vec3.Dot, Vec3.Cross, Vec3.Sub]; ring

/-- The area-ratio coordinates of a combination of the vertices with
coefficients of sum `1` are its first two coefficients, and the combination
lies in the plane of the triangle. -/
theorem bary_of_combination (v1 v2 v3 : Vec3 F) (alpha beta gamma : F)
    (hsum : alpha + beta + gamma = 1) :
    ((v3.Sub v1).Cross (v2.Sub v1)).Dot
        ((v2.Sub (((v1.Mul alpha).Add (v2.Mul beta)).Add (v3.Mul gamma))).Cross
          (v3.Sub (((v1.Mul alpha).Add (v2.Mul beta)).Add (v3.Mul gamma)))) =
      alpha * ((v3.Sub v1).Cross (v2.Sub v1)).Dot ((v2.Sub v1).Cross (v3.Sub v1)) ∧
    ((v3.Sub v1).Cross (v2.Sub v1)).Dot
        ((v3.Sub (((v1.Mul alpha).Add (v2.Mul beta)).Add (v3.Mul gamma))).Cross
          (v1.Sub (((v1.Mul alpha).Add (v2.Mul beta)).Add (v3.Mul gamma)))) =
      beta * ((v3.Sub v1).Cross (v2.Sub v1)).Dot ((v2.Sub v1).Cross (v3.Sub v1)) ∧
    (((v1.Mul alpha).Add (v2.Mul beta)).Add (v3.Mul gamma)).Dot
        ((v3.Sub v1).Cross (v2.Sub v1)) =
      v1.Dot ((v3.Sub v1).Cross (v2.Sub v1)) := by
  have hg : gamma = 1 - alpha - beta := by linarith
  subst hg
  simp only [Vec3.Dot, Vec3.Cross, Vec3.Sub, Vec3.Add, Vec3.Mul]
  refine ⟨?_, ?_, ?_⟩ <;> ring

/-- The method `Triangle.Intersect` on a triangle built by `NewTriangle` whose
normalizing factor is not zero, in terms of the unnormalized normal
`(V3 - V1) × (V2 - V1)`. -/
theorem NewTriangle_Intersect (sqrt : F → F) (V1 V2 V3 A D S E : Vec3 F) (sh : F)
    (T : Mat4 F) (origin ray : Vec3 F)
    (hk : 1 / ((V3.Sub V1).Cross (V2.Sub V1)).Len sqrt ≠ 0) :
    (NewTriangle sqrt V1 V2 V3 A D S E sh T).Intersect origin ray =
      triangleHit ((V3.Sub V1).Cross (V2.Sub V1)) V1 V2 V3
        (objOrigin T origin) (objDir T ray) := by
  rw [triangle_Intersect_eq]
  show triangleHit (((V3.Sub V1).Cross (V2.Sub V1)).Normalize sqrt) V1 V2 V3
    (objOrigin T origin) (objDir T ray) = _
  rw [Vec3.Normalize_eq_Mul, triangleHit_scale _ _ _ _ _ _ _ hk]

/-- With `math.Sqrt` the square root, the normalizing factor of a non-zero
vector is not zero. -/
theorem inv_Len_ne_zero (sqrt : F → F) (hsqrt : IsSqrt sqrt) (N : Vec3 F)
    (hN : N ≠ Vec3.zero) : 1 / N.Len sqrt ≠ 0 := by
  have hpos : 0 < N.Dot N := Vec3.dot_self_pos N hN
  have hsq := (hsqrt (N.Dot N) (le_of_lt hpos)).2
  have hne : N.Len sqrt ≠ 0 := by
    intro h0
    have h1 : sqrt (N.Dot N) = 0 := h0
    rw [h1, mul_zero] at hsq
    exact absurd hsq (ne_of_lt hpos)
  exact one_div_ne_zero hne

/-- A result of `triangleHit` other than `-1`, for a non-degenerate triangle
and its normal, is the parameter of a point of the closed triangle. -/
theorem triangleHit_sound (v1 v2 v3 o d : Vec3 F)
    (hN : (v3.Sub v1).Cross (v2.Sub v1) ≠ Vec3.zero)
    (h : triangleHit ((v3.Sub v1).Cross (v2.Sub v1)) v1 v2 v3 o d ≠ -1) :
    InClosedTriangle v1 v2 v3
      (o.Add (d.Mul (triangleHit ((v3.Sub v1).Cross (v2.Sub v1)) v1 v2 v3 o d))) := by
  obtain ⟨h1, heq, _, ha0, ha1, hb0, hb1, hab⟩ := triangleHit_inv _ v1 v2 v3 o d h
  rw [heq]
  have hden : ((v3.Sub v1).Cross (v2.Sub v1)).Dot ((v2.Sub v1).Cross (v3.Sub v1)) ≠ 0 := by
    rw [bary_denominator]
    exact neg_ne_zero.2 (ne_of_gt (Vec3.dot_self_pos _ hN))
  have hpl : (o.Add (d.Mul ((v1.Dot ((v3.Sub v1).Cross (v2.Sub v1)) -
      o.Dot ((v3.Sub v1).Cross (v2.Sub v1))) / d.Dot ((v3.Sub v1).Cross (v2.Sub v1))))).Dot
      ((v3.Sub v1).Cross (v2.Sub v1)) = v1.Dot ((v3.Sub v1).Cross (v2.Sub v1)) := by
    have hsplit : ∀ (t : F) (N : Vec3 F), (o.Add (d.Mul t)).Dot N = o.Dot N + t * d.Dot N := by
      intro t N
      simp only [Vec3.Dot, Vec3.Add, Vec3.Mul]; ring
    rw [hsplit, div_mul_cancel₀ _ h1]
    ring
  have hid := bary_identity v1 v2 v3 _ hpl
  generalize o.Add (d.Mul ((v1.Dot ((v3.Sub v1).Cross (v2.Sub v1)) -
      o.Dot ((v3.Sub v1).Cross (v2.Sub v1))) / d.Dot ((v3.Sub v1).Cross (v2.Sub v1)))) = p
    at ha0 ha1 hb0 hb1 hab hid ⊢
  generalize ((v3.Sub v1).Cross (v2.Sub v1)).Dot ((v2.Sub v1).Cross (v3.Sub v1)) = den
    at ha0 ha1 hb0 hb1 hab hid hden
  generalize ((v3.Sub v1).Cross (v2.Sub v1)).Dot ((v2.Sub p).Cross (v3.Sub p)) = A
    at ha0 ha1 hab hid
  generalize ((v3.Sub v1).Cross (v2.Sub v1)).Dot ((v3.Sub p).Cross (v1.Sub p)) = B
    at hb0 hb1 hab hid
  refine ⟨A / den, B / den, 1 - A / den - B / den, ha0, ha1, hb0, hb1, by linarith,
    by linarith, by ring, ?_⟩
  rw [Vec3.ext_iff] at hid ⊢
  simp only [Vec3.Add, Vec3.Mul] at hid ⊢
  obtain ⟨hx, hy, hz⟩ := hid
  refine ⟨?_, ?_, ?_⟩
  · field_simp
    linear_combination hx
  · field_simp
    linear_combination hy
  · field_simp
    linear_combination hz

/-- A ray that is not parallel to the plane and reaches a point of the closed
triangle at a parameter `t ≥ 0` makes `triangleHit` return `t`. -/
theorem triangleHit_complete (v1 v2 v3 o d : Vec3 F) (t : F)
    (hN : (v3.Sub v1).Cross (v2.Sub v1) ≠ Vec3.zero)
    (hd : d.Dot ((v3.Sub v1).Cross (v2.Sub v1)) ≠ 0) (ht : 0 ≤ t)
    (hin : InClosedTriangle v1 v2 v3 (o.Add (d.Mul t))) :
    triangleHit ((v3.Sub v1).Cross (v2.Sub v1)) v1 v2 v3 o d = t := by
  obtain ⟨alpha, beta, gamma, ha0, ha1, hb0, hb1, hg0, _, hsum, hp⟩ := hin
  obtain ⟨hA, hB, hpl⟩ := bary_of_combination v1 v2 v3 alpha beta gamma hsum
  have hden : ((v3.Sub v1).Cross (v2.Sub v1)).Dot ((v2.Sub v1).Cross (v3.Sub v1)) ≠ 0 := by
    rw [bary_denominator]
    exact neg_ne_zero.2 (ne_of_gt (Vec3.dot_self_pos _ hN))
  have hsplit : (o.Add (d.Mul t)).Dot ((v3.Sub v1).Cross (v2.Sub v1)) =
      o.Dot ((v3.Sub v1).Cross (v2.Sub v1)) + t * d.Dot ((v3.Sub v1).Cross (v2.Sub v1)) := by
    simp only [Vec3.Dot, Vec3.Add, Vec3.Mul]; ring
  apply triangleHit_of _ v1 v2 v3 o d t hd
  · rw [div_eq_iff hd]
    rw [hp, hpl] at hsplit
    linarith
  · exact ht
  · rw [hp, hA, hB, mul_div_assoc, mul_div_assoc, div_self hden, mul_one, mul_one]
    exact ⟨ha0, ha1, hb0, hb1, by linarith⟩

/-- C3. For a non-degenerate triangle built by `NewTriangle` with
the identity transform and `math.Sqrt` the square root: a result `t` of
`Triangle.Intersect` other than `-1` is the parameter of a point `o + t·d` of
the closed triangle; conversely, when the ray meets the plane of the triangle (it
crosses the plane: `d·n ≠ 0` for the normal `n = (v3 - v1) × (v2 - v1)`) at a
parameter `t > 0` in a point of the closed triangle, `Intersect` returns that
`t`. -/
theorem Triangle.Intersect_closed_triangle (sqrt : F → F) (V1 V2 V3 A D S E : Vec3 F)
    (sh : F) (origin ray : Vec3 F) (hsqrt : IsSqrt sqrt) (hnd : ¬ Degenerate V1 V2 V3) :
    ((NewTriangle sqrt V1 V2 V3 A D S E sh 1).Intersect origin ray ≠ -1 →
      InClosedTriangle V1 V2 V3
        (origin.Add (ray.Mul ((NewTriangle sqrt V1 V2 V3 A D S E sh 1).Intersect origin ray)))) ∧
    (∀ t, 0 < t → ray.Dot ((V3.Sub V1).Cross (V2.Sub V1)) ≠ 0 →
      InClosedTriangle V1 V2 V3 (origin.Add (ray.Mul t)) →
      (NewTriangle sqrt V1 V2 V3 A D S E sh 1).Intersect origin ray = t) := by
  have hN : (V3.Sub V1).Cross (V2.Sub V1) ≠ Vec3.zero := hnd
  have hk := inv_Len_ne_zero sqrt hsqrt _ hN
  rw [NewTriangle_Intersect _ _ _ _ _ _ _ _ _ _ _ _ hk, objOrigin_one, objDir_one]
  exact ⟨triangleHit_sound V1 V2 V3 origin ray hN,
    fun t ht hd hin => triangleHit_complete V1 V2 V3 origin ray t hN hd (le_of_lt ht) hin⟩

/-- The point `(1/4, 1/4, 0)` lies in the closed triangle of `(0, 0, 0)`,
`(1, 0, 0)` and `(0, 1, 0)`. -/
theorem quarter_point_in_triangle :
    InClosedTriangle (⟨0, 0, 0⟩ : Vec3 ℝ) ⟨1, 0, 0⟩ ⟨0, 1, 0⟩ ⟨1 / 4, 1 / 4, 0⟩ := by
  refine ⟨1 / 2, 1 / 4, 1 / 4, by norm_num, by norm_num, by norm_num, by norm_num,
    by norm_num, by norm_num, by norm_num, ?_⟩
  simp [Vec3.Add, Vec3.Mul]

/-- The triangle of `(0, 0, 0)`, `(1, 0, 0)` and `(0, 1, 0)` is not degenerate. -/
theorem right_triangle_not_degenerate :
    ¬ Degenerate (⟨0, 0, 0⟩ : Vec3 ℝ) ⟨1, 0, 0⟩ ⟨0, 1, 0⟩ := by
  simp [Degenerate, Vec3.Cross, Vec3.Sub]

/-- Witness of C3: the ray from `(1/4, 1/4, 1)` along `(0, 0, -1)`
reaches the point `(1/4, 1/4, 0)` of the triangle at `t = 1`, and `Intersect`
returns `1`. -/
theorem Triangle.Intersect_closed_triangle_witness :
    IsSqrt Real.sqrt ∧ ¬ Degenerate (⟨0, 0, 0⟩ : Vec3 ℝ) ⟨1, 0, 0⟩ ⟨0, 1, 0⟩ ∧
    (NewTriangle Real.sqrt ⟨0, 0, 0⟩ ⟨1, 0, 0⟩ ⟨0, 1, 0⟩ Vec3.zero Vec3.zero Vec3.zero
      Vec3.zero 0 1).Intersect ⟨1 / 4, 1 / 4, 1⟩ ⟨0, 0, -1⟩ = 1 := by
  refine ⟨isSqrt_real, right_triangle_not_degenerate, ?_⟩
  refine (Triangle.Intersect_closed_triangle Real.sqrt ⟨0, 0, 0⟩ ⟨1, 0, 0⟩ ⟨0, 1, 0⟩
    Vec3.zero Vec3.zero Vec3.zero Vec3.zero 0 ⟨1 / 4, 1 / 4, 1⟩ ⟨0, 0, -1⟩ isSqrt_real
    right_triangle_not_degenerate).2 1 one_pos ?_ ?_
  · simp [Vec3.Dot, Vec3.Cross, Vec3.Sub]
  · have hp : (⟨1 / 4, 1 / 4, 1⟩ : Vec3 ℝ).Add ((⟨0, 0, -1⟩ : Vec3 ℝ).Mul 1) =
        ⟨1 / 4, 1 / 4, 0⟩ := by
      simp [Vec3.Add, Vec3.Mul]
    rw [hp]
    exact quarter_point_in_triangle

/-- C4, the failing input. For the triangle `(0, 0, 0)`, `(1, 0, 0)`, `(0, 1, 0)`
under the identity transform, the ray that starts at the point `(1/4, 1/4, 0)`
of the triangle and leaves along `(0, 0, -1)` has plane parameter `t = 0`, and
`Triangle.Intersect` returns `0`: neither `-1` nor a strictly positive
distance. -/
theorem Triangle.Intersect_returns_zero :
    (NewTriangle Real.sqrt ⟨0, 0, 0⟩ ⟨1, 0, 0⟩ ⟨0, 1, 0⟩ Vec3.zero Vec3.zero Vec3.zero
      Vec3.zero 0 1).Intersect ⟨1 / 4, 1 / 4, 0⟩ ⟨0, 0, -1⟩ = 0 := by
  have hN : ((⟨0, 1, 0⟩ : Vec3 ℝ).Sub ⟨0, 0, 0⟩).Cross ((⟨1, 0, 0⟩ : Vec3 ℝ).Sub ⟨0, 0, 0⟩) ≠
      Vec3.zero := right_triangle_not_degenerate
  rw [NewTriangle_Intersect _ _ _ _ _ _ _ _ _ _ _ _
    (inv_Len_ne_zero Real.sqrt isSqrt_real _ hN), objOrigin_one, objDir_one]
  apply triangleHit_complete _ _ _ _ _ 0 hN _ le_rfl
  · have hp : (⟨1 / 4, 1 / 4, 0⟩ : Vec3 ℝ).Add ((⟨0, 0, -1⟩ : Vec3 ℝ).Mul 0) =
        ⟨1 / 4, 1 / 4, 0⟩ := by
      simp [Vec3.Add, Vec3.Mul]
    rw [hp]
    exact quarter_point_in_triangle
  · simp [Vec3.Dot, Vec3.Cross, Vec3.Sub]

/-- The vertices `(2⁻⁵³, 0, 0)`, `(1 + 2⁻⁵², 1, 0)` and `(3 + 2⁻⁵¹, 3, 0)`, each
coordinate a `float64`, are collinear: the third minus the first is three times
the second minus the first, and the triangle is degenerate. -/
theorem collinear_vertices_degenerate :
    ((⟨3 + 1 / 2 ^ 51, 3, 0⟩ : Vec3 ℝ).Sub ⟨1 / 2 ^ 53, 0, 0⟩ =
      ((⟨1 + 1 / 2 ^ 52, 1, 0⟩ : Vec3 ℝ).Sub ⟨1 / 2 ^ 53, 0, 0⟩).Mul 3) ∧
    Degenerate (⟨1 / 2 ^ 53, 0, 0⟩ : Vec3 ℝ) ⟨1 + 1 / 2 ^ 52, 1, 0⟩ ⟨3 + 1 / 2 ^ 51, 3, 0⟩ := by
  refine ⟨?_, ?_⟩
  · simp only [Vec3.Sub, Vec3.Mul]
    ext <;> norm_num
  · simp only [Degenerate, Vec3.Cross, Vec3.Sub, Vec3.zero]
    ext <;> norm_num

end TriangleThms

/-! ## Shadow rays: `isLit` -/

section IsLitThms

variable {F : Type} [LinearOrderedField F]

/-- For a point light `isLit` holds exactly when the shadow ray, cast from
`point + 0.01·r`, hits nothing or hits at a distance that is at least the
distance from the point to the light. -/
theorem isLit_point_iff (sqrt : F → F) (point : Vec3 F) (light : Light F) (scene : Scene F)
    (hpt : light.IsDirectional = false) :
    isLit sqrt point light scene = true ↔
      (trace sqrt (point.Add (((light.Pos.Sub point).Normalize sqrt).Mul 0.01))
          ((light.Pos.Sub point).Normalize sqrt) scene).2 = -1 ∨
        (trace sqrt (point.Add (((light.Pos.Sub point).Normalize sqrt).Mul 0.01))
          ((light.Pos.Sub point).Normalize sqrt) scene).2 ≥ (light.Pos.Sub point).Len sqrt := by
  simp [isLit, hpt]

/-- C7, as amended. For every point light, surface point and scene: if some
shape is intersected by the ray from the point toward the light at a distance
`s` from the point with `0.01 < s < |light.Pos - point|`, that is, the shadow
ray, which starts at `point + 0.01·r` with `r` the normalized direction to the
light, meets the shape at the distance `s - 0.01` from its start, then `isLit`
returns false. -/
theorem isLit_false_of_occluder (sqrt : F → F) (point : Vec3 F) (light : Light F)
    (scene : Scene F) (hpt : light.IsDirectional = false)
    (hocc : ∃ shape ∈ scene.Shapes, ∃ s : F,
      0.01 < s ∧ s < (light.Pos.Sub point).Len sqrt ∧
      shape.Intersect sqrt (point.Add (((light.Pos.Sub point).Normalize sqrt).Mul 0.01))
        ((light.Pos.Sub point).Normalize sqrt) = s - 0.01) :
    isLit sqrt point light scene = false := by
  obtain ⟨shape, hmem, s, hlo, hhi, hs⟩ := hocc
  have hpos : 0 < shape.Intersect sqrt
      (point.Add (((light.Pos.Sub point).Normalize sqrt).Mul 0.01))
      ((light.Pos.Sub point).Normalize sqrt) := by
    rw [hs]; linarith
  have hlt : shape.Intersect sqrt
      (point.Add (((light.Pos.Sub point).Normalize sqrt).Mul 0.01))
      ((light.Pos.Sub point).Normalize sqrt) < (light.Pos.Sub point).Len sqrt := by
    have h0 : (0 : F) < 0.01 := by norm_num
    rw [hs]; linarith
  rw [← Bool.not_eq_true, isLit_point_iff sqrt point light scene hpt]
  rcases trace_cases sqrt (point.Add (((light.Pos.Sub point).Normalize sqrt).Mul 0.01))
      ((light.Pos.Sub point).Normalize sqrt) scene with
    ⟨_, hall⟩ | ⟨pre, t, post, _, heq, htpos, hmin, _⟩
  · exact absurd hpos (hall shape hmem)
  · rw [heq]
    have hle := hmin shape hmem hpos
    rintro (h | h)
    · have h1 : t.Intersect sqrt (point.Add (((light.Pos.Sub point).Normalize sqrt).Mul 0.01))
          ((light.Pos.Sub point).Normalize sqrt) = -1 := h
      linarith
    · have h1 : t.Intersect sqrt (point.Add (((light.Pos.Sub point).Normalize sqrt).Mul 0.01))
          ((light.Pos.Sub point).Normalize sqrt) ≥ (light.Pos.Sub point).Len sqrt := h
      linarith

/-- A negative plane parameter is a miss. -/
theorem triangleHit_neg (N v1 v2 v3 o d : Vec3 F) (h1 : d.Dot N ≠ 0)
    (h2 : (v1.Dot N - o.Dot N) / d.Dot N < 0) : triangleHit N v1 v2 v3 o d = -1 := by
  simp only [triangleHit]
  rw [if_neg h1, if_pos h2]

/-- The distance from `(0, 0, z)` along `(0, 0, 1)` to the triangle
`flatTriangle sqrt h` of the plane `z = h`: `h - z` when that is not negative,
else a miss. -/
theorem flatTriangle_Intersect (sqrt : F → F) (hsqrt : IsSqrt sqrt) (h z : F) :
    (flatTriangle sqrt h).Intersect ⟨0, 0, z⟩ ⟨0, 0, 1⟩ = if h - z < 0 then -1 else h - z := by
  have hcross : ((⟨0, 1, h⟩ : Vec3 F).Sub ⟨-1, -1, h⟩).Cross
      ((⟨1, -1, h⟩ : Vec3 F).Sub ⟨-1, -1, h⟩) = ⟨0, 0, -4⟩ := by
    simp only [Vec3.Cross, Vec3.Sub]
    ext <;> norm_num
  have hN : (⟨0, 0, -4⟩ : Vec3 F) ≠ Vec3.zero := by
    intro h0
    have := congrArg Vec3.z h0
    simp [Vec3.zero] at this
  have hdN : (⟨0, 0, 1⟩ : Vec3 F).Dot ⟨0, 0, -4⟩ ≠ 0 := by simp [Vec3.Dot]
  have ht : ((⟨-1, -1, h⟩ : Vec3 F).Dot ⟨0, 0, -4⟩ - (⟨0, 0, z⟩ : Vec3 F).Dot ⟨0, 0, -4⟩) /
      (⟨0, 0, 1⟩ : Vec3 F).Dot ⟨0, 0, -4⟩ = h - z := by
    simp only [Vec3.Dot]
    field_simp
    ring
  unfold flatTriangle
  rw [NewTriangle_Intersect _ _ _ _ _ _ _ _ _ _ _ _
    (by rw [hcross]; exact inv_Len_ne_zero sqrt hsqrt _ hN), hcross, objOrigin_one, objDir_one]
  by_cases hneg : h - z < 0
  · rw [if_pos hneg]
    exact triangleHit_neg _ _ _ _ _ _ hdN (by rw [ht]; exact hneg)
  · rw [if_neg hneg, ← hcross]
    apply triangleHit_complete _ _ _ _ _ _ (by rw [hcross]; exact hN)
      (by rw [hcross]; exact hdN) (not_lt.1 hneg)
    refine ⟨1 / 4, 1 / 4, 1 / 2, by norm_num, by norm_num, by norm_num, by norm_num,
      by norm_num, by norm_num, by norm_num, ?_⟩
    simp only [Vec3.Add, Vec3.Mul]
    ext <;> simp <;> ring

/-- The distance found by `trace` in a scene of one shape. -/
theorem trace_singleton (sqrt : F → F) (o d : Vec3 F) (s : Shape F) (lights : List (Light F)) :
    (trace sqrt o d (sceneOf [s] lights)).2 =
      if s.Intersect sqrt o d > 0 then s.Intersect sqrt o d else -1 := by
  simp only [trace, sceneOf, traceLoop]
  by_cases hpos : s.Intersect sqrt o d > 0
  · simp [hpos]
  · simp [hpos]

/-- From the point `(0, 0, 0)` the light at `(0, 0, 1)` is at distance `1` in
the direction `(0, 0, 1)`. -/
theorem lightAbove_ray :
    ((lightAbove : Light ℝ).Pos.Sub Vec3.zero).Len Real.sqrt = 1 ∧
    ((lightAbove : Light ℝ).Pos.Sub Vec3.zero).Normalize Real.sqrt = ⟨0, 0, 1⟩ := by
  have hlen : ((lightAbove : Light ℝ).Pos.Sub Vec3.zero).Len Real.sqrt = 1 := by
    simp [lightAbove, Vec3.zero, Vec3.Sub, Vec3.Len]
  refine ⟨hlen, ?_⟩
  rw [Vec3.Normalize_eq_Mul, hlen]
  simp [lightAbove, Vec3.zero, Vec3.Sub, Vec3.Mul]

/-- The shadow ray towards the light at `(0, 0, 1)` starts at `(0, 0, 0.01)`. -/
theorem lightAbove_offset :
    (Vec3.zero : Vec3 ℝ).Add ((⟨0, 0, 1⟩ : Vec3 ℝ).Mul 0.01) = ⟨0, 0, 1 / 100⟩ := by
  simp only [Vec3.zero, Vec3.Add, Vec3.Mul]
  ext <;> norm_num

/-- Whether the point `(0, 0, 0)` is lit by the light at `(0, 0, 1)` when the
scene is the one triangle `flatTriangle` of the plane `z = h`. -/
theorem isLit_flatTriangle (h : ℝ) :
    isLit Real.sqrt Vec3.zero lightAbove
        (sceneOf [Shape.triangle (flatTriangle Real.sqrt h)] []) = true ↔
      ¬ (1 / 100 < h ∧ h - 1 / 100 < 1) := by
  rw [isLit_point_iff _ _ _ _ rfl, lightAbove_ray.1, lightAbove_ray.2, lightAbove_offset,
    trace_singleton]
  simp only [Shape.Intersect]
  rw [flatTriangle_Intersect Real.sqrt isSqrt_real]
  by_cases hneg : h - 1 / 100 < 0
  · simp only [if_pos hneg]
    constructor
    · intro _ hcon
      linarith [hcon.1]
    · intro _
      left
      norm_num
  · simp only [if_neg hneg]
    by_cases hpos : h - 1 / 100 > 0
    · simp only [if_pos hpos]
      constructor
      · rintro (h1 | h1) hcon
        · linarith
        · linarith [hcon.2]
      · intro hcon
        right
        by_contra h2
        exact hcon ⟨by linarith, not_le.1 h2⟩
    · simp only [if_neg hpos]
      constructor
      · intro _ hcon
        linarith [hcon.1]
      · intro _
        left
        trivial

/-- The distance along the shadow ray from `(0, 0, 0)` towards the light at
`(0, 0, 1)` to the triangle `flatTriangle` of the plane `z = h`. -/
theorem flatTriangle_shadow_distance (h : ℝ) :
    (Shape.triangle (flatTriangle Real.sqrt h)).Intersect Real.sqrt
        ((Vec3.zero : Vec3 ℝ).Add
          ((((lightAbove : Light ℝ).Pos.Sub Vec3.zero).Normalize Real.sqrt).Mul 0.01))
        (((lightAbove : Light ℝ).Pos.Sub Vec3.zero).Normalize Real.sqrt) =
      if h - 1 / 100 < 0 then -1 else h - 1 / 100 := by
  rw [lightAbove_ray.2, lightAbove_offset]
  simp only [Shape.Intersect]
  exact flatTriangle_Intersect Real.sqrt isSqrt_real h (1 / 100)

/-- The distance along the ray from `(0, 0, 0)` itself towards the light at
`(0, 0, 1)` to the triangle `flatTriangle` of the plane `z = h`, for `h ≥ 0`. -/
theorem flatTriangle_point_distance (h : ℝ) (hh : 0 ≤ h) :
    (Shape.triangle (flatTriangle Real.sqrt h)).Intersect Real.sqrt (Vec3.zero : Vec3 ℝ)
        (((lightAbove : Light ℝ).Pos.Sub Vec3.zero).Normalize Real.sqrt) = h := by
  rw [lightAbove_ray.2]
  simp only [Shape.Intersect]
  show (flatTriangle Real.sqrt h).Intersect ⟨0, 0, 0⟩ ⟨0, 0, 1⟩ = h
  rw [flatTriangle_Intersect Real.sqrt isSqrt_real h 0, sub_zero, if_neg (not_lt.2 hh)]

/-- Witness of C7 as amended: the triangle of the plane `z = 1/2` is met at the
distance `s = 1/2` from the point, between `0.01` and the distance `1` of the
light, the shadow ray meets it at `1/2 - 0.01`, and the point is not lit. -/
theorem isLit_false_of_occluder_witness :
    (lightAbove : Light ℝ).IsDirectional = false ∧
    (∃ shape ∈ (sceneOf [Shape.triangle (flatTriangle Real.sqrt (1 / 2))] []).Shapes,
      ∃ s : ℝ, 0.01 < s ∧ s < ((lightAbove : Light ℝ).Pos.Sub Vec3.zero).Len Real.sqrt ∧
      shape.Intersect Real.sqrt ((Vec3.zero : Vec3 ℝ).Add
          ((((lightAbove : Light ℝ).Pos.Sub Vec3.zero).Normalize Real.sqrt).Mul 0.01))
        (((lightAbove : Light ℝ).Pos.Sub Vec3.zero).Normalize Real.sqrt) = s - 0.01) ∧
    isLit Real.sqrt Vec3.zero lightAbove
      (sceneOf [Shape.triangle (flatTriangle Real.sqrt (1 / 2))] []) = false := by
  have hocc : ∃ shape ∈ (sceneOf [Shape.triangle (flatTriangle Real.sqrt (1 / 2))] []).Shapes,
      ∃ s : ℝ, 0.01 < s ∧ s < ((lightAbove : Light ℝ).Pos.Sub Vec3.zero).Len Real.sqrt ∧
      shape.Intersect Real.sqrt ((Vec3.zero : Vec3 ℝ).Add
          ((((lightAbove : Light ℝ).Pos.Sub Vec3.zero).Normalize Real.sqrt).Mul 0.01))
        (((lightAbove : Light ℝ).Pos.Sub Vec3.zero).Normalize Real.sqrt) = s - 0.01 := by
    refine ⟨Shape.triangle (flatTriangle Real.sqrt (1 / 2)), by simp [sceneOf], 1 / 2,
      by norm_num, ?_, ?_⟩
    · rw [lightAbove_ray.1]; norm_num
    · rw [flatTriangle_shadow_distance]; norm_num
  exact ⟨rfl, hocc, isLit_false_of_occluder Real.sqrt Vec3.zero lightAbove
    (sceneOf [Shape.triangle (flatTriangle Real.sqrt (1 / 2))] []) rfl hocc⟩

/-- C7, counterexample. The triangle of the plane `z = 1/256` is met by the ray
from the point `(0, 0, 0)` towards the point light at `(0, 0, 1)` at the
distance `1/256` from the point, strictly between `0` and the distance `1` of
the light, and `isLit` returns true: the shadow ray starts at `(0, 0, 0.01)`,
beyond the triangle. -/
theorem isLit_true_with_occluder_inside_offset :
    (lightAbove : Light ℝ).IsDirectional = false ∧
    (∃ shape ∈ (sceneOf [Shape.triangle (flatTriangle Real.sqrt (1 / 256))] []).Shapes,
      ∃ s : ℝ, shape.Intersect Real.sqrt (Vec3.zero : Vec3 ℝ)
          (((lightAbove : Light ℝ).Pos.Sub Vec3.zero).Normalize Real.sqrt) = s ∧
        0 < s ∧ s < ((lightAbove : Light ℝ).Pos.Sub Vec3.zero).Len Real.sqrt) ∧
    isLit Real.sqrt Vec3.zero lightAbove
      (sceneOf [Shape.triangle (flatTriangle Real.sqrt (1 / 256))] []) = true := by
  refine ⟨rfl, ⟨Shape.triangle (flatTriangle Real.sqrt (1 / 256)), by simp [sceneOf],
    1 / 256, flatTriangle_point_distance _ (by norm_num), by norm_num, ?_⟩, ?_⟩
  · rw [lightAbove_ray.1]; norm_num
  · rw [isLit_flatTriangle]; norm_num

/-- C8, the failing input. The only shape, the triangle of the plane
`z = 257/256`, is met by the ray from the point `(0, 0, 0)` towards the point
light at `(0, 0, 1)` at the distance `257/256`, behind the light, so nothing is
met at a distance strictly between `0` and `1`; yet `isLit` returns false: the
hit distance `257/256 - 1/100`, measured from the start `(0, 0, 0.01)` of the
shadow ray, is compared with the distance `1` of the light, measured from the
point. -/
theorem isLit_false_with_shape_behind_light :
    (lightAbove : Light ℝ).IsDirectional = false ∧
    (∀ shape ∈ (sceneOf [Shape.triangle (flatTriangle Real.sqrt (257 / 256))] []).Shapes,
      ∀ s : ℝ, shape.Intersect Real.sqrt (Vec3.zero : Vec3 ℝ)
          (((lightAbove : Light ℝ).Pos.Sub Vec3.zero).Normalize Real.sqrt) = s →
        ¬ (0 < s ∧ s < ((lightAbove : Light ℝ).Pos.Sub Vec3.zero).Len Real.sqrt)) ∧
    isLit Real.sqrt Vec3.zero lightAbove
      (sceneOf [Shape.triangle (flatTriangle Real.sqrt (257 / 256))] []) = false := by
  refine ⟨rfl, ?_, ?_⟩
  · intro shape hmem s hs
    have hsh : shape = Shape.triangle (flatTriangle Real.sqrt (257 / 256)) := by
      simpa [sceneOf] using hmem
    rw [hsh, flatTriangle_point_distance _ (by norm_num)] at hs
    rw [lightAbove_ray.1, ← hs]
    norm_num
  · rw [← Bool.not_eq_true, isLit_flatTriangle]
    norm_num

end IsLitThms

/-! ## Shading: `calcColor` -/

section CalcColorThms

variable {F : Type} [LinearOrderedField F]

/-- Adding vectors is associative. -/
theorem Vec3.Add_assoc (a b c : Vec3 F) : (a.Add b).Add c = a.Add (b.Add c) := by
  simp only [Vec3.Add]
  ext <;> simp only [add_assoc]

/-- Adding the zero vector changes nothing. -/
theorem Vec3.Add_zero (a : Vec3 F) : a.Add ⟨0, 0, 0⟩ = a := by
  simp only [Vec3.Add]
  ext <;> simp

/-- One pass of the loop over the lights: the colour is unchanged for a light
that is not lit and gains the terms of the light otherwise. -/
theorem lightStep_eq (sqrt : F → F) (pow : F → F → F) (eye point : Vec3 F) (shape : Shape F)
    (scene : Scene F) (color : Vec3 F) (light : Light F) :
    lightStep sqrt pow point shape scene (shape.Normal sqrt point)
        ((eye.Sub point).Normalize sqrt) color light =
      if isLit sqrt point light scene = true then
        color.Add (lightTerms sqrt pow eye point shape scene light)
      else color := by
  by_cases hlit : isLit sqrt point light scene = true
  · rw [if_pos hlit]
    cases hdir : light.IsDirectional
    · simp only [lightStep, lightTerms, hlit, hdir, Vec3.Add_assoc]
      simp [Vec3.Add, Vec3.Mul, div_eq_mul_inv]
    · simp only [lightStep, lightTerms, hlit, hdir, Vec3.Add_assoc]
      simp
  · rw [if_neg hlit]
    simp [lightStep, hlit]

/-- The loop over the lights adds to the colour the terms of the lit lights. -/
theorem foldl_lightStep (sqrt : F → F) (pow : F → F → F) (eye point : Vec3 F)
    (shape : Shape F) (scene : Scene F) (lights : List (Light F)) :
    ∀ color : Vec3 F,
      lights.foldl (lightStep sqrt pow point shape scene (shape.Normal sqrt point)
        ((eye.Sub point).Normalize sqrt)) color =
      color.Add (Vec3.sum ((lights.filter (fun light => isLit sqrt point light scene)).map
        (lightTerms sqrt pow eye point shape scene))) := by
  induction lights with
  | nil => intro color; simp [Vec3.sum, Vec3.Add_zero]
  | cons light rest ih =>
    intro color
    rw [List.foldl_cons, ih, lightStep_eq]
    by_cases hlit : isLit sqrt point light scene = true
    · simp [hlit, Vec3.sum, Vec3.Add_assoc]
    · simp [hlit]

/-- C9. For every scene, eye, point and shape, `calcColor` called with
`depth = 0` adds no reflection term: its result is the channel-wise minimum
with `1` of ambient + emission + the sum over the lit lights of the
(attenuated) Lambert and Phong terms, whatever the reflection ray hits. -/
theorem calcColor_depth_zero (sqrt : F → F) (pow : F → F → F) (eye point : Vec3 F)
    (shape : Shape F) (scene : Scene F) :
    calcColor sqrt pow eye point shape 0 scene = localColor sqrt pow eye point shape scene := by
  rw [calcColor]
  simp only [gt_iff_lt, lt_irrefl, and_false, dite_false, foldl_lightStep, localColor, clampOne]

/-- The scene `zeroLightScene`, whose one light is the directional light of
direction `(0, 0, 0)`, has non-negative material and light colours and the
attenuation `(1, 0, 0)`; the direction of its light, which `calcColor`
normalizes, has length `0`. -/
theorem zeroLightScene_nonneg (fovY : ℝ) :
    (zeroLightScene fovY).NonnegColors ∧
    ∀ l ∈ (zeroLightScene fovY).Lights, l.Pos.Len Real.sqrt = 0 := by
  refine ⟨⟨?_, ?_, ?_, ?_, ?_⟩, ?_⟩
  · intro s hs
    have h : s = Shape.sphere (scenarioSphere 20) := by
      simpa [zeroLightScene, scenarioScene] using hs
    rw [h]
    simp only [Shape.NonnegMaterial, Shape.Ambient, Shape.Diffuse, Shape.Specular,
      Shape.Emission, scenarioSphere, NewSphere, Vec3.Nonneg, Vec3.zero]
    norm_num
  · intro l hl
    have h : l = zeroLight := by simpa [zeroLightScene] using hl
    rw [h]
    simp only [zeroLight, Vec3.Nonneg]
    norm_num
  · simp [zeroLightScene, scenarioScene]
  · simp [zeroLightScene, scenarioScene]
  · simp [zeroLightScene, scenarioScene]
  · intro l hl
    have h : l = zeroLight := by simpa [zeroLightScene] using hl
    rw [h]
    simp [zeroLight, Vec3.Len]

end CalcColorThms

/-! ## Termination of `calcColor` -/

section Termination

variable {F : Type} [LinearOrderedField F]

/-- A run of `calcColor` with more units of fuel than `max(depth, 0)` ends with
the colour that `calcColor` returns. -/
theorem calcColorFuel_enough (sqrt : F → F) (pow : F → F → F) (scene : Scene F) :
    ∀ (fuel : Nat) (eye point : Vec3 F) (shape : Shape F) (depth : Int),
      depth.toNat < fuel →
      calcColorFuel sqrt pow fuel eye point shape depth scene =
        some (calcColor sqrt pow eye point shape depth scene) := by
  intro fuel
  induction fuel with
  | zero => intro eye point shape depth h; omega
  | succ fuel ih =>
    intro eye point shape depth h
    rw [calcColor]
    simp only [calcColorFuel]
    split_ifs with hc
    · split
      · rename_i closest hclosest
        rw [ih _ _ _ _ (by omega)]
        simp only [hclosest]
      · rename_i hnone
        simp only [hnone]
    · rfl

/-- C11. `calcColor` terminates for every scene and every integer depth, and
the nesting of its recursive calls is at most `max(depth, 0)`: a run that is
allowed `fuel` nested calls, the first one included, ends with the value of
`calcColor` as soon as `max(depth, 0) < fuel`; in particular the calls that
`Draw` starts with `depth = scene.MaxDepth` end within `scene.MaxDepth + 1`
nested calls. -/
theorem calcColor_nesting_bound (sqrt : F → F) (pow : F → F → F) (eye point : Vec3 F)
    (shape : Shape F) (depth : Int) (scene : Scene F) :
    (∀ fuel : Nat, max depth 0 < (fuel : Int) →
      calcColorFuel sqrt pow fuel eye point shape depth scene =
        some (calcColor sqrt pow eye point shape depth scene)) ∧
    calcColorFuel sqrt pow (scene.MaxDepth.toNat + 1) eye point shape scene.MaxDepth scene =
      some (calcColor sqrt pow eye point shape scene.MaxDepth scene) := by
  refine ⟨fun fuel h => ?_, ?_⟩
  · apply calcColorFuel_enough
    have := le_max_left depth 0
    have := le_max_right depth 0
    omega
  · exact calcColorFuel_enough sqrt pow scene _ eye point shape scene.MaxDepth (by omega)

end Termination

/-! ## The frame buffer: `Draw` -/

section DrawThms

variable {F : Type} [LinearOrderedField F]

/-- In a scene without shapes `trace` reports no hit. -/
theorem trace_no_shapes (sqrt : F → F) (origin dir : Vec3 F) (scene : Scene F)
    (h : scene.Shapes = []) : trace sqrt origin dir scene = (none, -1) := by
  simp [trace, h, traceLoop]

/-- A pixel whose primary ray hits nothing keeps the zero colour. -/
theorem pixel_of_miss (sqrt : F → F) (pow : F → F → F) (tan atan : F → F) (scene : Scene F)
    (x j : Nat)
    (h : trace sqrt scene.Eye
      (ray sqrt tan atan ((x : F) + 0.5) ((j : F) + 0.5) scene) scene = (none, -1)) :
    pixel sqrt pow tan atan scene x j = ⟨0, 0, 0⟩ := by
  simp [pixel, h]

/-- The buffer of `Draw` for non-negative sizes, and the slot `(x, j)` of it. -/
theorem Draw_eq (sqrt : F → F) (pow : F → F → F) (tan atan : F → F) (scene : Scene F)
    (hW : 0 ≤ scene.Width) (hH : 0 ≤ scene.Height) :
    Draw sqrt pow tan atan scene =
      some ((List.range scene.Width.toNat).map (fun x =>
        (List.range scene.Height.toNat).map (fun j => pixel sqrt pow tan atan scene x j))) := by
  have hc : ¬ (scene.Width < 0 ∨ (0 < scene.Width ∧ scene.Height < 0)) := by omega
  simp only [Draw, if_neg hc]

/-- C12. For every scene of non-negative width and height, `Draw` returns a
buffer of `scene.Width` columns of `scene.Height` entries in which the pixel
`(x, j)` is the value computed for it, and is the zero colour whenever
`trace` of its primary ray from the eye finds no hit; in particular, for a
scene with zero shapes (and any lights) every pixel of the buffer is
`(0, 0, 0)`. -/
theorem Draw_buffer (sqrt : F → F) (pow : F → F → F) (tan atan : F → F) (scene : Scene F)
    (hW : 0 ≤ scene.Width) (hH : 0 ≤ scene.Height) :
    ∃ screen, Draw sqrt pow tan atan scene = some screen ∧
      (screen.length : Int) = scene.Width ∧
      (∀ col ∈ screen, (col.length : Int) = scene.Height) ∧
      (∀ x j : Nat, (x : Int) < scene.Width → (j : Int) < scene.Height →
        (screen[x]?).bind (fun col => col[j]?) = some (pixel sqrt pow tan atan scene x j) ∧
        (trace sqrt scene.Eye
            (ray sqrt tan atan ((x : F) + 0.5) ((j : F) + 0.5) scene) scene = (none, -1) →
          (screen[x]?).bind (fun col => col[j]?) = some ⟨0, 0, 0⟩)) ∧
      (scene.Shapes = [] → ∀ col ∈ screen, ∀ c ∈ col, c = (⟨0, 0, 0⟩ : Vec3 F)) := by
  refine ⟨_, Draw_eq sqrt pow tan atan scene hW hH, ?_, ?_, ?_, ?_⟩
  · simp only [List.length_map, List.length_range]
    omega
  · intro col hcol
    obtain ⟨x, _, rfl⟩ := List.mem_map.1 hcol
    simp only [List.length_map, List.length_range]
    omega
  · intro x j hx hj
    have hx1 : x < scene.Width.toNat := by omega
    have hj1 : j < scene.Height.toNat := by omega
    have hslot : ((List.range scene.Width.toNat).map (fun x =>
        (List.range scene.Height.toNat).map
          (fun j => pixel sqrt pow tan atan scene x j)))[x]?.bind (fun col => col[j]?) =
        some (pixel sqrt pow tan atan scene x j) := by
      simp [List.getElem?_map, List.getElem?_range, hx1, hj1]
    refine ⟨hslot, fun hmiss => ?_⟩
    rw [hslot, pixel_of_miss sqrt pow tan atan scene x j hmiss]
  · intro hempty col hcol c hc
    obtain ⟨x, _, rfl⟩ := List.mem_map.1 hcol
    obtain ⟨j, _, rfl⟩ := List.mem_map.1 hc
    exact pixel_of_miss sqrt pow tan atan scene x j (trace_no_shapes sqrt _ _ scene hempty)

/-- Witness of C12: a scene of 2 × 2 pixels without shapes, with one light. -/
theorem Draw_buffer_witness :
    (0 : Int) ≤ (sizedScene 2 2 [] [lightAbove] : Scene ℝ).Width ∧
    (0 : Int) ≤ (sizedScene 2 2 [] [lightAbove] : Scene ℝ).Height ∧
    ∃ screen, Draw Real.sqrt Real.rpow Real.tan Real.arctan
        (sizedScene 2 2 [] [lightAbove] : Scene ℝ) = some screen ∧
      (screen.length : Int) = 2 ∧
      (∀ col ∈ screen, (col.length : Int) = 2) ∧
      (∀ col ∈ screen, ∀ c ∈ col, c = (⟨0, 0, 0⟩ : Vec3 ℝ)) := by
  have hW : (0 : Int) ≤ (sizedScene 2 2 [] [lightAbove] : Scene ℝ).Width := by
    simp [sizedScene]
  have hH : (0 : Int) ≤ (sizedScene 2 2 [] [lightAbove] : Scene ℝ).Height := by
    simp [sizedScene]
  obtain ⟨screen, hs, hlen, hcol, _, hzero⟩ :=
    Draw_buffer Real.sqrt Real.rpow Real.tan Real.arctan
      (sizedScene 2 2 [] [lightAbove] : Scene ℝ) hW hH
  exact ⟨hW, hH, screen, hs, hlen, hcol, hzero rfl⟩

end DrawThms

/-! ## The camera: `ray` -/

section RayThms

variable {F : Type} [LinearOrderedField F]

/-- A vector of positive square norm is not the zero vector. -/
theorem Vec3.ne_zero_of_dot_pos (v : Vec3 F) (h : 0 < v.Dot v) : v ≠ Vec3.zero := by
  intro h0
  rw [h0] at h
  simp [Vec3.Dot, Vec3.zero] at h

/-- With `math.Sqrt` the square root, normalizing a non-zero vector gives a
unit vector. -/
theorem Vec3.Normalize_unit (sqrt : F → F) (hsqrt : IsSqrt sqrt) (v : Vec3 F)
    (hv : v ≠ Vec3.zero) : (v.Normalize sqrt).Dot (v.Normalize sqrt) = 1 := by
  have hpos : 0 < v.Dot v := Vec3.dot_self_pos v hv
  obtain ⟨_, hsq⟩ := hsqrt (v.Dot v) (le_of_lt hpos)
  have hlen : v.Len sqrt = sqrt (v.Dot v) := rfl
  have hne : sqrt (v.Dot v) ≠ 0 := by
    intro h0
    rw [h0, mul_zero] at hsq
    exact absurd hsq (ne_of_lt hpos)
  rw [Vec3.Normalize_eq_Mul, Vec3.Dot_Mul_right, Vec3.Dot_Mul_left, hlen]
  field_simp
  exact hsq.symm

/-- With `math.Sqrt` the square root, normalizing a unit vector changes
nothing. -/
theorem Vec3.Normalize_of_unit (sqrt : F → F) (hsqrt : IsSqrt sqrt) (v : Vec3 F)
    (hv : v.Dot v = 1) : v.Normalize sqrt = v := by
  obtain ⟨h0, hsq⟩ := hsqrt (v.Dot v) (by rw [hv]; exact zero_le_one)
  have hlen : v.Len sqrt = 1 := by
    show sqrt (v.Dot v) = 1
    rw [hv] at hsq h0 ⊢
    have h1 : (sqrt 1 - 1) * (sqrt 1 + 1) = 0 := by linear_combination hsq
    rcases mul_eq_zero.1 h1 with h | h
    · linarith
    · linarith
  rw [Vec3.Normalize_eq_Mul, hlen]
  simp [Vec3.Mul]

/-- The square norm of `u·alpha + v·beta + w` for an orthonormal `u`, `v`, `w`. -/
theorem dot_self_of_orthonormal (u v w : Vec3 F) (alpha beta : F)
    (huu : u.Dot u = 1) (hvv : v.Dot v = 1) (hww : w.Dot w = 1)
    (huv : u.Dot v = 0) (huw : u.Dot w = 0) (hvw : v.Dot w = 0) :
    (((u.Mul alpha).Add (v.Mul beta)).Add w).Dot (((u.Mul alpha).Add (v.Mul beta)).Add w) =
      alpha * alpha + beta * beta + 1 := by
  simp only [Vec3.Dot, Vec3.Add, Vec3.Mul] at *
  linear_combination alpha * alpha * huu + beta * beta * hvv + hww +
    2 * alpha * beta * huv + 2 * alpha * huw + 2 * beta * hvw

/-- The camera basis of a scene with `eye ≠ center` and a unit `up`
perpendicular to `center - eye`: `w` is a unit vector, `u = up × w` and
`v = up`. -/
theorem camera_basis (sqrt : F → F) (hsqrt : IsSqrt sqrt) (scene : Scene F)
    (hne : scene.Center.Sub scene.Eye ≠ Vec3.zero) (hup : scene.Up.Dot scene.Up = 1)
    (hperp : scene.Up.Dot (scene.Center.Sub scene.Eye) = 0) :
    (cameraW sqrt scene).Dot (cameraW sqrt scene) = 1 ∧
    scene.Up.Dot (cameraW sqrt scene) = 0 ∧
    cameraU sqrt scene = scene.Up.Cross (cameraW sqrt scene) ∧
    (cameraU sqrt scene).Dot (cameraU sqrt scene) = 1 ∧
    cameraV sqrt scene = scene.Up := by
  have hww : (cameraW sqrt scene).Dot (cameraW sqrt scene) = 1 :=
    Vec3.Normalize_unit sqrt hsqrt _ hne
  have hupw : scene.Up.Dot (cameraW sqrt scene) = 0 := by
    rw [cameraW, Vec3.Normalize_eq_Mul, Vec3.Dot_Mul_right, hperp, zero_mul]
  have hcross : (scene.Up.Cross (cameraW sqrt scene)).Dot
      (scene.Up.Cross (cameraW sqrt scene)) = 1 := by
    have hlag : ∀ a b : Vec3 F, (a.Cross b).Dot (a.Cross b) =
        a.Dot a * b.Dot b - a.Dot b * a.Dot b := by
      intro a b
      simp only [Vec3.Dot, Vec3.Cross]; ring
    rw [hlag, hup, hww, hupw]; ring
  have hu : cameraU sqrt scene = scene.Up.Cross (cameraW sqrt scene) := by
    rw [cameraU]
    exact Vec3.Normalize_of_unit sqrt hsqrt _ hcross
  refine ⟨hww, hupw, hu, by rw [hu]; exact hcross, ?_⟩
  rw [cameraV, hu]
  generalize cameraW sqrt scene = w at hww hupw
  generalize scene.Up = up at hupw
  rcases w with ⟨w1, w2, w3⟩
  rcases up with ⟨p1, p2, p3⟩
  simp only [Vec3.Dot, Vec3.Cross] at hww hupw ⊢
  ext
  · simp only
    linear_combination p1 * hww - w1 * hupw
  · simp only
    linear_combination p2 * hww - w2 * hupw
  · simp only
    linear_combination p3 * hww - w3 * hupw

/-- Two points with a zero difference are equal. -/
theorem Vec3.Sub_ne_zero (a b : Vec3 F) (h : b ≠ a) : a.Sub b ≠ Vec3.zero := by
  intro h0
  apply h
  have hx := congrArg Vec3.x h0
  have hy := congrArg Vec3.y h0
  have hz := congrArg Vec3.z h0
  simp only [Vec3.Sub, Vec3.zero] at hx hy hz
  ext
  · linarith
  · linarith
  · linarith

/-- The function `ray` normalizes `u·alpha + v·beta + w`. -/
theorem ray_eq (sqrt tan atan : F → F) (i j : F) (scene : Scene F) :
    ray sqrt tan atan i j scene =
      ((((cameraU sqrt scene).Mul
          ((tan (2 * atan (scene.FovY / 2) * (scene.Width : F) / (scene.Height : F) / 2) *
            (i - (scene.Width : F) / 2)) / ((scene.Width : F) / 2))).Add
        ((cameraV sqrt scene).Mul
          ((tan (scene.FovY / 2) * (-(j - (scene.Height : F) / 2))) /
            ((scene.Height : F) / 2)))).Add (cameraW sqrt scene)).Normalize sqrt := rfl

/-- C14. For every scene with `eye ≠ center` and an up vector that is
unit-length and perpendicular to `center - eye`, with `math.Sqrt` the square
root: the camera basis computed in `ray` is orthonormal and right-handed with
`u × v = w` and `v = up`, and the direction returned by `ray` is a unit
vector for every `(i, j)`. -/
theorem ray_camera_basis_orthonormal (sqrt tan atan : F → F) (hsqrt : IsSqrt sqrt)
    (scene : Scene F) (hne : scene.Eye ≠ scene.Center) (hup : scene.Up.Dot scene.Up = 1)
    (hperp : scene.Up.Dot (scene.Center.Sub scene.Eye) = 0) :
    (cameraU sqrt scene).Dot (cameraU sqrt scene) = 1 ∧
    (cameraV sqrt scene).Dot (cameraV sqrt scene) = 1 ∧
    (cameraW sqrt scene).Dot (cameraW sqrt scene) = 1 ∧
    (cameraU sqrt scene).Dot (cameraV sqrt scene) = 0 ∧
    (cameraU sqrt scene).Dot (cameraW sqrt scene) = 0 ∧
    (cameraV sqrt scene).Dot (cameraW sqrt scene) = 0 ∧
    (cameraU sqrt scene).Cross (cameraV sqrt scene) = cameraW sqrt scene ∧
    cameraV sqrt scene = scene.Up ∧
    ∀ i j : F, (ray sqrt tan atan i j scene).Dot (ray sqrt tan atan i j scene) = 1 := by
  obtain ⟨hww, hupw, hu, huu, hv⟩ :=
    camera_basis sqrt hsqrt scene (Vec3.Sub_ne_zero _ _ hne) hup hperp
  have huv : (cameraU sqrt scene).Dot (cameraV sqrt scene) = 0 := by
    rw [hv, hu]
    simp only [Vec3.Dot, Vec3.Cross]; ring
  have huw : (cameraU sqrt scene).Dot (cameraW sqrt scene) = 0 := by
    rw [hu]
    simp only [Vec3.Dot, Vec3.Cross]; ring
  have hvw : (cameraV sqrt scene).Dot (cameraW sqrt scene) = 0 := by rw [hv]; exact hupw
  have hvv : (cameraV sqrt scene).Dot (cameraV sqrt scene) = 1 := by rw [hv]; exact hup
  refine ⟨huu, hvv, hww, huv, huw, hvw, ?_, hv, ?_⟩
  · rw [hv, hu]
    generalize cameraW sqrt scene = w at hww hupw
    generalize scene.Up = up at hupw hup
    rcases w with ⟨w1, w2, w3⟩
    rcases up with ⟨p1, p2, p3⟩
    simp only [Vec3.Dot, Vec3.Cross] at hup hupw ⊢
    ext
    · simp only
      linear_combination w1 * hup - p1 * hupw
    · simp only
      linear_combination w2 * hup - p2 * hupw
    · simp only
      linear_combination w3 * hup - p3 * hupw
  · intro i j
    rw [ray_eq]
    apply Vec3.Normalize_unit sqrt hsqrt
    apply Vec3.ne_zero_of_dot_pos
    rw [dot_self_of_orthonormal _ _ _ _ _ huu hvv hww huv huw hvw]
    nlinarith [mul_self_nonneg ((tan (2 * atan (scene.FovY / 2) * (scene.Width : F) /
      (scene.Height : F) / 2) * (i - (scene.Width : F) / 2)) / ((scene.Width : F) / 2)),
      mul_self_nonneg ((tan (scene.FovY / 2) * (-(j - (scene.Height : F) / 2))) /
        ((scene.Height : F) / 2))]

/-- Witness of C14 on the reals: the camera of the scenario scene, at
`(0, 0, 5)` looking at the origin with up `(0, 1, 0)`. -/
theorem ray_camera_basis_orthonormal_witness :
    (cameraU Real.sqrt (scenarioScene 3 3 (Real.pi / 4) ⟨1, 0, 0⟩ 0 : Scene ℝ)).Cross
        (cameraV Real.sqrt (scenarioScene 3 3 (Real.pi / 4) ⟨1, 0, 0⟩ 0 : Scene ℝ)) =
      cameraW Real.sqrt (scenarioScene 3 3 (Real.pi / 4) ⟨1, 0, 0⟩ 0 : Scene ℝ) ∧
    cameraV Real.sqrt (scenarioScene 3 3 (Real.pi / 4) ⟨1, 0, 0⟩ 0 : Scene ℝ) = ⟨0, 1, 0⟩ ∧
    ∀ i j : ℝ, (ray Real.sqrt Real.tan Real.arctan i j
        (scenarioScene 3 3 (Real.pi / 4) ⟨1, 0, 0⟩ 0 : Scene ℝ)).Dot
      (ray Real.sqrt Real.tan Real.arctan i j
        (scenarioScene 3 3 (Real.pi / 4) ⟨1, 0, 0⟩ 0 : Scene ℝ)) = 1 := by
  have hne : (scenarioScene 3 3 (Real.pi / 4) ⟨1, 0, 0⟩ 0 : Scene ℝ).Eye ≠
      (scenarioScene 3 3 (Real.pi / 4) ⟨1, 0, 0⟩ 0 : Scene ℝ).Center := by
    intro h
    have hz := congrArg Vec3.z h
    simp [scenarioScene] at hz
  have hup : (scenarioScene 3 3 (Real.pi / 4) ⟨1, 0, 0⟩ 0 : Scene ℝ).Up.Dot
      (scenarioScene 3 3 (Real.pi / 4) ⟨1, 0, 0⟩ 0 : Scene ℝ).Up = 1 := by
    simp [scenarioScene, Vec3.Dot]
  have hperp : (scenarioScene 3 3 (Real.pi / 4) ⟨1, 0, 0⟩ 0 : Scene ℝ).Up.Dot
      ((scenarioScene 3 3 (Real.pi / 4) ⟨1, 0, 0⟩ 0 : Scene ℝ).Center.Sub
        (scenarioScene 3 3 (Real.pi / 4) ⟨1, 0, 0⟩ 0 : Scene ℝ).Eye) = 0 := by
    simp [scenarioScene, Vec3.Dot, Vec3.Sub]
  have h := ray_camera_basis_orthonormal Real.sqrt Real.tan Real.arctan isSqrt_real
    (scenarioScene 3 3 (Real.pi / 4) ⟨1, 0, 0⟩ 0 : Scene ℝ) hne hup hperp
  exact ⟨h.2.2.2.2.2.2.1, h.2.2.2.2.2.2.2.1, h.2.2.2.2.2.2.2.2⟩

/-- A square root of `y·y` is `y` when `y` is not negative. -/
theorem sqrt_mul_self_of_isSqrt (sqrt : F → F) (hsqrt : IsSqrt sqrt) (y : F) (hy : 0 ≤ y) :
    sqrt (y * y) = y := by
  obtain ⟨h0, hsq⟩ := hsqrt (y * y) (mul_self_nonneg y)
  have h1 : (sqrt (y * y) - y) * (sqrt (y * y) + y) = 0 := by linear_combination hsq
  rcases mul_eq_zero.1 h1 with h | h
  · linarith
  · have hy0 : y = 0 := by linarith
    have hs0 : sqrt (y * y) = 0 := by linarith
    rw [hs0, hy0]

/-- The camera basis of the scenario scene: `u = (-1, 0, 0)`, `v = (0, 1, 0)`,
`w = (0, 0, -1)`. -/
theorem scenario_camera (sqrt : F → F) (hsqrt : IsSqrt sqrt) (width height : Int)
    (fovY : F) (att : Vec3 F) (sh : F) :
    cameraU sqrt (scenarioScene width height fovY att sh) = ⟨-1, 0, 0⟩ ∧
    cameraV sqrt (scenarioScene width height fovY att sh) = ⟨0, 1, 0⟩ ∧
    cameraW sqrt (scenarioScene width height fovY att sh) = ⟨0, 0, -1⟩ := by
  have hw : cameraW sqrt (scenarioScene width height fovY att sh) = ⟨0, 0, -1⟩ := by
    have hlen : ((⟨0, 0, 0⟩ : Vec3 F).Sub ⟨0, 0, 5⟩).Len sqrt = 5 := by
      have h5 := sqrt_mul_self_of_isSqrt sqrt hsqrt 5 (by norm_num)
      have harg : ((0 : F) - 0) * (0 - 0) + (0 - 0) * (0 - 0) + (0 - 5) * (0 - 5) = 5 * 5 := by
        norm_num
      simp only [Vec3.Len, Vec3.Sub]
      rw [harg]
      exact h5
    simp only [cameraW, scenarioScene]
    rw [Vec3.Normalize_eq_Mul, hlen]
    simp only [Vec3.Sub, Vec3.Mul]
    ext <;> norm_num
  have hne : (scenarioScene width height fovY att sh).Center.Sub
      (scenarioScene width height fovY att sh).Eye ≠ (Vec3.zero : Vec3 F) := by
    intro h
    have hz := congrArg Vec3.z h
    simp [scenarioScene, Vec3.Sub, Vec3.zero] at hz
  obtain ⟨_, _, hu, _, hv⟩ := camera_basis sqrt hsqrt (scenarioScene width height fovY att sh)
    hne (by simp [scenarioScene, Vec3.Dot]) (by simp [scenarioScene, Vec3.Dot, Vec3.Sub])
  refine ⟨?_, by rw [hv]; rfl, hw⟩
  rw [hu, hw]
  simp only [scenarioScene, Vec3.Cross]
  ext <;> norm_num

/-- Two vectors of third component `-1` whose normalizations agree have the
same first component. -/
theorem Normalize_eq_first (sqrt : F → F) (hsqrt : IsSqrt sqrt) (a1 a2 b1 b2 : F)
    (h : (⟨a1, b1, -1⟩ : Vec3 F).Normalize sqrt = (⟨a2, b2, -1⟩ : Vec3 F).Normalize sqrt) :
    a1 = a2 := by
  have hz : ∀ a b : F, (⟨a, b, -1⟩ : Vec3 F) ≠ Vec3.zero := by
    intro a b h0
    have := congrArg Vec3.z h0
    simp [Vec3.zero] at this
  have hk1 := inv_Len_ne_zero sqrt hsqrt _ (hz a1 b1)
  rw [Vec3.Normalize_eq_Mul, Vec3.Normalize_eq_Mul] at h
  have hx := congrArg Vec3.x h
  have hzz := congrArg Vec3.z h
  simp only [Vec3.Mul] at hx hzz
  have hk : 1 / (⟨a1, b1, -1⟩ : Vec3 F).Len sqrt = 1 / (⟨a2, b2, -1⟩ : Vec3 F).Len sqrt := by
    linarith
  rw [← hk] at hx
  exact mul_right_cancel₀ hk1 hx

/-- The vector `u·alpha + v·beta + w` for the camera basis of the scenario
scene. -/
theorem scenario_direction (alpha beta : F) :
    (((⟨-1, 0, 0⟩ : Vec3 F).Mul alpha).Add ((⟨0, 1, 0⟩ : Vec3 F).Mul beta)).Add ⟨0, 0, -1⟩ =
      ⟨-alpha, beta, -1⟩ := by
  simp only [Vec3.Add, Vec3.Mul]
  ext <;> simp

/-- C13, the failing input. For the scenario scene with 2 × 2 pixels and
`fovY = π/2` (unit up perpendicular to the view direction), at the centre
`(1.5, 1.5)` of the pixel `(1, 1)`: `ray` computes
`fovx = 2·atan(fovY/2)·width/height`, hence `alpha = π/8`, and returns
`normalize(-π/8, -1/2, -1)`, whereas the formula
`fovX = 2·atan(tan(fovY/2)·width/height)` gives `alpha = 1/2` and
`normalize(-1/2, -1/2, -1)`; the two directions differ. -/
theorem ray_fovx_differs_from_spec :
    ray Real.sqrt Real.tan Real.arctan (3 / 2) (3 / 2)
        (scenarioScene 2 2 (Real.pi / 2) ⟨1, 0, 0⟩ 0 : Scene ℝ) =
      (⟨-(Real.pi / 8), -(1 / 2), -1⟩ : Vec3 ℝ).Normalize Real.sqrt ∧
    raySpec Real.sqrt Real.tan Real.arctan (3 / 2) (3 / 2)
        (scenarioScene 2 2 (Real.pi / 2) ⟨1, 0, 0⟩ 0 : Scene ℝ) =
      (⟨-(1 / 2), -(1 / 2), -1⟩ : Vec3 ℝ).Normalize Real.sqrt ∧
    ray Real.sqrt Real.tan Real.arctan (3 / 2) (3 / 2)
        (scenarioScene 2 2 (Real.pi / 2) ⟨1, 0, 0⟩ 0 : Scene ℝ) ≠
      raySpec Real.sqrt Real.tan Real.arctan (3 / 2) (3 / 2)
        (scenarioScene 2 2 (Real.pi / 2) ⟨1, 0, 0⟩ 0 : Scene ℝ) := by
  obtain ⟨hu, hv, hw⟩ := scenario_camera Real.sqrt isSqrt_real 2 2 (Real.pi / 2)
    (⟨1, 0, 0⟩ : Vec3 ℝ) 0
  have hquarter : Real.pi / 2 / 2 = Real.pi / 4 := by ring
  have hcode : Real.tan (2 * Real.arctan (Real.pi / 2 / 2) * ((2 : Int) : ℝ) /
      ((2 : Int) : ℝ) / 2) = Real.pi / 4 := by
    have harg : 2 * Real.arctan (Real.pi / 2 / 2) * ((2 : Int) : ℝ) / ((2 : Int) : ℝ) / 2 =
        Real.arctan (Real.pi / 4) := by
      rw [hquarter]; push_cast; ring
    rw [harg, Real.tan_arctan]
  have hspec : Real.tan (2 * Real.arctan (Real.tan (Real.pi / 2 / 2) * ((2 : Int) : ℝ) /
      ((2 : Int) : ℝ)) / 2) = 1 := by
    have harg : 2 * Real.arctan (Real.tan (Real.pi / 2 / 2) * ((2 : Int) : ℝ) /
        ((2 : Int) : ℝ)) / 2 = Real.pi / 4 := by
      rw [hquarter, Real.tan_pi_div_four]
      push_cast
      rw [show (1 : ℝ) * 2 / 2 = 1 by norm_num, Real.arctan_one]
      ring
    rw [harg, Real.tan_pi_div_four]
  have hbeta : Real.tan (Real.pi / 2 / 2) = 1 := by rw [hquarter, Real.tan_pi_div_four]
  have h1 : ray Real.sqrt Real.tan Real.arctan (3 / 2) (3 / 2)
      (scenarioScene 2 2 (Real.pi / 2) ⟨1, 0, 0⟩ 0 : Scene ℝ) =
      (⟨-(Real.pi / 8), -(1 / 2), -1⟩ : Vec3 ℝ).Normalize Real.sqrt := by
    rw [ray_eq, hu, hv, hw, scenario_direction]
    simp only [scenarioScene]
    rw [hcode, hbeta]
    congr 1
    push_cast
    ext <;> norm_num
    ring
  have h2 : raySpec Real.sqrt Real.tan Real.arctan (3 / 2) (3 / 2)
      (scenarioScene 2 2 (Real.pi / 2) ⟨1, 0, 0⟩ 0 : Scene ℝ) =
      (⟨-(1 / 2), -(1 / 2), -1⟩ : Vec3 ℝ).Normalize Real.sqrt := by
    simp only [raySpec]
    rw [hu, hv, hw, scenario_direction]
    simp only [scenarioScene]
    rw [hspec, hbeta]
    congr 1
    push_cast
    ext <;> norm_num
  refine ⟨h1, h2, ?_⟩
  rw [h1, h2]
  intro h
  have hx := Normalize_eq_first Real.sqrt isSqrt_real _ _ _ _ h
  have hpi := Real.pi_lt_four
  linarith

end RayThms

/-! ## The up vector: `UpVec` and the camera command -/

section UpVecThms

variable {F : Type} [LinearOrderedField F]

/-- The vector that `UpVec` normalizes, `(up × dir) × dir`, is perpendicular to
`dir`, has the square norm `|up × dir|²·|dir|²` and the dot product
`-|up × dir|²` with `up`. -/
theorem upVec_raw (up dir : Vec3 F) :
    ((up.Cross dir).Cross dir).Dot dir = 0 ∧
    ((up.Cross dir).Cross dir).Dot ((up.Cross dir).Cross dir) =
      (up.Cross dir).Dot (up.Cross dir) * dir.Dot dir ∧
    ((up.Cross dir).Cross dir).Dot up = -((up.Cross dir).Dot (up.Cross dir)) := by
  simp only [Vec3.Dot, Vec3.Cross]
  refine ⟨?_, ?_, ?_⟩ <;> ring

/-- When `up` and `dir` are not parallel, `dir` is not zero and
`(up × dir) × dir` is not zero. -/
theorem upVec_raw_ne_zero (up dir : Vec3 F) (h : up.Cross dir ≠ Vec3.zero) :
    0 < dir.Dot dir ∧ (up.Cross dir).Cross dir ≠ Vec3.zero := by
  have hdir : dir ≠ Vec3.zero := by
    intro h0
    apply h
    rw [h0]
    simp [Vec3.Cross, Vec3.zero]
  have hd := Vec3.dot_self_pos dir hdir
  refine ⟨hd, Vec3.ne_zero_of_dot_pos _ ?_⟩
  rw [(upVec_raw up dir).2.1]
  exact mul_pos (Vec3.dot_self_pos _ h) hd

/-- The function `UpVec` returns a unit vector perpendicular to `dir` when
`up` and `dir` are not parallel. -/
theorem UpVec_unit_and_perp (sqrt : F → F) (hsqrt : IsSqrt sqrt) (up dir : Vec3 F)
    (h : up.Cross dir ≠ Vec3.zero) :
    (UpVec sqrt up dir).Dot (UpVec sqrt up dir) = 1 ∧ (UpVec sqrt up dir).Dot dir = 0 := by
  refine ⟨Vec3.Normalize_unit sqrt hsqrt _ (upVec_raw_ne_zero up dir h).2, ?_⟩
  show (((up.Cross dir).Cross dir).Normalize sqrt).Dot dir = 0
  rw [Vec3.Normalize_eq_Mul, Vec3.Dot_Mul_left, (upVec_raw up dir).1, zero_mul]

/-- C15. For every pair of vectors `up` and `dir` that are not parallel
(`up × dir ≠ 0`), with `math.Sqrt` the square root, `UpVec(up, dir)` is
unit-length and perpendicular to `dir`; so the camera command of the loader,
given an up vector that is not parallel to `center - eye`, yields a scene
whose `Up` is unit-length and perpendicular to `Center - Eye`. -/
theorem UpVec_invariant (sqrt : F → F) (hsqrt : IsSqrt sqrt) (up dir : Vec3 F)
    (h : up.Cross dir ≠ Vec3.zero) :
    ((UpVec sqrt up dir).Dot (UpVec sqrt up dir) = 1 ∧ (UpVec sqrt up dir).Dot dir = 0) ∧
    ∀ (pi a0 a1 a2 a3 a4 a5 a6 a7 a8 a9 : F) (rest : List F) (scene : Scene F),
      up = ⟨a6, a7, a8⟩ → dir = (⟨a3, a4, a5⟩ : Vec3 F).Sub ⟨a0, a1, a2⟩ →
      ∃ scene1, cameraCommand sqrt pi
          (a0 :: a1 :: a2 :: a3 :: a4 :: a5 :: a6 :: a7 :: a8 :: a9 :: rest) scene =
          some scene1 ∧
        scene1.Eye = ⟨a0, a1, a2⟩ ∧ scene1.Center = ⟨a3, a4, a5⟩ ∧
        scene1.Up.Dot scene1.Up = 1 ∧
        scene1.Up.Dot (scene1.Center.Sub scene1.Eye) = 0 := by
  have hmain := UpVec_unit_and_perp sqrt hsqrt up dir h
  refine ⟨hmain, ?_⟩
  intro pi a0 a1 a2 a3 a4 a5 a6 a7 a8 a9 rest scene hup hdir
  subst hup hdir
  exact ⟨_, rfl, rfl, rfl, hmain.1, hmain.2⟩

/-- Witness of C15 on the reals: up `(0, 1, 0)` and view direction
`(0, 0, -1)`. -/
theorem UpVec_invariant_witness :
    IsSqrt Real.sqrt ∧
    (⟨0, 1, 0⟩ : Vec3 ℝ).Cross ⟨0, 0, -1⟩ ≠ Vec3.zero ∧
    (UpVec Real.sqrt (⟨0, 1, 0⟩ : Vec3 ℝ) ⟨0, 0, -1⟩).Dot
      (UpVec Real.sqrt (⟨0, 1, 0⟩ : Vec3 ℝ) ⟨0, 0, -1⟩) = 1 ∧
    (UpVec Real.sqrt (⟨0, 1, 0⟩ : Vec3 ℝ) ⟨0, 0, -1⟩).Dot ⟨0, 0, -1⟩ = 0 := by
  have hnp : (⟨0, 1, 0⟩ : Vec3 ℝ).Cross ⟨0, 0, -1⟩ ≠ Vec3.zero := by
    intro h0
    have := congrArg Vec3.x h0
    simp [Vec3.Cross, Vec3.zero] at this
  have h := (UpVec_invariant Real.sqrt isSqrt_real ⟨0, 1, 0⟩ ⟨0, 0, -1⟩ hnp).1
  exact ⟨isSqrt_real, hnp, h.1, h.2⟩

/-- A non-negative number whose square is `x` is the square root of `x`. -/
theorem sqrt_unique_of_isSqrt (sqrt : F → F) (hsqrt : IsSqrt sqrt) (x s : F) (hs : 0 ≤ s)
    (hx : s * s = x) : sqrt x = s := by
  rw [← hx]
  exact sqrt_mul_self_of_isSqrt sqrt hsqrt s hs

/-- Normalizing a negative multiple of a vector gives the opposite of its
normalization. -/
theorem Normalize_Mul_neg (sqrt : F → F) (hsqrt : IsSqrt sqrt) (v : Vec3 F) (c : F)
    (hc : 0 < c) : (v.Mul (-c)).Normalize sqrt = (v.Normalize sqrt).Mul (-1) := by
  have hv0 : 0 ≤ v.Dot v := by
    simp only [Vec3.Dot]
    exact add_nonneg (add_nonneg (mul_self_nonneg _) (mul_self_nonneg _)) (mul_self_nonneg _)
  obtain ⟨hL0, hLsq⟩ := hsqrt (v.Dot v) hv0
  have hlen : (v.Mul (-c)).Len sqrt = c * v.Len sqrt := by
    show sqrt ((v.Mul (-c)).Dot (v.Mul (-c))) = c * sqrt (v.Dot v)
    apply sqrt_unique_of_isSqrt sqrt hsqrt _ _ (mul_nonneg (le_of_lt hc) hL0)
    rw [Vec3.Dot_Mul_left, Vec3.Dot_Mul_right]
    linear_combination c * c * hLsq
  rw [Vec3.Normalize_eq_Mul, Vec3.Normalize_eq_Mul, hlen]
  have hcne : c ≠ 0 := ne_of_gt hc
  simp only [Vec3.Mul]
  by_cases hL : v.Len sqrt = 0
  · rw [hL]; simp
  · ext <;> simp only <;> field_simp <;> ring

/-- The vector `(up × dir) × dir` is `-(dir·dir)` times the component of `up`
perpendicular to `dir`. -/
theorem upVec_raw_eq (up dir : Vec3 F) (hd : 0 < dir.Dot dir) :
    (up.Cross dir).Cross dir = (perpComponent up dir).Mul (-(dir.Dot dir)) := by
  have hne : dir.Dot dir ≠ 0 := ne_of_gt hd
  have hq : up.Dot dir / dir.Dot dir * dir.Dot dir = up.Dot dir := div_mul_cancel₀ _ hne
  rw [perpComponent]
  generalize up.Dot dir / dir.Dot dir = q at hq
  simp only [Vec3.Cross, Vec3.Sub, Vec3.Mul, Vec3.Dot] at hq ⊢
  ext
  · simp only
    linear_combination (-dir.x) * hq
  · simp only
    linear_combination (-dir.y) * hq
  · simp only
    linear_combination (-dir.z) * hq

/-- C19, as amended. For every `up` and `dir` that are not parallel, with
`math.Sqrt` the square root, `UpVec(up, dir)` is the opposite of the normalized
component of `up` perpendicular to `dir`,
`-normalize(up - ((up·dir)/(dir·dir))·dir)`, and therefore has a strictly
negative dot product with `up`. -/
theorem UpVec_opposite_of_perp (sqrt : F → F) (hsqrt : IsSqrt sqrt) (up dir : Vec3 F)
    (h : up.Cross dir ≠ Vec3.zero) :
    UpVec sqrt up dir = ((perpComponent up dir).Normalize sqrt).Mul (-1) ∧
    (UpVec sqrt up dir).Dot up < 0 := by
  obtain ⟨hd, hy⟩ := upVec_raw_ne_zero up dir h
  constructor
  · show ((up.Cross dir).Cross dir).Normalize sqrt = _
    rw [upVec_raw_eq up dir hd, Normalize_Mul_neg sqrt hsqrt _ _ hd]
  · show (((up.Cross dir).Cross dir).Normalize sqrt).Dot up < 0
    have hk := inv_Len_ne_zero sqrt hsqrt _ hy
    have hk0 : 0 ≤ 1 / ((up.Cross dir).Cross dir).Len sqrt := by
      apply div_nonneg zero_le_one
      exact (hsqrt _ (add_nonneg (add_nonneg (mul_self_nonneg _) (mul_self_nonneg _))
        (mul_self_nonneg _))).1
    have hkpos : 0 < 1 / ((up.Cross dir).Cross dir).Len sqrt := lt_of_le_of_ne hk0 (Ne.symm hk)
    rw [Vec3.Normalize_eq_Mul, Vec3.Dot_Mul_left, (upVec_raw up dir).2.2]
    have hx := Vec3.dot_self_pos _ h
    nlinarith

/-- The vectors `(0, 1, 0)` and `(0, 0, -1)` are not parallel. -/
theorem up_not_parallel : (⟨0, 1, 0⟩ : Vec3 ℝ).Cross ⟨0, 0, -1⟩ ≠ Vec3.zero := by
  intro h0
  have := congrArg Vec3.x h0
  simp [Vec3.Cross, Vec3.zero] at this

/-- Witness of C19 as amended, at up `(0, 1, 0)` and direction `(0, 0, -1)`. -/
theorem UpVec_opposite_of_perp_witness :
    IsSqrt Real.sqrt ∧ (⟨0, 1, 0⟩ : Vec3 ℝ).Cross ⟨0, 0, -1⟩ ≠ Vec3.zero ∧
    UpVec Real.sqrt (⟨0, 1, 0⟩ : Vec3 ℝ) ⟨0, 0, -1⟩ =
      ((perpComponent (⟨0, 1, 0⟩ : Vec3 ℝ) ⟨0, 0, -1⟩).Normalize Real.sqrt).Mul (-1) ∧
    (UpVec Real.sqrt (⟨0, 1, 0⟩ : Vec3 ℝ) ⟨0, 0, -1⟩).Dot ⟨0, 1, 0⟩ < 0 :=
  ⟨isSqrt_real, up_not_parallel,
    UpVec_opposite_of_perp Real.sqrt isSqrt_real ⟨0, 1, 0⟩ ⟨0, 0, -1⟩ up_not_parallel⟩

/-- C19, counterexample. For up `(0, 1, 0)` and the view direction
`(0, 0, -1)`, which are not parallel, `UpVec` returns `(0, -1, 0)`, whereas the
normalized component of `up` perpendicular to `dir` is `(0, 1, 0)`; the dot
product of `UpVec(up, dir)` with `up` is `-1`, not positive. -/
theorem UpVec_points_down :
    (⟨0, 1, 0⟩ : Vec3 ℝ).Cross ⟨0, 0, -1⟩ ≠ Vec3.zero ∧
    UpVec Real.sqrt (⟨0, 1, 0⟩ : Vec3 ℝ) ⟨0, 0, -1⟩ = ⟨0, -1, 0⟩ ∧
    (perpComponent (⟨0, 1, 0⟩ : Vec3 ℝ) ⟨0, 0, -1⟩).Normalize Real.sqrt = ⟨0, 1, 0⟩ ∧
    UpVec Real.sqrt (⟨0, 1, 0⟩ : Vec3 ℝ) ⟨0, 0, -1⟩ ≠
      (perpComponent (⟨0, 1, 0⟩ : Vec3 ℝ) ⟨0, 0, -1⟩).Normalize Real.sqrt ∧
    (UpVec Real.sqrt (⟨0, 1, 0⟩ : Vec3 ℝ) ⟨0, 0, -1⟩).Dot ⟨0, 1, 0⟩ = -1 := by
  have hraw : ((⟨0, 1, 0⟩ : Vec3 ℝ).Cross ⟨0, 0, -1⟩).Cross ⟨0, 0, -1⟩ = ⟨0, -1, 0⟩ := by
    simp only [Vec3.Cross]
    ext <;> norm_num
  have hup : UpVec Real.sqrt (⟨0, 1, 0⟩ : Vec3 ℝ) ⟨0, 0, -1⟩ = ⟨0, -1, 0⟩ := by
    show (((⟨0, 1, 0⟩ : Vec3 ℝ).Cross ⟨0, 0, -1⟩).Cross ⟨0, 0, -1⟩).Normalize Real.sqrt = _
    rw [hraw]
    exact Vec3.Normalize_of_unit Real.sqrt isSqrt_real _ (by simp [Vec3.Dot])
  have hperp : (perpComponent (⟨0, 1, 0⟩ : Vec3 ℝ) ⟨0, 0, -1⟩).Normalize Real.sqrt =
      ⟨0, 1, 0⟩ := by
    have hp : perpComponent (⟨0, 1, 0⟩ : Vec3 ℝ) ⟨0, 0, -1⟩ = ⟨0, 1, 0⟩ := by
      simp only [perpComponent, Vec3.Sub, Vec3.Mul, Vec3.Dot]
      ext <;> norm_num
    rw [hp]
    exact Vec3.Normalize_of_unit Real.sqrt isSqrt_real _ (by simp [Vec3.Dot])
  refine ⟨up_not_parallel, hup, hperp, ?_, ?_⟩
  · rw [hup, hperp]
    intro h
    have := congrArg Vec3.y h
    norm_num at this
  · rw [hup]
    simp [Vec3.Dot]

end UpVecThms

/-! ## Writing the image: `main` -/

section MainThms

/-- C20, the failing input. For a scene of 2 × 2 pixels, the slot `(0, 0)` of
the frame buffer is written at the image coordinate `(0, 2)`, outside the
image rectangle `[0, 2) × [0, 2)`, and no slot of the buffer is written to
the image row `0`: the rendered row `j = 0` is dropped and the image row `0`
is left unwritten. -/
theorem imageCoord_row_zero_dropped :
    imageCoord (sizedScene 2 2 [] [] : Scene ℚ) 0 0 = (0, 2) ∧
    ¬ inImageRect (sizedScene 2 2 [] [] : Scene ℚ)
      (imageCoord (sizedScene 2 2 [] [] : Scene ℚ) 0 0) ∧
    ∀ i j : Int, 0 ≤ j → j < (sizedScene 2 2 [] [] : Scene ℚ).Height →
      (imageCoord (sizedScene 2 2 [] [] : Scene ℚ) i j).2 ≠ 0 := by
  refine ⟨rfl, by decide, ?_⟩
  intro i j _ hj
  simp only [imageCoord, sizedScene] at hj ⊢
  omega

end MainThms

/-! ## Rotations: `Rotate` -/

section RotateThms

variable {F : Type} [LinearOrderedField F]

/-- The matrix of `Rotate` applied to a vector is the rotation formula of
Rodrigues, for the normalized axis. -/
theorem Rotate_Mul3x1 (sqrt cos sin : F → F) (pi degrees : F) (axis x : Vec3 F) :
    (Rotate sqrt cos sin pi degrees axis).Mul3x1 x =
      rodrigues (cos (degrees * pi / 180)) (sin (degrees * pi / 180))
        (axis.Normalize sqrt) x := by
  simp only [Rotate, rodrigues, Mat3.Mul3x1, Mat3.Add, Mat3.Mul, Mat3.Transpose, Mat3.Ident3,
    Mat3.ofColMajor, Vec3.OuterProd3, Vec3.Add, Vec3.Mul, Vec3.Cross, Vec3.Dot]
  ext <;> simp <;> ring

/-- The formula of Rodrigues for a unit axis fixes the axis. -/
theorem rodrigues_axis (c s : F) (a : Vec3 F) (ha : a.Dot a = 1) : rodrigues c s a a = a := by
  rcases a with ⟨a1, a2, a3⟩
  simp only [rodrigues, Vec3.Add, Vec3.Mul, Vec3.Cross, Vec3.Dot] at ha ⊢
  ext
  · simp only
    linear_combination (1 - c) * a1 * ha
  · simp only
    linear_combination (1 - c) * a2 * ha
  · simp only
    linear_combination (1 - c) * a3 * ha

/-- The formula of Rodrigues for a unit axis and `cos² + sin² = 1` preserves
dot products. -/
theorem rodrigues_dot (c s : F) (a x y : Vec3 F) (ha : a.Dot a = 1)
    (hcs : c * c + s * s = 1) :
    (rodrigues c s a x).Dot (rodrigues c s a y) = x.Dot y := by
  rcases a with ⟨a1, a2, a3⟩
  rcases x with ⟨x1, x2, x3⟩
  rcases y with ⟨y1, y2, y3⟩
  simp only [rodrigues, Vec3.Add, Vec3.Mul, Vec3.Cross, Vec3.Dot] at ha ⊢
  linear_combination
    ((x1 * y1 + x2 * y2 + x3 * y3) - (a1 * x1 + a2 * x2 + a3 * x3) * (a1 * y1 + a2 * y2 + a3 * y3))
        * hcs +
      ((1 - c) ^ 2 * (a1 * x1 + a2 * x2 + a3 * x3) * (a1 * y1 + a2 * y2 + a3 * y3) +
        s ^ 2 * (x1 * y1 + x2 * y2 + x3 * y3)) * ha

/-- A matrix that preserves dot products is orthogonal. -/
theorem Mat3.orthogonal_of_dot (m : Mat3 F)
    (h : ∀ x y : Vec3 F, (m.Mul3x1 x).Dot (m.Mul3x1 y) = x.Dot y) :
    Matrix.transpose m * m = 1 := by
  have e := fun (i j : Fin 3) => h ⟨if i = 0 then 1 else 0, if i = 1 then 1 else 0,
    if i = 2 then 1 else 0⟩ ⟨if j = 0 then 1 else 0, if j = 1 then 1 else 0,
    if j = 2 then 1 else 0⟩
  ext i j
  have hij := e i j
  fin_cases i <;> fin_cases j <;>
    simp [Matrix.mul_apply, Fin.sum_univ_three, Mat3.Mul3x1, Vec3.Dot] at hij ⊢ <;>
    linarith

/-- C17. For every non-zero axis with normalisation `a`, every angle in
degrees with `theta = degrees·π/180`, and every vector `x`, with `math.Sqrt`
the square root and `cos² + sin² = 1`: the matrix `Rotate(degrees, axis)`
applied to `x` is `cos(theta)·x + (1 - cos(theta))·(a·x)·a + sin(theta)·(a × x)`;
it is an orthogonal matrix, it fixes `a`, and it turns a vector `x`
perpendicular to `a` into `cos(theta)·x + sin(theta)·(a × x)`, the
counter-clockwise rotation about `a`. -/
theorem Rotate_is_rodrigues (sqrt cos sin : F → F) (pi degrees : F) (axis : Vec3 F)
    (hsqrt : IsSqrt sqrt) (haxis : axis ≠ Vec3.zero)
    (hcs : ∀ t, cos t * cos t + sin t * sin t = 1) :
    (∀ x, (Rotate sqrt cos sin pi degrees axis).Mul3x1 x =
      rodrigues (cos (degrees * pi / 180)) (sin (degrees * pi / 180))
        (axis.Normalize sqrt) x) ∧
    Matrix.transpose (Rotate sqrt cos sin pi degrees axis) *
      Rotate sqrt cos sin pi degrees axis = 1 ∧
    (Rotate sqrt cos sin pi degrees axis).Mul3x1 (axis.Normalize sqrt) =
      axis.Normalize sqrt ∧
    (∀ x, (axis.Normalize sqrt).Dot x = 0 →
      (Rotate sqrt cos sin pi degrees axis).Mul3x1 x =
        (x.Mul (cos (degrees * pi / 180))).Add
          (((axis.Normalize sqrt).Cross x).Mul (sin (degrees * pi / 180)))) := by
  have ha := Vec3.Normalize_unit sqrt hsqrt axis haxis
  refine ⟨Rotate_Mul3x1 sqrt cos sin pi degrees axis, ?_, ?_, ?_⟩
  · apply Mat3.orthogonal_of_dot
    intro x y
    rw [Rotate_Mul3x1, Rotate_Mul3x1]
    exact rodrigues_dot _ _ _ x y ha (hcs _)
  · rw [Rotate_Mul3x1]
    exact rodrigues_axis _ _ _ ha
  · intro x hx
    rw [Rotate_Mul3x1]
    simp only [rodrigues, hx, mul_zero]
    simp only [Vec3.Add, Vec3.Mul]
    ext <;> simp

/-- Witness of C17 on the reals: the rotation by 90 degrees about the axis
`(0, 0, 2)` fixes `(0, 0, 1)`. -/
theorem Rotate_is_rodrigues_witness :
    IsSqrt Real.sqrt ∧ (⟨0, 0, 2⟩ : Vec3 ℝ) ≠ Vec3.zero ∧
    (∀ t : ℝ, Real.cos t * Real.cos t + Real.sin t * Real.sin t = 1) ∧
    Matrix.transpose (Rotate Real.sqrt Real.cos Real.sin Real.pi 90 ⟨0, 0, 2⟩) *
      Rotate Real.sqrt Real.cos Real.sin Real.pi 90 ⟨0, 0, 2⟩ = 1 ∧
    (Rotate Real.sqrt Real.cos Real.sin Real.pi 90 ⟨0, 0, 2⟩).Mul3x1
        ((⟨0, 0, 2⟩ : Vec3 ℝ).Normalize Real.sqrt) =
      (⟨0, 0, 2⟩ : Vec3 ℝ).Normalize Real.sqrt := by
  have haxis : (⟨0, 0, 2⟩ : Vec3 ℝ) ≠ Vec3.zero := by
    intro h0
    have := congrArg Vec3.z h0
    simp [Vec3.zero] at this
  have hcs : ∀ t : ℝ, Real.cos t * Real.cos t + Real.sin t * Real.sin t = 1 := by
    intro t
    have := Real.cos_sq_add_sin_sq t
    linear_combination this
  have h := Rotate_is_rodrigues Real.sqrt Real.cos Real.sin Real.pi 90 ⟨0, 0, 2⟩ isSqrt_real
    haxis hcs
  exact ⟨isSqrt_real, haxis, hcs, h.2.1, h.2.2.1⟩

end RotateThms

/-! ## Normals under a transform: `Triangle.Normal` -/

section NormalThms

variable {F : Type} [LinearOrderedField F]

/-- A determinant that `FloatEqual` tells from zero is not zero. -/
theorem det_ne_zero_of_tolerance (m : Mat4 F) (hdet : Epsilon * Epsilon ≤ |Matrix.det m|) :
    Matrix.det m ≠ 0 := by
  intro h0
  rw [h0, abs_zero] at hdet
  have hpos : (0 : F) < Epsilon * Epsilon := by
    simp only [Epsilon]
    norm_num
  exact absurd hdet (not_le.2 hpos)

/-- The transpose of a matrix whose determinant `FloatEqual` tells from zero,
times the `Inv` of that transpose, is the identity. -/
theorem transpose_mul_Inv (m : Mat4 F) (hdet : Epsilon * Epsilon ≤ |Matrix.det m|) :
    Matrix.transpose m * Mat4.Inv (Mat4.Transpose m) = 1 := by
  have hd : Matrix.det (Matrix.transpose m) ≠ 0 := by
    rw [Matrix.det_transpose]; exact det_ne_zero_of_tolerance m hdet
  have hf : FloatEqual (Matrix.det (Matrix.transpose m)) 0 = false := by
    rw [FloatEqual_zero, Matrix.det_transpose]
    simp only [decide_eq_false_iff_not, not_lt]
    exact hdet
  simp only [Mat4.Inv, Mat4.Transpose, hf, Bool.false_eq_true, if_false]
  rw [Matrix.mul_smul, Matrix.mul_adjugate, smul_smul, one_div, inv_mul_cancel₀ hd, one_smul]

/-- The vector that `Normal` normalizes, paired with the image of a direction
`e` under an affine transform whose determinant `FloatEqual` tells from zero,
gives the dot product of the object-space normal with `e`. -/
theorem invT_dot (m : Mat4 F) (hdet : Epsilon * Epsilon ≤ |Matrix.det m|) (haff : IsAffine m)
    (n e : Vec3 F) :
    (Vec4.Vec3 ((Mat4.Inv (Mat4.Transpose m)).Mul4x1 (n.Vec4 0))).Dot
      (Vec4.Vec3 (m.Mul4x1 (e.Vec4 0))) = n.Dot e := by
  have hkey : Matrix.dotProduct (Matrix.mulVec (Mat4.Inv (Mat4.Transpose m)) (n.Vec4 0))
      (Matrix.mulVec m (e.Vec4 0)) = Matrix.dotProduct (n.Vec4 0) (e.Vec4 0) := by
    rw [Matrix.dotProduct_mulVec, ← Matrix.mulVec_transpose, Matrix.mulVec_mulVec,
      transpose_mul_Inv m hdet, Matrix.one_mulVec]
  have hlast : Matrix.mulVec m (e.Vec4 0) 3 = 0 := by
    simp [Matrix.mulVec, Matrix.dotProduct, Fin.sum_univ_four, Vec3.Vec4, haff.1, haff.2.1,
      haff.2.2.1]
  simp only [Matrix.dotProduct, Fin.sum_univ_four, hlast, mul_zero, add_zero] at hkey
  simp only [Vec3.Dot, Vec4.Vec3, Mat4.Mul4x1]
  rw [hkey]
  simp [Vec3.Vec4]

/-- The difference of the world positions of two points is the image of the
difference of the points as a direction. -/
theorem worldPoint_sub (m : Mat4 F) (a b : Vec3 F) :
    (worldPoint m a).Sub (worldPoint m b) = Vec4.Vec3 (m.Mul4x1 ((a.Sub b).Vec4 0)) := by
  simp only [worldPoint, Vec4.Vec3, Mat4.Mul4x1, Vec3.Sub, Matrix.mulVec, Matrix.dotProduct,
    Fin.sum_univ_four, Vec3.Vec4]
  ext <;> simp <;> ring

/-- The normal stored by `NewTriangle` for a non-degenerate triangle is a unit
vector perpendicular to the edges `V2 - V1` and `V3 - V1`. -/
theorem NewTriangle_norm (sqrt : F → F) (hsqrt : IsSqrt sqrt) (V1 V2 V3 A D S E : Vec3 F)
    (sh : F) (M : Mat4 F) (hnd : ¬ Degenerate V1 V2 V3) :
    (NewTriangle sqrt V1 V2 V3 A D S E sh M).norm.Dot
      (NewTriangle sqrt V1 V2 V3 A D S E sh M).norm = 1 ∧
    (NewTriangle sqrt V1 V2 V3 A D S E sh M).norm.Dot (V2.Sub V1) = 0 ∧
    (NewTriangle sqrt V1 V2 V3 A D S E sh M).norm.Dot (V3.Sub V1) = 0 := by
  have hN : (V3.Sub V1).Cross (V2.Sub V1) ≠ Vec3.zero := hnd
  have hperp : ∀ a b : Vec3 F, (a.Cross b).Dot b = 0 ∧ (a.Cross b).Dot a = 0 := by
    intro a b
    simp only [Vec3.Dot, Vec3.Cross]
    constructor <;> ring
  refine ⟨Vec3.Normalize_unit sqrt hsqrt _ hN, ?_, ?_⟩
  · show (((V3.Sub V1).Cross (V2.Sub V1)).Normalize sqrt).Dot (V2.Sub V1) = 0
    rw [Vec3.Normalize_eq_Mul, Vec3.Dot_Mul_left, (hperp _ _).1, zero_mul]
  · show (((V3.Sub V1).Cross (V2.Sub V1)).Normalize sqrt).Dot (V3.Sub V1) = 0
    rw [Vec3.Normalize_eq_Mul, Vec3.Dot_Mul_left, (hperp _ _).2, zero_mul]

/-- The tolerance of `FloatEqual` against zero is `1e-20`. -/
theorem Epsilon_sq : (Epsilon : F) * Epsilon = 1e-20 := by
  simp only [Epsilon]
  norm_num

/-- C18, as amended. For every non-degenerate triangle and every affine
transform `M` whose determinant is at least `1e-20` in absolute value, the
tolerance below which `Inv` takes a matrix for singular (non-uniform scales
included), with `math.Sqrt` the square root, `Triangle.Normal` returns the
same vector for every query point; that vector is a unit vector and is
perpendicular to the world-space edges `M·v2 - M·v1` and `M·v3 - M·v1` of the
transformed triangle. -/
theorem Triangle.Normal_unit_perpendicular (sqrt : F → F) (hsqrt : IsSqrt sqrt)
    (V1 V2 V3 A D S E : Vec3 F) (sh : F) (M : Mat4 F) (hnd : ¬ Degenerate V1 V2 V3)
    (hdet : (1e-20 : F) ≤ |Matrix.det M|) (haff : IsAffine M) :
    (∀ p q : Vec3 F, (NewTriangle sqrt V1 V2 V3 A D S E sh M).Normal sqrt p =
      (NewTriangle sqrt V1 V2 V3 A D S E sh M).Normal sqrt q) ∧
    ∀ p : Vec3 F,
      ((NewTriangle sqrt V1 V2 V3 A D S E sh M).Normal sqrt p).Dot
        ((NewTriangle sqrt V1 V2 V3 A D S E sh M).Normal sqrt p) = 1 ∧
      ((NewTriangle sqrt V1 V2 V3 A D S E sh M).Normal sqrt p).Dot
        ((worldPoint M V2).Sub (worldPoint M V1)) = 0 ∧
      ((NewTriangle sqrt V1 V2 V3 A D S E sh M).Normal sqrt p).Dot
        ((worldPoint M V3).Sub (worldPoint M V1)) = 0 := by
  obtain ⟨hn1, hn2, hn3⟩ := NewTriangle_norm sqrt hsqrt V1 V2 V3 A D S E sh M hnd
  refine ⟨fun p q => rfl, fun p => ?_⟩
  have htol : (Epsilon : F) * Epsilon ≤ |Matrix.det M| := by rw [Epsilon_sq]; exact hdet
  have hdot := invT_dot M htol haff (NewTriangle sqrt V1 V2 V3 A D S E sh M).norm
  have hG : Vec4.Vec3 ((Mat4.Inv (Mat4.Transpose M)).Mul4x1
      ((NewTriangle sqrt V1 V2 V3 A D S E sh M).norm.Vec4 0)) ≠ Vec3.zero := by
    intro h0
    have h1 := hdot (NewTriangle sqrt V1 V2 V3 A D S E sh M).norm
    rw [h0, hn1] at h1
    simp [Vec3.Dot, Vec3.zero] at h1
  have hNormal : (NewTriangle sqrt V1 V2 V3 A D S E sh M).Normal sqrt p =
      (Vec4.Vec3 ((Mat4.Inv (Mat4.Transpose M)).Mul4x1
        ((NewTriangle sqrt V1 V2 V3 A D S E sh M).norm.Vec4 0))).Normalize sqrt := rfl
  rw [hNormal]
  refine ⟨Vec3.Normalize_unit sqrt hsqrt _ hG, ?_, ?_⟩
  · rw [Vec3.Normalize_eq_Mul, Vec3.Dot_Mul_left, worldPoint_sub, hdot, hn2, zero_mul]
  · rw [Vec3.Normalize_eq_Mul, Vec3.Dot_Mul_left, worldPoint_sub, hdot, hn3, zero_mul]

/-- The matrix of `Scale` is affine and its determinant is the product of the
three factors. -/
theorem Scale_det_affine (sx sy sz : F) :
    Matrix.det (Scale sx sy sz) = sx * sy * sz ∧ IsAffine (Scale sx sy sz) := by
  have hdiag : Scale sx sy sz = Matrix.diagonal ![sx, sy, sz, 1] := by
    ext i j
    fin_cases i <;> fin_cases j <;> simp [Scale, Matrix.diagonal] <;> rfl
  refine ⟨?_, ⟨rfl, rfl, rfl, rfl⟩⟩
  rw [hdiag, Matrix.det_diagonal]
  simp [Fin.prod_univ_four]

/-- The triangle of `(1, 0, 0)`, `(0, 1, 0)` and `(0, 0, 1)` is not degenerate. -/
theorem corner_triangle_not_degenerate :
    ¬ Degenerate (⟨1, 0, 0⟩ : Vec3 ℝ) ⟨0, 1, 0⟩ ⟨0, 0, 1⟩ := by
  simp [Degenerate, Vec3.Cross, Vec3.Sub]

/-- Witness of C18 as amended, on the reals: the triangle `(1, 0, 0)`,
`(0, 1, 0)`, `(0, 0, 1)`, whose plane is oblique to the three axes, under the
non-uniform scale by `(2, 3, 1)`, of determinant `6`. -/
theorem Triangle.Normal_unit_perpendicular_witness :
    IsSqrt Real.sqrt ∧ ¬ Degenerate (⟨1, 0, 0⟩ : Vec3 ℝ) ⟨0, 1, 0⟩ ⟨0, 0, 1⟩ ∧
    (1e-20 : ℝ) ≤ |Matrix.det (Scale (2 : ℝ) 3 1)| ∧ IsAffine (Scale (2 : ℝ) 3 1) ∧
    ((NewTriangle Real.sqrt ⟨1, 0, 0⟩ ⟨0, 1, 0⟩ ⟨0, 0, 1⟩ Vec3.zero Vec3.zero Vec3.zero
        Vec3.zero 0 (Scale (2 : ℝ) 3 1)).Normal Real.sqrt ⟨0, 0, 0⟩).Dot
      ((NewTriangle Real.sqrt ⟨1, 0, 0⟩ ⟨0, 1, 0⟩ ⟨0, 0, 1⟩ Vec3.zero Vec3.zero Vec3.zero
        Vec3.zero 0 (Scale (2 : ℝ) 3 1)).Normal Real.sqrt ⟨0, 0, 0⟩) = 1 ∧
    ((NewTriangle Real.sqrt ⟨1, 0, 0⟩ ⟨0, 1, 0⟩ ⟨0, 0, 1⟩ Vec3.zero Vec3.zero Vec3.zero
        Vec3.zero 0 (Scale (2 : ℝ) 3 1)).Normal Real.sqrt ⟨0, 0, 0⟩).Dot
      ((worldPoint (Scale (2 : ℝ) 3 1) ⟨0, 1, 0⟩).Sub
        (worldPoint (Scale (2 : ℝ) 3 1) ⟨1, 0, 0⟩)) = 0 ∧
    ((NewTriangle Real.sqrt ⟨1, 0, 0⟩ ⟨0, 1, 0⟩ ⟨0, 0, 1⟩ Vec3.zero Vec3.zero Vec3.zero
        Vec3.zero 0 (Scale (2 : ℝ) 3 1)).Normal Real.sqrt ⟨0, 0, 0⟩).Dot
      ((worldPoint (Scale (2 : ℝ) 3 1) ⟨0, 0, 1⟩).Sub
        (worldPoint (Scale (2 : ℝ) 3 1) ⟨1, 0, 0⟩)) = 0 := by
  have hdet : (1e-20 : ℝ) ≤ |Matrix.det (Scale (2 : ℝ) 3 1)| := by
    rw [(Scale_det_affine (2 : ℝ) 3 1).1]
    norm_num
  have h := (Triangle.Normal_unit_perpendicular Real.sqrt isSqrt_real ⟨1, 0, 0⟩ ⟨0, 1, 0⟩
    ⟨0, 0, 1⟩ Vec3.zero Vec3.zero Vec3.zero Vec3.zero 0 (Scale (2 : ℝ) 3 1)
    corner_triangle_not_degenerate hdet (Scale_det_affine (2 : ℝ) 3 1).2).2 ⟨0, 0, 0⟩
  exact ⟨isSqrt_real, corner_triangle_not_degenerate, hdet, (Scale_det_affine (2 : ℝ) 3 1).2,
    h.1, h.2.1, h.2.2⟩

/-- C18, counterexample. The uniform scale by `2⁻²³` is an invertible affine
transform, of determinant `2⁻⁶⁹`, about `1.7e-21`; `FloatEqual` takes that
determinant for zero, `Inv` returns the zero matrix, and for the non-degenerate
triangle `(0, 0, 0)`, `(1, 0, 0)`, `(0, 1, 0)` the vector that
`Triangle.Normal` normalizes is the zero vector: its length, by which `Normal`
divides, is `0`, and the result (NaN in the code, the zero vector here) is not
a unit vector. -/
theorem Triangle.Normal_tiny_scale_not_unit :
    Matrix.det (Scale ((1 : ℝ) / 2 ^ 23) (1 / 2 ^ 23) (1 / 2 ^ 23)) ≠ 0 ∧
    IsAffine (Scale ((1 : ℝ) / 2 ^ 23) (1 / 2 ^ 23) (1 / 2 ^ 23)) ∧
    ¬ Degenerate (⟨0, 0, 0⟩ : Vec3 ℝ) ⟨1, 0, 0⟩ ⟨0, 1, 0⟩ ∧
    Mat4.Inv (Mat4.Transpose (Scale ((1 : ℝ) / 2 ^ 23) (1 / 2 ^ 23) (1 / 2 ^ 23))) = 0 ∧
    Vec4.Vec3 ((Mat4.Inv (Mat4.Transpose
        (Scale ((1 : ℝ) / 2 ^ 23) (1 / 2 ^ 23) (1 / 2 ^ 23)))).Mul4x1
      ((NewTriangle Real.sqrt ⟨0, 0, 0⟩ ⟨1, 0, 0⟩ ⟨0, 1, 0⟩ Vec3.zero Vec3.zero Vec3.zero
        Vec3.zero 0 (Scale ((1 : ℝ) / 2 ^ 23) (1 / 2 ^ 23) (1 / 2 ^ 23))).norm.Vec4 0)) =
      ⟨0, 0, 0⟩ ∧
    ((NewTriangle Real.sqrt ⟨0, 0, 0⟩ ⟨1, 0, 0⟩ ⟨0, 1, 0⟩ Vec3.zero Vec3.zero Vec3.zero
        Vec3.zero 0 (Scale ((1 : ℝ) / 2 ^ 23) (1 / 2 ^ 23) (1 / 2 ^ 23))).Normal Real.sqrt
          ⟨0, 0, 0⟩).Dot
      ((NewTriangle Real.sqrt ⟨0, 0, 0⟩ ⟨1, 0, 0⟩ ⟨0, 1, 0⟩ Vec3.zero Vec3.zero Vec3.zero
        Vec3.zero 0 (Scale ((1 : ℝ) / 2 ^ 23) (1 / 2 ^ 23) (1 / 2 ^ 23))).Normal Real.sqrt
          ⟨0, 0, 0⟩) ≠ 1 := by
  obtain ⟨hdet, haff⟩ := Scale_det_affine ((1 : ℝ) / 2 ^ 23) (1 / 2 ^ 23) (1 / 2 ^ 23)
  have hne : Matrix.det (Scale ((1 : ℝ) / 2 ^ 23) (1 / 2 ^ 23) (1 / 2 ^ 23)) ≠ 0 := by
    rw [hdet]; norm_num
  have hinv : Mat4.Inv (Mat4.Transpose (Scale ((1 : ℝ) / 2 ^ 23) (1 / 2 ^ 23) (1 / 2 ^ 23))) =
      0 := by
    have hf : FloatEqual (Matrix.det (Matrix.transpose
        (Scale ((1 : ℝ) / 2 ^ 23) (1 / 2 ^ 23) (1 / 2 ^ 23)))) 0 = true := by
      rw [FloatEqual_zero, Matrix.det_transpose, hdet, Epsilon_sq]
      simp only [decide_eq_true_eq]
      norm_num [abs_of_pos]
    simp only [Mat4.Inv, Mat4.Transpose, hf, if_true]
  have hG : ∀ v : Vec4 ℝ, Vec4.Vec3 ((Mat4.Inv (Mat4.Transpose
      (Scale ((1 : ℝ) / 2 ^ 23) (1 / 2 ^ 23) (1 / 2 ^ 23)))).Mul4x1 v) = ⟨0, 0, 0⟩ := by
    intro v
    rw [hinv]
    simp [Mat4.Mul4x1, Vec4.Vec3]
  refine ⟨hne, haff, right_triangle_not_degenerate, hinv, hG _, ?_⟩
  have hNormal : (NewTriangle Real.sqrt (⟨0, 0, 0⟩ : Vec3 ℝ) ⟨1, 0, 0⟩ ⟨0, 1, 0⟩ Vec3.zero
      Vec3.zero Vec3.zero Vec3.zero 0
      (Scale ((1 : ℝ) / 2 ^ 23) (1 / 2 ^ 23) (1 / 2 ^ 23))).Normal Real.sqrt ⟨0, 0, 0⟩ =
      (Vec4.Vec3 ((Mat4.Inv (Mat4.Transpose
        (Scale ((1 : ℝ) / 2 ^ 23) (1 / 2 ^ 23) (1 / 2 ^ 23)))).Mul4x1
        ((NewTriangle Real.sqrt (⟨0, 0, 0⟩ : Vec3 ℝ) ⟨1, 0, 0⟩ ⟨0, 1, 0⟩ Vec3.zero Vec3.zero
          Vec3.zero Vec3.zero 0
          (Scale ((1 : ℝ) / 2 ^ 23) (1 / 2 ^ 23) (1 / 2 ^ 23))).norm.Vec4 0))).Normalize
        Real.sqrt := rfl
  rw [hNormal, hG]
  simp [Vec3.Normalize, Vec3.Dot]

end NormalThms

/-! ## The scenario of one sphere and one directional light -/

section ScenarioThms

variable {F : Type} [LinearOrderedField F]

/-- Normalizing a positive multiple of a unit vector gives the unit vector. -/
theorem Normalize_Mul_pos (sqrt : F → F) (hsqrt : IsSqrt sqrt) (v : Vec3 F) (c : F)
    (hv : v.Dot v = 1) (hc : 0 < c) : (v.Mul c).Normalize sqrt = v := by
  have hlen : (v.Mul c).Len sqrt = c := by
    show sqrt ((v.Mul c).Dot (v.Mul c)) = c
    apply sqrt_unique_of_isSqrt sqrt hsqrt _ _ (le_of_lt hc)
    rw [Vec3.Dot_Mul_left, Vec3.Dot_Mul_right, hv]
    ring
  have hcne : c ≠ 0 := ne_of_gt hc
  rw [Vec3.Normalize_eq_Mul, hlen]
  simp only [Vec3.Mul]
  ext <;> simp only <;> field_simp

/-- The vector `(0, 0, c)` with `c > 0` normalizes to `(0, 0, 1)`. -/
theorem Normalize_z_axis (sqrt : F → F) (hsqrt : IsSqrt sqrt) (c : F) (hc : 0 < c) :
    (⟨0, 0, c⟩ : Vec3 F).Normalize sqrt = ⟨0, 0, 1⟩ := by
  have h := Normalize_Mul_pos sqrt hsqrt ⟨0, 0, 1⟩ c (by simp [Vec3.Dot]) hc
  simpa [Vec3.Mul] using h

/-- The result of `trace` in a scene of one shape. -/
theorem trace_single_shape (sqrt : F → F) (o d : Vec3 F) (scene : Scene F) (s : Shape F)
    (h : scene.Shapes = [s]) :
    trace sqrt o d scene =
      if s.Intersect sqrt o d > 0 then (some s, s.Intersect sqrt o d) else (none, -1) := by
  simp only [trace, h, traceLoop]
  by_cases hpos : s.Intersect sqrt o d > 0
  · simp [hpos]
  · simp [hpos]

/-- The distance from `(0, 0, z)` along `(0, 0, d)`, `d = ±1`, to the sphere of
the scenario: the roots of the quadratic are `1 - d·z` and `-1 - d·z`. -/
theorem scenarioSphere_axis (sqrt : F → F) (hsqrt : IsSqrt sqrt) (sh z d : F)
    (hd : d * d = 1) :
    (scenarioSphere sh).Intersect sqrt ⟨0, 0, z⟩ ⟨0, 0, d⟩ =
      if 1 - d * z > 0 ∧ -1 - d * z > 0 then min (1 - d * z) (-1 - d * z)
      else if 1 - d * z > 0 then 1 - d * z
      else if -1 - d * z > 0 then -1 - d * z
      else -1 := by
  have htr : (scenarioSphere sh : Sphere F).transform = 1 := rfl
  have hpos : (scenarioSphere sh : Sphere F).pos = ⟨0, 0, 0⟩ := rfl
  have hD : sphereDiscriminant (scenarioSphere sh) (⟨0, 0, z⟩ : Vec3 F) ⟨0, 0, d⟩ = 2 * 2 := by
    simp only [sphereDiscriminant, scenarioSphere, NewSphere, Vec3.zero, Vec3.Dot, Vec3.Sub]
    linear_combination (4 : F) * hd
  have ha : (⟨0, 0, d⟩ : Vec3 F).Dot ⟨0, 0, d⟩ = 1 := by
    simp only [Vec3.Dot]
    linear_combination hd
  have hb : (⟨0, 0, d⟩ : Vec3 F).Dot ((⟨0, 0, z⟩ : Vec3 F).Sub ⟨0, 0, 0⟩) * 2 = 2 * (d * z) := by
    simp only [Vec3.Dot, Vec3.Sub]
    ring
  have h1 : (-(2 * (d * z)) + 2) / (2 * 1) = 1 - d * z := by field_simp; ring
  have h2 : (-(2 * (d * z)) - 2) / (2 * 1) = -1 - d * z := by field_simp; ring
  rw [sphere_Intersect_eq]
  simp only [htr, objDir_one, objOrigin_one, hD, hpos, ha, hb,
    sqrt_mul_self_of_isSqrt sqrt hsqrt 2 (by norm_num), h1, h2]
  have hneg : ¬ ((2 : F) * 2 < 0) := by norm_num
  rw [if_neg hneg]

/-- The normal of the sphere of the scenario at its pole `(0, 0, 1)`. -/
theorem scenarioSphere_Normal (sqrt : F → F) (hsqrt : IsSqrt sqrt) (sh : F) :
    (scenarioSphere sh).Normal sqrt ⟨0, 0, 1⟩ = ⟨0, 0, 1⟩ := by
  have hinner : ((⟨0, 0, 1⟩ : Vec3 F).Sub Vec3.zero).Normalize sqrt = ⟨0, 0, 1⟩ := by
    have : (⟨0, 0, 1⟩ : Vec3 F).Sub Vec3.zero = ⟨0, 0, 1⟩ := by
      simp only [Vec3.Sub, Vec3.zero]
      ext <;> simp
    rw [this]
    exact Normalize_z_axis sqrt hsqrt 1 one_pos
  have hT : Mat4.Inv (Mat4.Transpose (1 : Mat4 F)) = 1 := by
    simp only [Mat4.Transpose, Matrix.transpose_one]
    exact Mat4.Inv_one
  have hout : Vec4.Vec3 (Mat4.Mul4x1 (1 : Mat4 F) ((⟨0, 0, 1⟩ : Vec3 F).Vec4 0)) =
      ⟨0, 0, 1⟩ := by
    simp [Mat4.Mul4x1, Vec4.Vec3, Vec3.Vec4]
  show (Vec4.Vec3 ((Mat4.Inv (Mat4.Transpose 1)).Mul4x1
    ((((objOrigin 1 (⟨0, 0, 1⟩ : Vec3 F)).Sub Vec3.zero).Normalize sqrt).Vec4 0))).Normalize
      sqrt = _
  rw [objOrigin_one, hinner, hT, hout]
  exact Normalize_z_axis sqrt hsqrt 1 one_pos

/-- The primary ray of the centre pixel of the scenario scene, for odd sizes
`2·a + 1` and `2·b + 1`, is `(0, 0, -1)`. -/
theorem scenario_ray_centre (sqrt tan atan : F → F) (hsqrt : IsSqrt sqrt) (a b : Nat)
    (fovY : F) (att : Vec3 F) (sh : F) :
    ray sqrt tan atan ((a : F) + 0.5) ((b : F) + 0.5)
      (scenarioScene (2 * (a : Int) + 1) (2 * (b : Int) + 1) fovY att sh) = ⟨0, 0, -1⟩ := by
  obtain ⟨hu, hv, hw⟩ := scenario_camera sqrt hsqrt (2 * (a : Int) + 1) (2 * (b : Int) + 1)
    fovY att sh
  have hi : (a : F) + 0.5 - ((2 * (a : Int) + 1 : Int) : F) / 2 = 0 := by
    push_cast; norm_num; ring
  have hj : (b : F) + 0.5 - ((2 * (b : Int) + 1 : Int) : F) / 2 = 0 := by
    push_cast; norm_num; ring
  rw [ray_eq, hu, hv, hw, scenario_direction]
  simp only [scenarioScene, hi, hj, neg_zero, mul_zero, zero_div]
  exact Vec3.Normalize_of_unit sqrt hsqrt _ (by simp [Vec3.Dot])

/-- The primary ray of the centre pixel hits the sphere at distance `4`. -/
theorem scenario_trace_primary (sqrt : F → F) (hsqrt : IsSqrt sqrt) (width height : Int)
    (fovY : F) (att : Vec3 F) (sh : F) :
    trace sqrt ⟨0, 0, 5⟩ ⟨0, 0, -1⟩ (scenarioScene width height fovY att sh) =
      (some (Shape.sphere (scenarioSphere sh)), 4) := by
  have hI : (Shape.sphere (scenarioSphere sh)).Intersect sqrt (⟨0, 0, 5⟩ : Vec3 F) ⟨0, 0, -1⟩ =
      4 := by
    simp only [Shape.Intersect]
    rw [scenarioSphere_axis sqrt hsqrt sh 5 (-1) (by norm_num)]
    have h1 : (1 : F) - -1 * 5 = 6 := by norm_num
    have h2 : (-1 : F) - -1 * 5 = 4 := by norm_num
    rw [h1, h2, if_pos ⟨by norm_num, by norm_num⟩, min_eq_right (by norm_num)]
  rw [trace_single_shape sqrt _ _ _ _ rfl, hI, if_pos (by norm_num)]

/-- The pole `(0, 0, 1)` of the sphere is lit by the directional light: the
shadow ray, cast from `(0, 0, 1.01)` along `(0, 0, 1)`, misses the sphere. -/
theorem scenario_isLit (sqrt : F → F) (hsqrt : IsSqrt sqrt) (width height : Int)
    (fovY : F) (att : Vec3 F) (sh : F) :
    isLit sqrt ⟨0, 0, 1⟩ scenarioLight (scenarioScene width height fovY att sh) = true := by
  have ho : (⟨0, 0, 1⟩ : Vec3 F).Add ((scenarioLight : Light F).Pos.Mul 0.01) =
      ⟨0, 0, 101 / 100⟩ := by
    simp only [scenarioLight, Vec3.Add, Vec3.Mul]
    ext <;> norm_num
  have hI : (Shape.sphere (scenarioSphere sh)).Intersect sqrt (⟨0, 0, 101 / 100⟩ : Vec3 F)
      ⟨0, 0, 1⟩ = -1 := by
    simp only [Shape.Intersect]
    rw [scenarioSphere_axis sqrt hsqrt sh (101 / 100) 1 (by norm_num)]
    have h1 : ¬ ((1 : F) - 1 * (101 / 100) > 0) := by norm_num
    have h2 : ¬ ((-1 : F) - 1 * (101 / 100) > 0) := by norm_num
    rw [if_neg (fun h => h1 h.1), if_neg h1, if_neg h2]
  have ht : trace sqrt (⟨0, 0, 101 / 100⟩ : Vec3 F) ⟨0, 0, 1⟩
      (scenarioScene width height fovY att sh) = (none, -1) := by
    rw [trace_single_shape sqrt _ _ _ _ rfl, hI, if_neg (by norm_num)]
  have hdir : (scenarioLight : Light F).IsDirectional = true := rfl
  have hpos : (scenarioLight : Light F).Pos = ⟨0, 0, 1⟩ := rfl
  simp only [isLit, hdir, if_true, ho]
  rw [hpos, ht]
  simp

/-- The Lambert and Phong terms of the light at the pole of the sphere, seen
from the eye: the diffuse colour, as the normal, the light direction and the
eye direction are all `(0, 0, 1)` and the specular colour is zero. -/
theorem scenario_lightTerms (sqrt : F → F) (pow : F → F → F) (hsqrt : IsSqrt sqrt)
    (width height : Int) (fovY : F) (att : Vec3 F) (sh : F) :
    lightTerms sqrt pow ⟨0, 0, 5⟩ ⟨0, 0, 1⟩ (Shape.sphere (scenarioSphere sh))
      (scenarioScene width height fovY att sh) scenarioLight = ⟨1 / 2, 1 / 2, 1 / 2⟩ := by
  have hn := scenarioSphere_Normal sqrt hsqrt sh
  have he : ((⟨0, 0, 5⟩ : Vec3 F).Sub ⟨0, 0, 1⟩).Normalize sqrt = ⟨0, 0, 1⟩ := by
    have : (⟨0, 0, 5⟩ : Vec3 F).Sub ⟨0, 0, 1⟩ = ⟨0, 0, 4⟩ := by
      simp only [Vec3.Sub]
      ext <;> norm_num
    rw [this]
    exact Normalize_z_axis sqrt hsqrt 4 (by norm_num)
  have hl : (scenarioLight : Light F).Pos.Normalize sqrt = ⟨0, 0, 1⟩ :=
    Normalize_z_axis sqrt hsqrt 1 one_pos
  have hh : ((⟨0, 0, 1⟩ : Vec3 F).Add ⟨0, 0, 1⟩).Normalize sqrt = ⟨0, 0, 1⟩ := by
    have : (⟨0, 0, 1⟩ : Vec3 F).Add ⟨0, 0, 1⟩ = ⟨0, 0, 2⟩ := by
      simp only [Vec3.Add]
      ext <;> norm_num
    rw [this]
    exact Normalize_z_axis sqrt hsqrt 2 (by norm_num)
  have hdir : (scenarioLight : Light F).IsDirectional = true := rfl
  simp only [lightTerms, Shape.Normal, hn, he, hdir, if_true, hl, hh]
  simp only [Shape.Diffuse, Shape.Specular, scenarioSphere, NewSphere, scenarioLight, MulElems,
    Vec3.zero, Vec3.Mul, Vec3.Add, Vec3.Dot]
  ext <;> simp

/-- The colour of the pole of the sphere with no reflection allowed:
ambient + diffuse. -/
theorem scenario_shade (sqrt : F → F) (pow : F → F → F) (hsqrt : IsSqrt sqrt)
    (width height : Int) (fovY : F) (att : Vec3 F) (sh : F) :
    calcColor sqrt pow ⟨0, 0, 5⟩ ⟨0, 0, 1⟩ (Shape.sphere (scenarioSphere sh)) 0
      (scenarioScene width height fovY att sh) = ⟨3 / 5, 3 / 5, 3 / 5⟩ := by
  have hlights : (scenarioScene width height fovY att sh).Lights = [scenarioLight] := rfl
  rw [calcColor]
  simp only [gt_iff_lt, lt_irrefl, and_false, dite_false, foldl_lightStep, hlights,
    List.filter_cons, scenario_isLit sqrt hsqrt width height fovY att sh, if_true,
    List.filter_nil, List.map_cons, List.map_nil, Vec3.sum,
    scenario_lightTerms sqrt pow hsqrt width height fovY att sh]
  simp only [Shape.Ambient, Shape.Emission, scenarioSphere, NewSphere, Vec3.zero, Vec3.Add]
  ext <;> norm_num

/-- The slot `(x, j)` of the buffer of `Draw`. -/
theorem Draw_slot (sqrt : F → F) (pow : F → F → F) (tan atan : F → F) (scene : Scene F)
    (x j : Nat) (hx : (x : Int) < scene.Width) (hj : (j : Int) < scene.Height) :
    ∃ screen, Draw sqrt pow tan atan scene = some screen ∧
      (screen[x]?).bind (fun col => col[j]?) = some (pixel sqrt pow tan atan scene x j) := by
  refine ⟨_, Draw_eq sqrt pow tan atan scene (by omega) (by omega), ?_⟩
  have hx1 : x < scene.Width.toNat := by omega
  have hj1 : j < scene.Height.toNat := by omega
  simp [List.getElem?_map, List.getElem?_range, hx1, hj1]

/-- C16. For the scene with odd `Width = 2·a + 1` and `Height = 2·b + 1`, eye
`(0, 0, 5)`, centre `(0, 0, 0)`, up `(0, 1, 0)`, `maxDepth = 0`, one sphere of
centre `(0, 0, 0)` and radius `1` under the identity transform with ambient
`(0.1, 0.1, 0.1)`, diffuse `(0.5, 0.5, 0.5)`, zero specular and emission, and
one white directional light of direction `(0, 0, 1)`, with `math.Sqrt` the
square root and whatever the field of view, the attenuation and the
shininess are: the centre pixel `(a, b)` of `Draw` is
`ambient + diffuse = (0.6, 0.6, 0.6)`. -/
theorem Draw_scenario_centre_pixel (sqrt : F → F) (pow : F → F → F) (tan atan : F → F)
    (hsqrt : IsSqrt sqrt) (a b : Nat) (fovY : F) (att : Vec3 F) (sh : F) :
    ∃ screen, Draw sqrt pow tan atan
        (scenarioScene (2 * (a : Int) + 1) (2 * (b : Int) + 1) fovY att sh) = some screen ∧
      (screen[a]?).bind (fun col => col[b]?) = some ⟨3 / 5, 3 / 5, 3 / 5⟩ := by
  obtain ⟨screen, hs, hslot⟩ := Draw_slot sqrt pow tan atan
    (scenarioScene (2 * (a : Int) + 1) (2 * (b : Int) + 1) fovY att sh) a b
    (by simp only [scenarioScene]; omega) (by simp only [scenarioScene]; omega)
  refine ⟨screen, hs, ?_⟩
  rw [hslot]
  congr 1
  have heye : (scenarioScene (2 * (a : Int) + 1) (2 * (b : Int) + 1) fovY att sh).Eye =
      ⟨0, 0, 5⟩ := rfl
  have hdepth : (scenarioScene (2 * (a : Int) + 1) (2 * (b : Int) + 1) fovY att sh).MaxDepth =
      0 := rfl
  have hpoint : (⟨0, 0, 5⟩ : Vec3 F).Add ((⟨0, 0, -1⟩ : Vec3 F).Mul 4) = ⟨0, 0, 1⟩ := by
    simp only [Vec3.Add, Vec3.Mul]
    ext <;> norm_num
  have hne : ¬ ((4 : F) = -1) := by norm_num
  simp only [pixel, scenario_ray_centre sqrt tan atan hsqrt a b fovY att sh, heye, hdepth,
    scenario_trace_primary sqrt hsqrt, hpoint, ne_eq, hne, not_false_eq_true, if_true,
    scenario_shade sqrt pow hsqrt]

/-- Witness of C16 on the reals: 3 × 3 pixels, `fovY = π/4`, attenuation
`(1, 0, 0)` and shininess `20`; the centre pixel is `(1, 1)`. -/
theorem Draw_scenario_centre_pixel_witness :
    IsSqrt Real.sqrt ∧
    ∃ screen, Draw Real.sqrt Real.rpow Real.tan Real.arctan
        (scenarioScene (2 * ((1 : Nat) : Int) + 1) (2 * ((1 : Nat) : Int) + 1) (Real.pi / 4)
          ⟨1, 0, 0⟩ 20 : Scene ℝ) = some screen ∧
      (screen[1]?).bind (fun col => col[1]?) = some ⟨3 / 5, 3 / 5, 3 / 5⟩ :=
  ⟨isSqrt_real, Draw_scenario_centre_pixel Real.sqrt Real.rpow Real.tan Real.arctan isSqrt_real
    1 1 (Real.pi / 4) ⟨1, 0, 0⟩ 20⟩

end ScenarioThms

end Raytracer
